import Mathlib

/-!
# Forum and public-character comment threads

A shallow embedding of the comment logic of `src/endpoints/forum.js` and
`src/endpoints/public-characters.js` (tree construction, comment creation,
cascade deletion, the article comment counter, the detail endpoints and the
deletion of a target), together with the Mongoose schemas of
`src/models/Comment.js`, `src/models/Article.js` and
`src/models/Character.js` as far as the handlers depend on them, the
handlers of both routers as `try` blocks whose store calls may reject, and
the connection flag of `src/database.js`.
-/

/-! ## Data model (`src/models`) -/

/-- The `target_type` enum of the comment schema. -/
inductive TargetType where
  | article
  | character
deriving DecidableEq, Inhabited

/-- The `author` sub-document of comments and articles. -/
structure Author where
  handle : String
  name : String
deriving DecidableEq, Inhabited

/-- A comment record (`src/models/Comment.js`). `parent_id = none` is
JavaScript `null`; `created_at` is a Mongoose `Date`, held as its epoch
milliseconds. The fields no handler of the two routers reads (`_id`,
`liked_by`, `updated_at`) are left out. -/
structure Comment where
  id : String
  target_id : String
  target_type : TargetType
  parent_id : Option String
  content : String
  author : Author
  created_at : Int
  likes : Int
deriving DecidableEq, Inhabited

/-! ## JavaScript values used by `buildCommentTree` -/

/-- A plain comment object: its identity (the position it has in
`plainComments`) and its fields. Two objects with equal fields are still
two objects. -/
abbrev PlainComment := Nat × Comment

/-- The exception a JavaScript expression can raise inside the tree builder. -/
inductive JsError where
  | typeError
deriving DecidableEq

/-- The names every object literal inherits from `Object.prototype`. -/
def objectPrototypeKeys : List String :=
  ["constructor", "__defineGetter__", "__defineSetter__", "hasOwnProperty",
   "__lookupGetter__", "__lookupSetter__", "isPrototypeOf", "propertyIsEnumerable",
   "toString", "valueOf", "__proto__", "toLocaleString"]

/-- What a property read on `map`, or the guard built from it, evaluates to. -/
inductive JsValue where
  | falsy
  | object (c : PlainComment)
  | builtin
deriving DecidableEq

/-- The object `map = {}` after some assignments `map[c.id] = c`: its own
properties, most recent assignment first. An id is a value of `generateId`
(base-36 digits), so every assignment creates or overwrites an own property.
Under the accessor name `__proto__` the assignment would set the prototype
instead: a read of that name finds the same comment, and a read of any other
name finds what is found here or one more inherited, truthy value, so the
builder returns what is returned here or throws. What is proved of every
returned tree therefore holds for such ids too; what is proved about
returning excludes them (`NoInheritedParent`). -/
abbrev IdMap := List (String × PlainComment)

/-- The read `map[key]`: the own property when there is one, otherwise the
member inherited from `Object.prototype` (a function or object, truthy, and
without a `replies` property), otherwise `undefined`. -/
def mapGet (map : IdMap) (key : String) : JsValue :=
  match map.lookup key with
  | some c => JsValue.object c
  | none => if key ∈ objectPrototypeKeys then JsValue.builtin else JsValue.falsy

/-- The guard `c.parent_id && map[c.parent_id]`: `null` and the empty string
are falsy and short-circuit. -/
def parentEntry (map : IdMap) (c : Comment) : JsValue :=
  match c.parent_id with
  | none => JsValue.falsy
  | some key => if key = "" then JsValue.falsy else mapGet map key

/-- A node of the returned structure: a comment with its `replies` array. -/
inductive CommentNode where
  | mk (comment : Comment) (replies : List CommentNode)

/-- The comment held by a node. -/
def CommentNode.comment : CommentNode → Comment
  | CommentNode.mk c _ => c

/-- The `replies` array of a node. -/
def CommentNode.replies : CommentNode → List CommentNode
  | CommentNode.mk _ rs => rs

mutual
/-- Equality of two nodes can be decided. -/
def CommentNode.decEq : (a b : CommentNode) → Decidable (a = b)
  | CommentNode.mk c rs, CommentNode.mk d ss =>
    if h : c = d then
      match CommentNode.decEqList rs ss with
      | isTrue hl => isTrue (by rw [h, hl])
      | isFalse hl => isFalse (fun e => hl (CommentNode.mk.inj e).2)
    else isFalse (fun e => h (CommentNode.mk.inj e).1)
/-- Equality of two sequences of nodes can be decided. -/
def CommentNode.decEqList : (xs ys : List CommentNode) → Decidable (xs = ys)
  | [], [] => isTrue rfl
  | [], _ :: _ => isFalse (fun e => List.noConfusion e)
  | _ :: _, [] => isFalse (fun e => List.noConfusion e)
  | a :: xs, b :: ys =>
    match CommentNode.decEq a b, CommentNode.decEqList xs ys with
    | isTrue h, isTrue hl => isTrue (by rw [h, hl])
    | isFalse h, _ => isFalse (fun e => h (List.cons.inj e).1)
    | _, isFalse hl => isFalse (fun e => hl (List.cons.inj e).2)
end

instance CommentNode.instDecidableEq : DecidableEq CommentNode := CommentNode.decEq

/-- The mutable part of the heap while the second `forEach` runs: the
`replies` array of each plain comment (by identity) and the array `roots`. -/
structure TreeState where
  replies : Nat → List PlainComment
  roots : List PlainComment

/-- Body of the second `forEach`: push `c` onto the parent's `replies`, or onto
`roots`. When the guard is a member of `Object.prototype`, `.replies` on it is
`undefined` and the call of `push` raises a TypeError. -/
def attach (map : IdMap) (st : TreeState) (c : PlainComment) : Except JsError TreeState :=
  match parentEntry map c.2 with
  | JsValue.object p =>
    Except.ok { st with replies := Function.update st.replies p.1 (st.replies p.1 ++ [c]) }
  | JsValue.builtin => Except.error JsError.typeError
  | JsValue.falsy => Except.ok { st with roots := st.roots ++ [c] }

/-- The comparator `new Date(a.created_at) - new Date(b.created_at)` read as
an order: `a` may stay before `b`. -/
def createdBefore (a b : PlainComment) : Prop := a.2.created_at ≤ b.2.created_at

instance createdBefore_decidable : DecidableRel createdBefore :=
  fun a b => inferInstanceAs (Decidable (a.2.created_at ≤ b.2.created_at))

/-- The inner `sortReplies`, read off as the value the sorted arrays denote.
`Array.prototype.sort` is stable, so with this comparator it is the stable
ascending sort; every array is visited once, so sorting in place and reading
the nested arrays afterwards is one pass. The numeric argument bounds the
nesting depth; the bound `buildCommentTree` passes is never reached
(`buildCommentTree_fuel_adequate`). -/
def sortReplies (replies : Nat → List PlainComment) : Nat → List PlainComment → List CommentNode
  | 0, _ => []
  | fuel + 1, items =>
    (items.insertionSort createdBefore).map fun item =>
      CommentNode.mk item.2
        (if (replies item.1).length > 0 then sortReplies replies fuel (replies item.1) else [])

/-- The first `forEach`: `c.replies = []; map[c.id] = c` for every comment in
turn, starting from the empty object. -/
def indexById (plainComments : List PlainComment) : IdMap :=
  plainComments.foldl (fun map c => (c.2.id, c) :: map) []

/-- The function `buildCommentTree` of `forum.js`. The documents come from a
`lean()` query, so the conversion by `toObject` leaves them as they are. -/
def buildCommentTree (comments : List Comment) : Except JsError (List CommentNode) :=
  let plainComments : List PlainComment := comments.enum
  let map : IdMap := indexById plainComments
  match plainComments.foldlM (attach map) { replies := fun _ => [], roots := [] } with
  | Except.error e => Except.error e
  | Except.ok st => Except.ok (sortReplies st.replies plainComments.length st.roots)

mutual
/-- Depth-first list of the comments of one node: the node, then its replies. -/
def CommentNode.flatten : CommentNode → List Comment
  | CommentNode.mk c rs => c :: flattenNodes rs
/-- Depth-first list of the comments of a sequence of nodes. -/
def flattenNodes : List CommentNode → List Comment
  | [] => []
  | n :: ns => n.flatten ++ flattenNodes ns
end

mutual
/-- Every node below and including one node. -/
def CommentNode.subnodes : CommentNode → List CommentNode
  | CommentNode.mk c rs => CommentNode.mk c rs :: subnodesOf rs
/-- Every node, at every depth, of a sequence of nodes. -/
def subnodesOf : List CommentNode → List CommentNode
  | [] => []
  | n :: ns => n.subnodes ++ subnodesOf ns
end

/-! ## Parent links as a graph

Vocabulary for stating and proving facts about nodes linked by a partial
parent function: ancestors, children, and the depth-first walk below a node. -/

namespace Forest

/-- The ancestor `d` parent links above `x`, when the chain is that long. -/
def up {α : Type} (par : α → Option α) : Nat → α → Option α
  | 0, x => some x
  | d + 1, x => (up par d x).bind par

/-- The members of `E` whose parent is `x`, in the order of `E`. -/
def kids {α : Type} [DecidableEq α] (E : List α) (par : α → Option α) (x : α) : List α :=
  E.filter (fun y => par y = some x)

/-- Run `g` on every element and concatenate, failing when any run fails. -/
def collect {α β : Type} (g : α → Option (List β)) : List α → Option (List β)
  | [] => some []
  | c :: cs =>
    match g c, collect g cs with
    | some a, some b => some (a ++ b)
    | _, _ => none

/-- Depth-first pre-order walk of `x` and everything below it; `none` when the
walk is deeper than the bound. -/
def walk {α : Type} [DecidableEq α] (E : List α) (par : α → Option α) : Nat → α → Option (List α)
  | 0, _ => none
  | f + 1, x => (collect (walk E par f) (kids E par x)).map (fun D => x :: D)

end Forest

/-! ## Parent links of a flat comment list -/

/-- The comment of the list that `c.parent_id` names, if any. -/
def parentOf (comments : List Comment) (c : Comment) : Option Comment :=
  match c.parent_id with
  | none => none
  | some key => comments.find? (fun p => p.id = key)

/-- Following parent links from `c` arrives, after visiting at most `fuel`
comments, at a comment whose `parent_id` is null or names no comment. -/
def reachesRoot (comments : List Comment) : Nat → Comment → Bool
  | 0, _ => false
  | fuel + 1, c =>
    match parentOf comments c with
    | none => true
    | some p => reachesRoot comments fuel p

/-- No two comments of the list share an id. -/
def UniqueIds (comments : List Comment) : Prop := (comments.map (fun c => c.id)).Nodup

instance UniqueIds_decidable (comments : List Comment) : Decidable (UniqueIds comments) :=
  inferInstanceAs (Decidable (List.Nodup (comments.map (fun c : Comment => c.id))))

/-- The parent links are acyclic: the chain of parents of every comment ends.
A chain without repetition visits at most `comments.length` comments, so this
is the same as `NoParentCycle` (`acyclicParents_iff_noParentCycle`). -/
def AcyclicParents (comments : List Comment) : Prop :=
  ∀ c ∈ comments, reachesRoot comments comments.length c = true

instance AcyclicParents_decidable (comments : List Comment) : Decidable (AcyclicParents comments) :=
  inferInstanceAs (Decidable (∀ c ∈ comments, reachesRoot comments comments.length c = true))

/-- No comment of the list is its own ancestor. -/
def NoParentCycle (comments : List Comment) : Prop :=
  ∀ c ∈ comments, ∀ d, Forest.up (parentOf comments) (d + 1) c ≠ some c

/-- The plain comment that the tree builder pushes `c` under, if any. -/
def treeParent (comments : List Comment) (c : PlainComment) : Option PlainComment :=
  if c ∈ comments.enum then
    match parentEntry (indexById comments.enum) c.2 with
    | JsValue.object p => some p
    | _ => none
  else none

/-- The identity of the plain comment that the guard of the second `forEach`
selects as parent, if it selects one. -/
def parentRef (map : IdMap) (c : Comment) : Option Nat :=
  match parentEntry map c with
  | JsValue.object p => some p.1
  | _ => none

/-- The array `replies` of the plain comment with identity `i` once the second
`forEach` has run. -/
def repliesOf (comments : List Comment) (i : Nat) : List PlainComment :=
  comments.enum.filter (fun c => parentRef (indexById comments.enum) c.2 = some i)

/-- The array `roots` once the second `forEach` has run. -/
def rootsOf (comments : List Comment) : List PlainComment :=
  comments.enum.filter (fun c => parentEntry (indexById comments.enum) c.2 = JsValue.falsy)

/-- Reads of `map` in the guard never reach an inherited member: no id is the
accessor name `__proto__`, and no `parent_id` that names no comment of the list
is the name of a member of `Object.prototype`. -/
def NoInheritedParent (comments : List Comment) : Prop :=
  (∀ c ∈ comments, c.id ≠ "__proto__") ∧
  ∀ c ∈ comments, ∀ k ∈ c.parent_id, k ∈ objectPrototypeKeys → ∃ p ∈ comments, p.id = k

instance NoInheritedParent_decidable (comments : List Comment) :
    Decidable (NoInheritedParent comments) :=
  inferInstanceAs (Decidable ((∀ c ∈ comments, c.id ≠ "__proto__") ∧
    ∀ c ∈ comments, ∀ k ∈ c.parent_id, k ∈ objectPrototypeKeys → ∃ p ∈ comments, p.id = k))

/-- The order in which siblings are meant to appear: by `created_at`. -/
def createdOrder (a b : CommentNode) : Prop := a.comment.created_at ≤ b.comment.created_at

instance createdBefore_total : IsTotal PlainComment createdBefore :=
  ⟨fun a b => Int.le_total a.2.created_at b.2.created_at⟩

instance createdBefore_trans : IsTrans PlainComment createdBefore :=
  ⟨fun _ _ _ hab hbc => Int.le_trans hab hbc⟩

/-! ## Sample data -/

/-- A comment on the article `art1` by user `ann`, with the given id, parent
and creation time. -/
def sampleComment (id : String) (parent : Option String) (t : Int) : Comment :=
  { id := id, target_id := "art1", target_type := TargetType.article, parent_id := parent,
    content := "hello", author := { handle := "ann", name := "Ann" }, created_at := t, likes := 0 }

/-- A thread with two levels of nesting, one reply whose parent is gone, and
creation times out of input order. -/
def sampleThread : List Comment :=
  [sampleComment "c1" none 50, sampleComment "c2" (some "c1") 40,
   sampleComment "c3" (some "gone") 10, sampleComment "c4" (some "c2") 30,
   sampleComment "c5" (some "c1") 20]

/-- The tree expected for `sampleThread`: roots `c3`, `c1`; under `c1` the
replies `c5`, `c2`; under `c2` the reply `c4`. -/
def sampleTree : List CommentNode :=
  [CommentNode.mk (sampleComment "c3" (some "gone") 10) [],
   CommentNode.mk (sampleComment "c1" none 50)
     [CommentNode.mk (sampleComment "c5" (some "c1") 20) [],
      CommentNode.mk (sampleComment "c2" (some "c1") 40)
        [CommentNode.mk (sampleComment "c4" (some "c2") 30) []]]]

/-! ## Stored documents and requests -/

/-- An article document (`src/models/Article.js`). The `updated_at` stamp that
Mongoose maintains on its own is left out. -/
structure Article where
  id : String
  title : String
  content : String
  category : String
  tags : List String
  author : Author
  created_at : Int
  views : Int
  likes : Int
  liked_by : List String
  comments_count : Int
deriving DecidableEq, Inhabited

/-- A public character document (`src/models/Character.js`). The card payload
`character_data` is arbitrary JSON, held as its text. -/
structure Character where
  id : String
  name : String
  description : String
  tags : List String
  uploader : Author
  uploaded_at : Int
  created_at : Int
  character_data : String
  avatar : String
  downloads : Int
  views : Int
  likes : Int
deriving DecidableEq, Inhabited

/-- The resolved identity `request.user.profile`. -/
structure Profile where
  handle : String
  name : String
  admin : Bool
deriving DecidableEq, Inhabited

/-- The three collections the handlers read and write. -/
structure Store where
  comments : List Comment
  articles : List Article
  characters : List Character
deriving DecidableEq, Inhabited

/-- The JSON bodies the handlers send. -/
inductive Body where
  | error (message : String)
  | comment (c : Comment)
  | article (a : Article)
  | deleted (deletedCount : Nat)
  | success
  | articles (list : List Article)
  | articleDetail (a : Article) (comments : List CommentNode) (user_liked : Bool)
  | liked (likes : Int) (liked : Bool) (message : String)
  | characters (list : List Character)
  | character (c : Character)
  | characterData (character_data : String)
  | imported (message : String) (file_name : String)
  | commentTree (roots : List CommentNode)
  | redirect (location : String)
  | file (contentType : String) (content : String)
deriving DecidableEq, Inhabited

/-- An HTTP response: status code and JSON body. -/
structure Response where
  status : Nat
  body : Body
deriving DecidableEq, Inhabited

/-- Why a store call rejects. -/
inductive StoreError where
  | validation
  | duplicateKey
deriving DecidableEq

/-! ## JavaScript strings -/

/-- The code points `String.prototype.trim` strips: WhiteSpace and
LineTerminator of ECMAScript. -/
def isJsWhitespace (c : Char) : Bool :=
  decide (c.toNat ∈ [0x09, 0x0A, 0x0B, 0x0C, 0x0D, 0x20, 0xA0, 0x1680, 0x2028, 0x2029,
    0x202F, 0x205F, 0x3000, 0xFEFF]) || (decide (0x2000 ≤ c.toNat) && decide (c.toNat ≤ 0x200A))

/-- The method `String.prototype.trim`. -/
def trim (s : String) : String :=
  String.mk ((s.data.dropWhile isJsWhitespace).reverse.dropWhile isJsWhitespace).reverse

/-- Truthiness of a value that is a string, `null` or `undefined`. -/
def truthy : Option String → Bool
  | none => false
  | some s => decide (s ≠ "")

/-! ## Store calls (Mongoose) -/

/-- The query `Comment.findOne({ id })`. -/
def Comment.findOne (comments : List Comment) (id : String) : Option Comment :=
  comments.find? (fun c => c.id = id)

/-- The query `Comment.find({ parent_id: parentId })`. -/
def Comment.find (comments : List Comment) (parentId : String) : List Comment :=
  comments.filter (fun c => c.parent_id = some parentId)

/-- The call `Comment.deleteMany({ id: { $in: ids } })`. -/
def Comment.deleteMany (comments : List Comment) (ids : List String) : List Comment :=
  comments.filter (fun c => c.id ∉ ids)

/-- The `required` validators of the comment schema; on a String path the
validator rejects the empty string. -/
def Comment.validate (c : Comment) : Bool :=
  decide (c.id ≠ "") && decide (c.target_id ≠ "") && decide (c.content ≠ "") &&
    decide (c.author.handle ≠ "") && decide (c.author.name ≠ "")

/-- The call `newComment.save()`: validation, then insertion under the unique
index on `id`. -/
def Comment.save (comments : List Comment) (c : Comment) : Except StoreError (List Comment) :=
  if c.validate = false then Except.error StoreError.validation
  else if c.id ∈ comments.map (fun x => x.id) then Except.error StoreError.duplicateKey
  else Except.ok (comments ++ [c])

/-- The query `Article.findOne({ id })`. -/
def Article.findOne (articles : List Article) (id : String) : Option Article :=
  articles.find? (fun a => a.id = id)

/-- The call `Article.updateOne({ id }, { $inc: { comments_count: delta } })`:
the first matching document is updated. -/
def Article.incCommentsCount : List Article → String → Int → List Article
  | [], _, _ => []
  | a :: rest, id, delta =>
    if a.id = id then { a with comments_count := a.comments_count + delta } :: rest
    else a :: Article.incCommentsCount rest id delta

/-- The `required` validators of the article schema. -/
def Article.validate (a : Article) : Bool :=
  decide (a.id ≠ "") && decide (a.title ≠ "") && decide (a.content ≠ "") &&
    decide (a.author.handle ≠ "") && decide (a.author.name ≠ "")

/-- The call `newArticle.save()`. -/
def Article.save (articles : List Article) (a : Article) : Except StoreError (List Article) :=
  if a.validate = false then Except.error StoreError.validation
  else if a.id ∈ articles.map (fun x => x.id) then Except.error StoreError.duplicateKey
  else Except.ok (articles ++ [a])

/-! ## Cascade deletion -/

/-- The inner `findChildren(parentId)`, with the array `commentsToDelete`
passed through. `none` stands for a recursion that never returns; the numeric
argument bounds the depth, and the bound the handlers pass cuts no returning
recursion short (`findChildren_fuel_adequate`). -/
def findChildren (comments : List Comment) : Nat → String → List String → Option (List String)
  | 0, _, _ => none
  | fuel + 1, parentId, commentsToDelete =>
    (Comment.find comments parentId).foldlM
      (fun acc child => findChildren comments fuel child.id (acc ++ [child.id])) commentsToDelete

namespace Forum

/-- Handler of `POST /articles`. -/
def postArticle (s : Store) (user : Option Profile) (title content : Option String)
    (category : Option String) (tags : Option (List String)) (newId : String) (now : Int) :
    Response × Store :=
  match title, content with
  | some title, some content =>
    if title = "" ∨ content = "" then
      ({ status := 400, body := Body.error "Title and content are required" }, s)
    else
      match user with
      | none => ({ status := 401, body := Body.error "Authentication required" }, s)
      | some profile =>
        let newArticle : Article :=
          { id := newId, title := trim title, content := trim content,
            category := if truthy category then category.getD "" else "discussion",
            tags := tags.getD [],
            author := { handle := profile.handle, name := profile.name },
            created_at := now, views := 0, likes := 0, liked_by := [], comments_count := 0 }
        match Article.save s.articles newArticle with
        | Except.error _ => ({ status := 500, body := Body.error "Failed to create article" }, s)
        | Except.ok articles => ({ status := 200, body := Body.article newArticle },
            { s with articles := articles })
  | _, _ => ({ status := 400, body := Body.error "Title and content are required" }, s)

/-- Handler of `POST /articles/:articleId/comments`. `newId` is the value of
`generateId()` and `now` the value of `new Date()`. -/
def postArticleComment (s : Store) (user : Option Profile) (articleId : String)
    (content parent_id : Option String) (newId : String) (now : Int) : Response × Store :=
  match content with
  | none => ({ status := 400, body := Body.error "Comment content is required" }, s)
  | some content =>
    if content = "" then
      ({ status := 400, body := Body.error "Comment content is required" }, s)
    else
      match user with
      | none => ({ status := 401, body := Body.error "Authentication required" }, s)
      | some profile =>
        match Article.findOne s.articles articleId with
        | none => ({ status := 404, body := Body.error "Article not found" }, s)
        | some _ =>
          let newComment : Comment :=
            { id := newId, target_id := articleId, target_type := TargetType.article,
              parent_id := if truthy parent_id then parent_id else none,
              content := trim content,
              author := { handle := profile.handle, name := profile.name },
              created_at := now, likes := 0 }
          match Comment.save s.comments newComment with
          | Except.error _ => ({ status := 500, body := Body.error "Failed to add comment" }, s)
          | Except.ok comments =>
            ({ status := 200, body := Body.comment newComment },
              { s with comments := comments,
                       articles := Article.incCommentsCount s.articles articleId 1 })

/-- Handler of `DELETE /comments/:commentId`. `none` means the handler never
answers, which happens when `findChildren` does not return. -/
def deleteComment (s : Store) (user : Option Profile) (commentId : String) :
    Option (Response × Store) :=
  match user with
  | none => some ({ status := 401, body := Body.error "Authentication required" }, s)
  | some profile =>
    match Comment.findOne s.comments commentId with
    | none => some ({ status := 404, body := Body.error "Comment not found" }, s)
    | some comment =>
      let isAuthor := decide (comment.author.handle = profile.handle)
      let isAdmin := profile.admin
      if !isAuthor && !isAdmin then
        some ({ status := 403, body := Body.error "Permission denied" }, s)
      else
        match findChildren s.comments s.comments.length commentId [comment.id] with
        | none => none
        | some commentsToDelete =>
          let comments := Comment.deleteMany s.comments commentsToDelete
          let articles :=
            if comment.target_type = TargetType.article then
              Article.incCommentsCount s.articles comment.target_id
                (-(commentsToDelete.length : Int))
            else s.articles
          some ({ status := 200, body := Body.deleted commentsToDelete.length },
            { s with comments := comments, articles := articles })

end Forum

namespace PublicCharacters

/-- Handler of `DELETE /:characterId/comments/:commentId`. The path parameter
`characterId` is not read. -/
def deleteComment (s : Store) (user : Option Profile) (_characterId commentId : String) :
    Option (Response × Store) :=
  match user with
  | none => some ({ status := 401, body := Body.error "Authentication required" }, s)
  | some profile =>
    match Comment.findOne s.comments commentId with
    | none => some ({ status := 404, body := Body.error "Comment not found" }, s)
    | some comment =>
      let isAuthor := decide (comment.author.handle = profile.handle)
      let isAdmin := profile.admin
      if !isAuthor && !isAdmin then
        some ({ status := 403, body := Body.error "Permission denied" }, s)
      else
        match findChildren s.comments s.comments.length commentId [comment.id] with
        | none => none
        | some commentsToDelete =>
          some ({ status := 200, body := Body.success },
            { s with comments := Comment.deleteMany s.comments commentsToDelete })

end PublicCharacters

/-! ## Descendants in the comment store -/

/-- The `parent_id` of the stored comment with the given id. -/
def idParent (comments : List Comment) (id : String) : Option String :=
  (Comment.findOne comments id).bind (fun c => c.parent_id)

/-- The comment `x` is a reply, at any depth, below the comment with id
`rootId`: it is stored and its chain of parent ids leads to `rootId`. -/
inductive IsReplyBelow (comments : List Comment) (rootId : String) : Comment → Prop where
  | direct {x : Comment} :
      x ∈ comments → x.parent_id = some rootId → IsReplyBelow comments rootId x
  | nested {x p : Comment} :
      x ∈ comments → IsReplyBelow comments rootId p → x.parent_id = some p.id →
      IsReplyBelow comments rootId x

/-! ## The counter invariant and sample stores -/

/-- Every article's `comments_count` is the number of stored comments attached
to it. -/
def CounterConsistent (s : Store) : Prop :=
  ∀ a ∈ s.articles, a.comments_count
    = ((s.comments.filter
        (fun c => c.target_type = TargetType.article ∧ c.target_id = a.id)).length : Int)

instance CounterConsistent_decidable (s : Store) : Decidable (CounterConsistent s) :=
  inferInstanceAs (Decidable (∀ a ∈ s.articles, a.comments_count
    = ((s.comments.filter
        (fun c => c.target_type = TargetType.article ∧ c.target_id = a.id)).length : Int)))

/-- An article by `ann` with the given id and counter. -/
def sampleArticle (id : String) (count : Int) : Article :=
  { id := id, title := "Title", content := "Body", category := "discussion", tags := [],
    author := { handle := "ann", name := "Ann" }, created_at := 1, views := 0, likes := 0,
    liked_by := [], comments_count := count }

/-- The store of the cascade example: under article `art1` the comments
`C1: [C2, C3]`, `C2: [C4]`; under article `art2` one further comment. -/
def sampleStore : Store :=
  { comments :=
      [sampleComment "C1" none 10, sampleComment "C2" (some "C1") 20,
       sampleComment "C3" (some "C1") 30, sampleComment "C4" (some "C2") 40,
       { sampleComment "C9" none 50 with target_id := "art2" }],
    articles := [sampleArticle "art1" 4, sampleArticle "art2" 1],
    characters := [] }

/-- The store `sampleStore` after the cascade delete of `C1`. -/
def sampleStoreAfter : Store :=
  { comments := [{ sampleComment "C9" none 50 with target_id := "art2" }],
    articles := [sampleArticle "art1" 0, sampleArticle "art2" 1],
    characters := [] }

/-- The user `ann`, author of the sample comments. -/
def ann : Profile := { handle := "ann", name := "Ann", admin := false }

/-- Another user, not an administrator. -/
def bob : Profile := { handle := "bob", name := "Bob", admin := false }

/-- The empty store. -/
def emptyStore : Store := { comments := [], articles := [], characters := [] }

/-- The store after `ann` has posted the article `a1`. -/
def driftStore1 : Store :=
  { comments := [],
    articles := [sampleArticle "a1" 0],
    characters := [] }

/-- The comment `c1` that `ann` then posts on `a1`. -/
def driftComment : Comment :=
  { id := "c1", target_id := "a1", target_type := TargetType.article, parent_id := none,
    content := "hi", author := { handle := "ann", name := "Ann" }, created_at := 2, likes := 0 }

/-- The store after the comment `c1` has been posted. -/
def driftStore2 : Store :=
  { comments := [driftComment],
    articles := [sampleArticle "a1" 1],
    characters := [] }

/-- The store after `c1` has been deleted through the character route. -/
def driftStore3 : Store :=
  { comments := [],
    articles := [sampleArticle "a1" 1],
    characters := [] }

/-! ## Further store calls -/

/-- The query `Comment.find({ target_id, target_type })`. -/
def Comment.findByTarget (comments : List Comment) (targetId : String) (targetType : TargetType) :
    List Comment :=
  comments.filter (fun c => c.target_id = targetId ∧ c.target_type = targetType)

/-- The call `Comment.deleteMany({ target_id, target_type })`. -/
def Comment.deleteManyByTarget (comments : List Comment) (targetId : String)
    (targetType : TargetType) : List Comment :=
  comments.filter (fun c => ¬ (c.target_id = targetId ∧ c.target_type = targetType))

/-- The call `Article.findOneAndUpdate({ id }, update, { new: true })`: the
first matching document is updated and returned as updated; `none` is `null`. -/
def Article.findOneAndUpdate :
    List Article → String → (Article → Article) → Option Article × List Article
  | [], _, _ => (none, [])
  | a :: rest, id, update =>
    if a.id = id then (some (update a), update a :: rest)
    else
      let r := Article.findOneAndUpdate rest id update
      (r.1, a :: r.2)

/-- The call `Article.deleteOne({ id })`. -/
def Article.deleteOne (articles : List Article) (id : String) : List Article :=
  articles.eraseP (fun a => a.id = id)

/-- The call `article.save()` on a document read from the store: validation,
then the stored document with that id is replaced. -/
def Article.saveExisting (articles : List Article) (a : Article) :
    Except StoreError (List Article) :=
  if a.validate = false then Except.error StoreError.validation
  else Except.ok (Article.findOneAndUpdate articles a.id (fun _ => a)).2

/-- The query `Character.findOne({ id })`. -/
def Character.findOne (characters : List Character) (id : String) : Option Character :=
  characters.find? (fun c => c.id = id)

/-- The call `Character.findOneAndUpdate({ id }, update, { new: true })`. -/
def Character.findOneAndUpdate :
    List Character → String → (Character → Character) → Option Character × List Character
  | [], _, _ => (none, [])
  | c :: rest, id, update =>
    if c.id = id then (some (update c), update c :: rest)
    else
      let r := Character.findOneAndUpdate rest id update
      (r.1, c :: r.2)

/-- The call `Character.deleteOne({ id })`. -/
def Character.deleteOne (characters : List Character) (id : String) : List Character :=
  characters.eraseP (fun c => c.id = id)

/-- The `required` validators of the character schema. -/
def Character.validate (c : Character) : Bool :=
  decide (c.id ≠ "") && decide (c.name ≠ "") && decide (c.uploader.handle ≠ "") &&
    decide (c.uploader.name ≠ "") && decide (c.avatar ≠ "")

/-- The call `newCharacter.save()`. -/
def Character.save (characters : List Character) (c : Character) :
    Except StoreError (List Character) :=
  if c.validate = false then Except.error StoreError.validation
  else if c.id ∈ characters.map (fun x => x.id) then Except.error StoreError.duplicateKey
  else Except.ok (characters ++ [c])

/-! ## Detail, create and target-delete handlers -/

namespace Forum

/-- Handler of `GET /articles/:articleId`. A TypeError raised by
`buildCommentTree` is caught by the handler's `catch`; the view counter has
been incremented by then. -/
def getArticle (s : Store) (user : Option Profile) (articleId : String) : Response × Store :=
  match Article.findOneAndUpdate s.articles articleId
      (fun a => { a with views := a.views + 1 }) with
  | (none, _) => ({ status := 404, body := Body.error "Article not found" }, s)
  | (some article, articles) =>
    let comments := Comment.findByTarget s.comments articleId TargetType.article
    match buildCommentTree comments with
    | Except.error _ =>
      ({ status := 500, body := Body.error "Failed to get article" },
        { s with articles := articles })
    | Except.ok tree =>
      let user_liked :=
        match user with
        | some profile => decide (profile.handle ∈ article.liked_by)
        | none => false
      ({ status := 200, body := Body.articleDetail article tree user_liked },
        { s with articles := articles })

/-- Handler of `DELETE /articles/:articleId`. -/
def deleteArticle (s : Store) (user : Option Profile) (articleId : String) : Response × Store :=
  match user with
  | none => ({ status := 401, body := Body.error "Authentication required" }, s)
  | some profile =>
    match Article.findOne s.articles articleId with
    | none => ({ status := 404, body := Body.error "Article not found" }, s)
    | some article =>
      let isAuthor := decide (article.author.handle = profile.handle)
      let isAdmin := profile.admin
      if !isAuthor && !isAdmin then
        ({ status := 403, body := Body.error "Permission denied" }, s)
      else
        ({ status := 200, body := Body.success },
          { s with articles := Article.deleteOne s.articles articleId,
                   comments := Comment.deleteManyByTarget s.comments articleId
                     TargetType.article })

end Forum

namespace PublicCharacters

/-- The function `buildCommentTree` of `public-characters.js`, the second copy
of the builder in the source. -/
def buildCommentTree (comments : List Comment) : Except JsError (List CommentNode) :=
  let plainComments : List PlainComment := comments.enum
  let map : IdMap := indexById plainComments
  match plainComments.foldlM (attach map) { replies := fun _ => [], roots := [] } with
  | Except.error e => Except.error e
  | Except.ok st => Except.ok (sortReplies st.replies plainComments.length st.roots)

/-- Handler of `GET /:characterId`, the character detail. -/
def getCharacter (s : Store) (characterId : String) : Response × Store :=
  match Character.findOneAndUpdate s.characters characterId
      (fun c => { c with views := c.views + 1 }) with
  | (none, _) => ({ status := 404, body := Body.error "Character not found" }, s)
  | (some character, characters) =>
    ({ status := 200, body := Body.character character }, { s with characters := characters })

/-- Handler of `GET /:characterId/comments`. -/
def getComments (s : Store) (characterId : String) : Response × Store :=
  let comments := Comment.findByTarget s.comments characterId TargetType.character
  match buildCommentTree comments with
  | Except.error _ => ({ status := 500, body := Body.error "Failed to get comments" }, s)
  | Except.ok tree => ({ status := 200, body := Body.commentTree tree }, s)

/-- Handler of `POST /:characterId/comments`. The body field read for the
parent is `parentId`. -/
def postComment (s : Store) (user : Option Profile) (characterId : String)
    (content parentId : Option String) (newId : String) (now : Int) : Response × Store :=
  match user with
  | none => ({ status := 401, body := Body.error "Authentication required" }, s)
  | some profile =>
    match content with
    | none => ({ status := 400, body := Body.error "Content is required" }, s)
    | some content =>
      if content = "" then
        ({ status := 400, body := Body.error "Content is required" }, s)
      else
        match Character.findOne s.characters characterId with
        | none => ({ status := 404, body := Body.error "Character not found" }, s)
        | some _ =>
          let newComment : Comment :=
            { id := newId, target_id := characterId, target_type := TargetType.character,
              parent_id := if truthy parentId then parentId else none,
              content := trim content,
              author := { handle := profile.handle, name := profile.name },
              created_at := now, likes := 0 }
          match Comment.save s.comments newComment with
          | Except.error _ => ({ status := 500, body := Body.error "Failed to add comment" }, s)
          | Except.ok comments =>
            ({ status := 200, body := Body.comment newComment }, { s with comments := comments })

/-- Handler of `DELETE /:characterId`. The removal of the avatar file touches
the file system only; it is taken to succeed. -/
def deleteCharacter (s : Store) (user : Option Profile) (characterId : String) :
    Response × Store :=
  match user with
  | none => ({ status := 401, body := Body.error "Authentication required" }, s)
  | some profile =>
    match Character.findOne s.characters characterId with
    | none => ({ status := 404, body := Body.error "Character not found" }, s)
    | some character =>
      let isUploader := decide (character.uploader.handle = profile.handle)
      let isAdmin := profile.admin
      if !isUploader && !isAdmin then
        ({ status := 403, body := Body.error "Permission denied" }, s)
      else
        ({ status := 200, body := Body.success },
          { s with characters := Character.deleteOne s.characters characterId,
                   comments := Comment.deleteManyByTarget s.comments characterId
                     TargetType.character })

end PublicCharacters

/-! ## The connection flag (`src/database.js`) -/

namespace Database

/-- A call made to the Mongoose driver. -/
inductive DriverCall where
  | connect (uri : String)
  | disconnect
deriving DecidableEq

/-- The module state: the variable `isConnected`, and the driver calls made so
far, oldest first. -/
structure State where
  isConnected : Bool
  driverCalls : List DriverCall
deriving DecidableEq

/-- How a call of an exported function ends for its caller. -/
inductive Completion where
  | returned
  | threw (message : String)
deriving DecidableEq

/-- The default of `process.env.MONGODB_URI`. -/
def defaultUri : String := "mongodb://localhost:27017/sillytavern"

/-- The function `connectDatabase`. `mongodbUri` is the environment variable;
`driver` is what `mongoose.connect` does if it is called: resolve, or reject
with a message. -/
def connectDatabase (mongodbUri : Option String) (driver : Except String Unit) (st : State) :
    Completion × State :=
  if st.isConnected then (Completion.returned, st)
  else
    let uri := if truthy mongodbUri then mongodbUri.getD "" else defaultUri
    match driver with
    | Except.ok _ =>
      (Completion.returned,
        { isConnected := true, driverCalls := st.driverCalls ++ [DriverCall.connect uri] })
    | Except.error _ =>
      (Completion.returned,
        { st with driverCalls := st.driverCalls ++ [DriverCall.connect uri] })

/-- The function `disconnectDatabase`; `driver` is what `mongoose.disconnect`
does if it is called. -/
def disconnectDatabase (driver : Except String Unit) (st : State) : Completion × State :=
  if !st.isConnected then (Completion.returned, st)
  else
    match driver with
    | Except.ok _ =>
      (Completion.returned,
        { isConnected := false, driverCalls := st.driverCalls ++ [DriverCall.disconnect] })
    | Except.error _ =>
      (Completion.returned,
        { st with driverCalls := st.driverCalls ++ [DriverCall.disconnect] })

end Database

/-! ## Sample stores with a character -/

/-- A character uploaded by `ann` with the given id and view counter. -/
def sampleCharacter (id : String) (views : Int) : Character :=
  { id := id, name := "Hero", description := "", tags := [],
    uploader := { handle := "ann", name := "Ann" }, uploaded_at := 1, created_at := 1,
    character_data := "\x7b\x7d", avatar := "hero.png", downloads := 0, views := views,
    likes := 0 }

/-- A comment by `ann` on the character `ch1`. -/
def characterComment (id : String) (parent : Option String) (t : Int) : Comment :=
  { sampleComment id parent t with target_id := "ch1", target_type := TargetType.character }

/-- A store with the character `ch1` and, under it, the comments
`K1: [K2, K3]`. -/
def characterStore : Store :=
  { comments :=
      [characterComment "K1" none 10, characterComment "K2" (some "K1") 20,
       characterComment "K3" (some "K1") 30],
    articles := [],
    characters := [sampleCharacter "ch1" 0] }

/-- The tree of the comments of article `art1` in `sampleStore`. -/
def sampleStoreTree : List CommentNode :=
  [CommentNode.mk (sampleComment "C1" none 10)
    [CommentNode.mk (sampleComment "C2" (some "C1") 20)
       [CommentNode.mk (sampleComment "C4" (some "C2") 40) []],
     CommentNode.mk (sampleComment "C3" (some "C1") 30) []]]

/-- The tree of the comments of character `ch1` in `characterStore`. -/
def characterStoreTree : List CommentNode :=
  [CommentNode.mk (characterComment "K1" none 10)
    [CommentNode.mk (characterComment "K2" (some "K1") 20) [],
     CommentNode.mk (characterComment "K3" (some "K1") 30) []]]

/-- A store with one article and one character that carry the same id `x1`,
each with one comment. -/
def sharedIdStore : Store :=
  { comments :=
      [{ sampleComment "A1" none 10 with target_id := "x1" },
       { sampleComment "B1" none 20 with target_id := "x1",
                                         target_type := TargetType.character }],
    articles := [sampleArticle "x1" 1],
    characters := [sampleCharacter "x1" 0] }

/-! ## Handlers with failing store calls

The handlers above are the runs in which every awaited store call resolves.
Below, the body of a handler's `try` is a sequence of awaited store calls, any
of which may reject; the `catch` of the handler turns a rejection into the
response. Every handler of the two routers that awaits the store is listed;
`/categories`, the two `/search` redirects, `/upload-image`, `/images/:filename`
and `/avatar/:filename` never call the store. -/

/-- The message of the error a store call rejects with when the store itself
refuses the document. -/
def StoreError.message : StoreError → String
  | StoreError.validation => "ValidationError: Path is required."
  | StoreError.duplicateKey => "MongoServerError: E11000 duplicate key error collection"

/-- The statements of a `try` block that produces an `α`: return, await a store
call and go on with its result, throw from other code, or never return. -/
inductive TryBlock (α : Type) : Type 1 where
  | done (a : α)
  | await {β : Type} (call : Store → Except String (β × Store)) (next : β → TryBlock α)
  | throwJs (message : String)
  | never

/-- Sequencing of statements. -/
def TryBlock.bind {α β : Type} : TryBlock α → (α → TryBlock β) → TryBlock β
  | TryBlock.done a, f => f a
  | TryBlock.await call next, f => TryBlock.await call (fun b => (next b).bind f)
  | TryBlock.throwJs message, _ => TryBlock.throwJs message
  | TryBlock.never, _ => TryBlock.never

instance TryBlock.instMonad : Monad TryBlock where
  pure := TryBlock.done
  bind := TryBlock.bind

/-- An awaited query. -/
def TryBlock.query {β : Type} (f : Store → β) : TryBlock β :=
  TryBlock.await (fun s => Except.ok (f s, s)) TryBlock.done

/-- An awaited update that returns a value. -/
def TryBlock.exec {β : Type} (f : Store → β × Store) : TryBlock β :=
  TryBlock.await (fun s => Except.ok (f s)) TryBlock.done

/-- An awaited call that the store may refuse. -/
def TryBlock.write (f : Store → Except StoreError Store) : TryBlock Unit :=
  TryBlock.await
    (fun s =>
      match f s with
      | Except.error e => Except.error e.message
      | Except.ok s' => Except.ok ((), s'))
    TryBlock.done

/-- The failures of the driver during one request: `faults k = some message`
makes the store call number `k` of the request (counted from 0) reject with
that message. -/
abbrev Faults := Nat → Option String

/-- No driver failure. -/
def noFaults : Faults := fun _ => none

/-- The store, and the number of store calls the request has issued. -/
structure RunState where
  store : Store
  calls : Nat
deriving DecidableEq

/-- How a `try` block ends. -/
inductive Outcome (α : Type) where
  | returned (a : α)
  | storeThrew (message : String)
  | jsThrew (message : String)
  | never
deriving DecidableEq

/-- Execution of a `try` block. A store call that rejects changes nothing in
the store. -/
def TryBlock.run {α : Type} : TryBlock α → Faults → RunState → Outcome α × RunState
  | TryBlock.done a, _, st => (Outcome.returned a, st)
  | TryBlock.await call next, faults, st =>
    match faults st.calls with
    | some message => (Outcome.storeThrew message, { st with calls := st.calls + 1 })
    | none =>
      match call st.store with
      | Except.error message => (Outcome.storeThrew message, { st with calls := st.calls + 1 })
      | Except.ok (b, store) => (next b).run faults { store := store, calls := st.calls + 1 }
  | TryBlock.throwJs message, _, st => (Outcome.jsThrew message, st)
  | TryBlock.never, _, st => (Outcome.never, st)

/-- A handler `try { block } catch (error) { console.error(..., error);
response.status(500).json({ error: failText }) }`. `none` means that no
response is sent. -/
def respond (failText : String) (block : TryBlock Response) (faults : Faults) (s : Store) :
    Option (Response × Store) :=
  match block.run faults { store := s, calls := 0 } with
  | (Outcome.returned r, st) => some (r, st.store)
  | (Outcome.storeThrew _, st) => some ({ status := 500, body := Body.error failText }, st.store)
  | (Outcome.jsThrew _, st) => some ({ status := 500, body := Body.error failText }, st.store)
  | (Outcome.never, _) => none

/-- The inner `findChildren(parentId)` with its awaited queries: one
`Comment.find({ parent_id })` for every call of the function. -/
def findChildrenBlock : Nat → String → List String → TryBlock (List String)
  | 0, _, _ => TryBlock.never
  | fuel + 1, parentId, commentsToDelete => do
    let children ← TryBlock.query (fun s => Comment.find s.comments parentId)
    children.foldlM
      (fun acc child => findChildrenBlock fuel child.id (acc ++ [child.id])) commentsToDelete

/-! ## The requests and what the handlers take from their environment -/

/-- The upload that `multer` hands to the handler (`request.file`). -/
structure UploadedFile where
  path : String
  originalname : String
  mimetype : String
  size : Nat
deriving DecidableEq, Inhabited

/-- What a handler reads of a request: the resolved identity, the path
parameters, the query string and the body. A field that is absent is `none`. -/
structure Request where
  user : Option Profile := none
  articleId : String := ""
  characterId : String := ""
  commentId : String := ""
  q : Option String := none
  category : Option String := none
  author : Option String := none
  uploader : Option String := none
  tagsQuery : Option (List String) := none
  page : Option String := none
  limit : Option String := none
  title : Option String := none
  content : Option String := none
  tags : Option (List String) := none
  parent_id : Option String := none
  parentId : Option String := none
  name : Option String := none
  description : Option String := none
  tagsText : Option String := none
  file : Option UploadedFile := none

/-- The values a handler takes from outside the store: generated ids, the
clock, and the library and file-system code whose results the handlers only
pass on. `regExp` is `new RegExp(q, 'i')` as a test on strings, `none` when the
constructor throws; `parseInt` is `none` for `NaN`; `fileType` is the
classification of an upload by MIME type and extension; `parseFile` reads the
character data of an upload and moves the file, `none` when any of that
throws; `parseTags` reads the `tags` form field; `importToLibrary` is
`importCharacterToUserLibrary`, which touches the file system only and
returns the file name or the message of the error it caught; `unlinkAvatar`
is the removal of the stored avatar file, with the message of the error it
throws. -/
structure Env where
  newId : String
  now : Int
  regExp : String → Option (String → Bool)
  parseInt : Option String → Option Int
  fileType : UploadedFile → Option String
  parseFile : String → UploadedFile → Option String
  parseTags : String → List String
  importToLibrary : Character → Profile → Except String String
  unlinkAvatar : String → Except String Unit

/-- The expression `parseInt(x) || d`. -/
def orDefault (parsed : Option Int) (d : Int) : Int :=
  match parsed with
  | none => d
  | some n => if n = 0 then d else n

/-- Order of `sort({ created_at: -1 })`. -/
def Article.newerFirst (a b : Article) : Prop := b.created_at ≤ a.created_at

instance Article.newerFirst_decidable : DecidableRel Article.newerFirst :=
  fun a b => inferInstanceAs (Decidable (b.created_at ≤ a.created_at))

/-- The query `Article.find(query).sort({ created_at: -1 }).skip(skip)
.limit(limit).lean()`. The server refuses a negative skip and reads a negative
limit as its absolute value. -/
def Article.findPage (articles : List Article) (query : Article → Bool) (skip limit : Int) :
    Except String (List Article) :=
  if skip < 0 then Except.error "MongoServerError: Skip value must be non-negative"
  else
    Except.ok ((((articles.filter query).insertionSort Article.newerFirst).drop
      skip.toNat).take limit.natAbs)

/-- Order of `sort({ uploaded_at: -1 })`. -/
def Character.newerFirst (a b : Character) : Prop := b.uploaded_at ≤ a.uploaded_at

instance Character.newerFirst_decidable : DecidableRel Character.newerFirst :=
  fun a b => inferInstanceAs (Decidable (b.uploaded_at ≤ a.uploaded_at))

/-- The query `Character.find(query).select('-character_data')
.sort({ uploaded_at: -1 }).skip(skip).limit(limit).lean()`; the unselected
payload is left empty. -/
def Character.findPage (characters : List Character) (query : Character → Bool)
    (skip limit : Int) : Except String (List Character) :=
  if skip < 0 then Except.error "MongoServerError: Skip value must be non-negative"
  else
    Except.ok (((((characters.filter query).insertionSort Character.newerFirst).drop
      skip.toNat).take limit.natAbs).map (fun c => { c with character_data := "" }))

/-- The test a query-string filter makes: no test when the parameter is
absent or empty. -/
def matchesParam (param : Option String) (value : String) : Bool :=
  if truthy param then decide (value = param.getD "") else true

/-! ## The `try` blocks of the forum router -/

namespace Forum

/-- Block of `GET /articles`. -/
def getArticlesBlock (env : Env) (req : Request) : TryBlock Response := do
  let search : Article → Bool ←
    (if truthy req.q then
      match env.regExp (req.q.getD "") with
      | none => TryBlock.throwJs "SyntaxError: Invalid regular expression"
      | some searchRegex =>
        pure (fun a => searchRegex a.title || searchRegex a.content || a.tags.any searchRegex)
    else pure (fun _ => true))
  let pageNum := orDefault (env.parseInt req.page) 1
  let limitNum := orDefault (env.parseInt req.limit) 100
  let skip := (pageNum - 1) * limitNum
  let articles ← TryBlock.await
    (fun s =>
      (Article.findPage s.articles
        (fun a => search a && matchesParam req.category a.category
          && matchesParam req.author a.author.handle) skip limitNum).map (fun r => (r, s)))
    TryBlock.done
  pure { status := 200, body := Body.articles articles }

/-- Block of `GET /articles/:articleId`. -/
def getArticleBlock (req : Request) : TryBlock Response := do
  let article ← TryBlock.exec (fun s =>
    let r := Article.findOneAndUpdate s.articles req.articleId
      (fun a => { a with views := a.views + 1 })
    (r.1, { s with articles := r.2 }))
  match article with
  | none => pure { status := 404, body := Body.error "Article not found" }
  | some article =>
    let comments ← TryBlock.query (fun s =>
      Comment.findByTarget s.comments req.articleId TargetType.article)
    match buildCommentTree comments with
    | Except.error _ => TryBlock.throwJs "TypeError: Cannot read properties of undefined"
    | Except.ok tree =>
      let user_liked :=
        match req.user with
        | some profile => decide (profile.handle ∈ article.liked_by)
        | none => false
      pure { status := 200, body := Body.articleDetail article tree user_liked }

/-- Block of `POST /articles`. -/
def postArticleBlock (env : Env) (req : Request) : TryBlock Response :=
  match req.title, req.content with
  | some title, some content =>
    if title = "" ∨ content = "" then
      pure { status := 400, body := Body.error "Title and content are required" }
    else
      match req.user with
      | none => pure { status := 401, body := Body.error "Authentication required" }
      | some profile => do
        let newArticle : Article :=
          { id := env.newId, title := trim title, content := trim content,
            category := if truthy req.category then req.category.getD "" else "discussion",
            tags := req.tags.getD [],
            author := { handle := profile.handle, name := profile.name },
            created_at := env.now, views := 0, likes := 0, liked_by := [], comments_count := 0 }
        TryBlock.write (fun s =>
          (Article.save s.articles newArticle).map (fun articles =>
            { s with articles := articles }))
        pure { status := 200, body := Body.article newArticle }
  | _, _ => pure { status := 400, body := Body.error "Title and content are required" }

/-- Block of `PUT /articles/:articleId`. -/
def putArticleBlock (req : Request) : TryBlock Response :=
  match req.user with
  | none => pure { status := 401, body := Body.error "Authentication required" }
  | some profile => do
    let found ← TryBlock.query (fun s => Article.findOne s.articles req.articleId)
    match found with
    | none => pure { status := 404, body := Body.error "Article not found" }
    | some found =>
      let isAuthor := decide (found.author.handle = profile.handle)
      let isAdmin := profile.admin
      if !isAuthor && !isAdmin then
        pure { status := 403, body := Body.error "Permission denied" }
      else
        let article : Article :=
          { found with
            title := if truthy req.title then trim (req.title.getD "") else found.title,
            content := if truthy req.content then trim (req.content.getD "") else found.content,
            category := if truthy req.category then req.category.getD "" else found.category,
            tags := req.tags.getD found.tags }
        TryBlock.write (fun s =>
          (Article.saveExisting s.articles article).map (fun articles =>
            { s with articles := articles }))
        pure { status := 200, body := Body.article article }

/-- Block of `DELETE /articles/:articleId`. -/
def deleteArticleBlock (req : Request) : TryBlock Response :=
  match req.user with
  | none => pure { status := 401, body := Body.error "Authentication required" }
  | some profile => do
    let article ← TryBlock.query (fun s => Article.findOne s.articles req.articleId)
    match article with
    | none => pure { status := 404, body := Body.error "Article not found" }
    | some article =>
      let isAuthor := decide (article.author.handle = profile.handle)
      let isAdmin := profile.admin
      if !isAuthor && !isAdmin then
        pure { status := 403, body := Body.error "Permission denied" }
      else
        TryBlock.exec (fun s =>
          ((), { s with articles := Article.deleteOne s.articles req.articleId }))
        TryBlock.exec (fun s =>
          ((), { s with comments :=
            Comment.deleteManyByTarget s.comments req.articleId TargetType.article }))
        pure { status := 200, body := Body.success }

/-- Block of `POST /articles/:articleId/comments`. -/
def postArticleCommentBlock (env : Env) (req : Request) : TryBlock Response :=
  match req.content with
  | none => pure { status := 400, body := Body.error "Comment content is required" }
  | some content =>
    if content = "" then
      pure { status := 400, body := Body.error "Comment content is required" }
    else
      match req.user with
      | none => pure { status := 401, body := Body.error "Authentication required" }
      | some profile => do
        let article ← TryBlock.query (fun s => Article.findOne s.articles req.articleId)
        match article with
        | none => pure { status := 404, body := Body.error "Article not found" }
        | some _ =>
          let newComment : Comment :=
            { id := env.newId, target_id := req.articleId, target_type := TargetType.article,
              parent_id := if truthy req.parent_id then req.parent_id else none,
              content := trim content,
              author := { handle := profile.handle, name := profile.name },
              created_at := env.now, likes := 0 }
          TryBlock.write (fun s =>
            (Comment.save s.comments newComment).map (fun comments =>
              { s with comments := comments }))
          TryBlock.exec (fun s =>
            ((), { s with articles := Article.incCommentsCount s.articles req.articleId 1 }))
          pure { status := 200, body := Body.comment newComment }

/-- Block of `DELETE /comments/:commentId`. -/
def deleteCommentBlock (fuel : Nat) (req : Request) : TryBlock Response :=
  match req.user with
  | none => pure { status := 401, body := Body.error "Authentication required" }
  | some profile => do
    let comment ← TryBlock.query (fun s => Comment.findOne s.comments req.commentId)
    match comment with
    | none => pure { status := 404, body := Body.error "Comment not found" }
    | some comment =>
      let isAuthor := decide (comment.author.handle = profile.handle)
      let isAdmin := profile.admin
      if !isAuthor && !isAdmin then
        pure { status := 403, body := Body.error "Permission denied" }
      else
        let commentsToDelete ← findChildrenBlock fuel req.commentId [comment.id]
        TryBlock.exec (fun s =>
          ((), { s with comments := Comment.deleteMany s.comments commentsToDelete }))
        let delta : Int := -(commentsToDelete.length : Int)
        if comment.target_type = TargetType.article then
          TryBlock.exec (fun s =>
            ((), { s with
              articles := Article.incCommentsCount s.articles comment.target_id delta }))
        pure { status := 200, body := Body.deleted commentsToDelete.length }

/-- Block of `POST /articles/:articleId/like`. When the second call finds no
article, `updatedArticle.likes` throws. -/
def likeBlock (req : Request) : TryBlock Response :=
  match req.user with
  | none => pure { status := 401, body := Body.error "Authentication required" }
  | some profile => do
    let userHandle := profile.handle
    let article ← TryBlock.query (fun s => Article.findOne s.articles req.articleId)
    match article with
    | none => pure { status := 404, body := Body.error "Article not found" }
    | some article =>
      let hasLiked := decide (userHandle ∈ article.liked_by)
      let updateQuery : Article → Article :=
        if hasLiked then
          fun a => { a with liked_by := a.liked_by.filter (fun h => h ≠ userHandle),
                            likes := a.likes - 1 }
        else fun a => { a with liked_by := a.liked_by ++ [userHandle], likes := a.likes + 1 }
      let updatedArticle ← TryBlock.exec (fun s =>
        let r := Article.findOneAndUpdate s.articles req.articleId updateQuery
        (r.1, { s with articles := r.2 }))
      match updatedArticle with
      | none => TryBlock.throwJs "TypeError: Cannot read properties of null"
      | some updatedArticle =>
        pure { status := 200,
               body := Body.liked updatedArticle.likes (!hasLiked)
                 (if hasLiked then "取消点赞" else "点赞成功") }

end Forum

/-! ## The `try` blocks of the character router -/

namespace PublicCharacters

/-- Block of `GET /`. -/
def getCharactersBlock (env : Env) (req : Request) : TryBlock Response := do
  let page := orDefault (env.parseInt req.page) 1
  let limit := orDefault (env.parseInt req.limit) 1000
  let skip := (page - 1) * limit
  let search : Character → Bool ←
    (if truthy req.q then
      match env.regExp (req.q.getD "") with
      | none => TryBlock.throwJs "SyntaxError: Invalid regular expression"
      | some regex => pure (fun c => regex c.name || regex c.description || c.tags.any regex)
    else pure (fun _ => true))
  let hasTags : Character → Bool :=
    match req.tagsQuery with
    | none => fun _ => true
    | some tags => fun c => tags.all (fun t => decide (t ∈ c.tags))
  let characters ← TryBlock.await
    (fun s =>
      (Character.findPage s.characters
        (fun c => search c && matchesParam req.uploader c.uploader.handle && hasTags c)
        skip limit).map (fun r => (r, s)))
    TryBlock.done
  pure { status := 200, body := Body.characters characters }

/-- Block of `GET /:characterId`. -/
def getCharacterBlock (req : Request) : TryBlock Response := do
  let character ← TryBlock.exec (fun s =>
    let r := Character.findOneAndUpdate s.characters req.characterId
      (fun c => { c with views := c.views + 1 })
    (r.1, { s with characters := r.2 }))
  match character with
  | none => pure { status := 404, body := Body.error "Character not found" }
  | some character => pure { status := 200, body := Body.character character }

/-- Block of `POST /upload`, the handler that runs after `validateFileType`. -/
def uploadBlock (env : Env) (req : Request) : TryBlock Response :=
  match req.user with
  | none => pure { status := 401, body := Body.error "Authentication required" }
  | some profile =>
    match req.file with
    | none => pure { status := 400, body := Body.error "请选择角色卡文件" }
    | some file =>
      match env.fileType file with
      | none =>
        pure { status := 400, body := Body.error "无法识别的文件类型: 仅支持 PNG, JSON, YAML" }
      | some fileType =>
        if truthy req.name = false then
          pure { status := 400, body := Body.error "请输入角色名称" }
        else
          let characterId := env.newId
          match env.parseFile fileType file with
          | none => pure { status := 400, body := Body.error "角色卡文件格式错误或损坏" }
          | some characterData => do
            let avatarPath := characterId ++ "." ++ fileType
            let parsedTags := if truthy req.tagsText then env.parseTags (req.tagsText.getD "") else []
            let newCharacter : Character :=
              { id := characterId, name := trim (req.name.getD ""),
                description := (req.description.map trim).getD "",
                tags := parsedTags,
                uploader := { handle := profile.handle, name := profile.name },
                uploaded_at := env.now, created_at := env.now,
                character_data := characterData, avatar := avatarPath,
                downloads := 0, views := 0, likes := 0 }
            TryBlock.write (fun s =>
              (Character.save s.characters newCharacter).map (fun characters =>
                { s with characters := characters }))
            pure { status := 200, body := Body.character newCharacter }

/-- Block of `DELETE /:characterId`. -/
def deleteCharacterBlock (env : Env) (req : Request) : TryBlock Response :=
  match req.user with
  | none => pure { status := 401, body := Body.error "Authentication required" }
  | some profile => do
    let character ← TryBlock.query (fun s => Character.findOne s.characters req.characterId)
    match character with
    | none => pure { status := 404, body := Body.error "Character not found" }
    | some character =>
      let isUploader := decide (character.uploader.handle = profile.handle)
      let isAdmin := profile.admin
      if !isUploader && !isAdmin then
        pure { status := 403, body := Body.error "Permission denied" }
      else
        TryBlock.exec (fun s =>
          ((), { s with characters := Character.deleteOne s.characters req.characterId }))
        TryBlock.exec (fun s =>
          ((), { s with comments :=
            Comment.deleteManyByTarget s.comments req.characterId TargetType.character }))
        match (if character.avatar = "" then Except.ok () else env.unlinkAvatar character.avatar) with
        | Except.error message => TryBlock.throwJs message
        | Except.ok _ => pure { status := 200, body := Body.success }

/-- Block of `POST /:characterId/download`. -/
def downloadBlock (req : Request) : TryBlock Response := do
  let character ← TryBlock.exec (fun s =>
    let r := Character.findOneAndUpdate s.characters req.characterId
      (fun c => { c with downloads := c.downloads + 1 })
    (r.1, { s with characters := r.2 }))
  match character with
  | none => pure { status := 404, body := Body.error "Character not found" }
  | some character =>
    pure { status := 200, body := Body.characterData character.character_data }

/-- Block of `POST /:characterId/import`. The text sent when the import into
the user's library fails is the message of a file-system error, or the
default text; no store call is involved in it. -/
def importBlock (env : Env) (req : Request) : TryBlock Response :=
  match req.user with
  | none => pure { status := 401, body := Body.error "Authentication required" }
  | some profile => do
    let character ← TryBlock.exec (fun s =>
      let r := Character.findOneAndUpdate s.characters req.characterId
        (fun c => { c with downloads := c.downloads + 1 })
      (r.1, { s with characters := r.2 }))
    match character with
    | none => pure { status := 404, body := Body.error "Character not found" }
    | some character =>
      match env.importToLibrary character profile with
      | Except.ok fileName =>
        pure { status := 200, body := Body.imported "角色卡导入成功" fileName }
      | Except.error message =>
        pure { status := 500, body := Body.error (if message = "" then "导入失败" else message) }

/-- Block of `GET /:characterId/comments`. -/
def getCommentsBlock (req : Request) : TryBlock Response := do
  let comments ← TryBlock.query (fun s =>
    Comment.findByTarget s.comments req.characterId TargetType.character)
  match buildCommentTree comments with
  | Except.error _ => TryBlock.throwJs "TypeError: Cannot read properties of undefined"
  | Except.ok tree => pure { status := 200, body := Body.commentTree tree }

/-- Block of `POST /:characterId/comments`. -/
def postCommentBlock (env : Env) (req : Request) : TryBlock Response :=
  match req.user with
  | none => pure { status := 401, body := Body.error "Authentication required" }
  | some profile =>
    match req.content with
    | none => pure { status := 400, body := Body.error "Content is required" }
    | some content =>
      if content = "" then
        pure { status := 400, body := Body.error "Content is required" }
      else do
        let character ← TryBlock.query (fun s => Character.findOne s.characters req.characterId)
        match character with
        | none => pure { status := 404, body := Body.error "Character not found" }
        | some _ =>
          let newComment : Comment :=
            { id := env.newId, target_id := req.characterId,
              target_type := TargetType.character,
              parent_id := if truthy req.parentId then req.parentId else none,
              content := trim content,
              author := { handle := profile.handle, name := profile.name },
              created_at := env.now, likes := 0 }
          TryBlock.write (fun s =>
            (Comment.save s.comments newComment).map (fun comments =>
              { s with comments := comments }))
          pure { status := 200, body := Body.comment newComment }

/-- Block of `DELETE /:characterId/comments/:commentId`. -/
def deleteCommentBlock (fuel : Nat) (req : Request) : TryBlock Response :=
  match req.user with
  | none => pure { status := 401, body := Body.error "Authentication required" }
  | some profile => do
    let comment ← TryBlock.query (fun s => Comment.findOne s.comments req.commentId)
    match comment with
    | none => pure { status := 404, body := Body.error "Comment not found" }
    | some comment =>
      let isAuthor := decide (comment.author.handle = profile.handle)
      let isAdmin := profile.admin
      if !isAuthor && !isAdmin then
        pure { status := 403, body := Body.error "Permission denied" }
      else
        let commentsToDelete ← findChildrenBlock fuel req.commentId [comment.id]
        TryBlock.exec (fun s =>
          ((), { s with comments := Comment.deleteMany s.comments commentsToDelete }))
        pure { status := 200, body := Body.success }

end PublicCharacters

/-! ## The handlers of the two routers that call the store -/

/-- The handlers that await the document store. -/
inductive Route where
  | forumGetArticles
  | forumGetArticle
  | forumPostArticle
  | forumPutArticle
  | forumDeleteArticle
  | forumPostComment
  | forumDeleteComment
  | forumLike
  | charactersGetAll
  | charactersGetOne
  | charactersUpload
  | charactersDelete
  | charactersDownload
  | charactersImport
  | charactersGetComments
  | charactersPostComment
  | charactersDeleteComment
deriving DecidableEq

/-- The text in the `catch` of each handler. -/
def failText : Route → String
  | Route.forumGetArticles => "Failed to get articles"
  | Route.forumGetArticle => "Failed to get article"
  | Route.forumPostArticle => "Failed to create article"
  | Route.forumPutArticle => "Failed to update article"
  | Route.forumDeleteArticle => "Failed to delete article"
  | Route.forumPostComment => "Failed to add comment"
  | Route.forumDeleteComment => "Failed to delete comment"
  | Route.forumLike => "Failed to toggle like"
  | Route.charactersGetAll => "Failed to get public characters"
  | Route.charactersGetOne => "Failed to get character"
  | Route.charactersUpload => "Failed to upload character"
  | Route.charactersDelete => "Failed to delete character"
  | Route.charactersDownload => "Failed to download character"
  | Route.charactersImport => "Failed to import character"
  | Route.charactersGetComments => "Failed to get comments"
  | Route.charactersPostComment => "Failed to add comment"
  | Route.charactersDeleteComment => "Failed to delete comment"

/-- The `try` block of each handler. `fuel` bounds the depth of `findChildren`. -/
def tryBlock (env : Env) (fuel : Nat) (req : Request) : Route → TryBlock Response
  | Route.forumGetArticles => Forum.getArticlesBlock env req
  | Route.forumGetArticle => Forum.getArticleBlock req
  | Route.forumPostArticle => Forum.postArticleBlock env req
  | Route.forumPutArticle => Forum.putArticleBlock req
  | Route.forumDeleteArticle => Forum.deleteArticleBlock req
  | Route.forumPostComment => Forum.postArticleCommentBlock env req
  | Route.forumDeleteComment => Forum.deleteCommentBlock fuel req
  | Route.forumLike => Forum.likeBlock req
  | Route.charactersGetAll => PublicCharacters.getCharactersBlock env req
  | Route.charactersGetOne => PublicCharacters.getCharacterBlock req
  | Route.charactersUpload => PublicCharacters.uploadBlock env req
  | Route.charactersDelete => PublicCharacters.deleteCharacterBlock env req
  | Route.charactersDownload => PublicCharacters.downloadBlock req
  | Route.charactersImport => PublicCharacters.importBlock env req
  | Route.charactersGetComments => PublicCharacters.getCommentsBlock req
  | Route.charactersPostComment => PublicCharacters.postCommentBlock env req
  | Route.charactersDeleteComment => PublicCharacters.deleteCommentBlock fuel req

/-- The response of a handler to a request, and the store it leaves, when the
driver fails as `faults` says. -/
def handle (route : Route) (env : Env) (req : Request) (faults : Faults) (s : Store) :
    Option (Response × Store) :=
  respond (failText route) (tryBlock env s.comments.length req route) faults s

/-- The message of the rejected store call that ended the handler's `try`
block, if one did. -/
def thrownByStore (route : Route) (env : Env) (req : Request) (faults : Faults) (s : Store) :
    Option String :=
  match ((tryBlock env s.comments.length req route).run faults { store := s, calls := 0 }).1 with
  | Outcome.storeThrew message => some message
  | _ => none

/-- An environment for the examples. -/
def sampleEnv : Env :=
  { newId := "n1", now := 100,
    regExp := fun _ => none,
    parseInt := fun _ => none,
    fileType := fun _ => some "json",
    parseFile := fun _ _ => some "\x7b\x7d",
    parseTags := fun _ => [],
    importToLibrary := fun _ _ => Except.error "ENOENT: no such file or directory",
    unlinkAvatar := fun _ => Except.ok () }

/-! ## Counting the queries of a cascade -/

/-- The number of `Comment.find({ parent_id })` queries that
`findChildren(commentId)` issues in the store `s` when no call fails. -/
def findChildrenQueries (s : Store) (commentId : String) : Nat :=
  ((findChildrenBlock s.comments.length commentId [commentId]).run noFaults
    { store := s, calls := 0 }).2.calls

/-- The number of levels of the subtree made of the comment `id` and the
replies below it, down to the depth `fuel`. -/
def subtreeLevels (comments : List Comment) : Nat → String → Nat
  | 0, _ => 0
  | fuel + 1, id =>
    1 + ((Comment.find comments id).map (fun c => subtreeLevels comments fuel c.id)).foldl max 0

/-- A root `R` with the two leaf replies `L1`, `L2`. -/
def starStore2 : Store :=
  { comments := [sampleComment "R" none 10, sampleComment "L1" (some "R") 20,
      sampleComment "L2" (some "R") 30],
    articles := [sampleArticle "art1" 3], characters := [] }

/-- A root `R` with the three leaf replies `L1`, `L2`, `L3`. -/
def starStore3 : Store :=
  { comments := [sampleComment "R" none 10, sampleComment "L1" (some "R") 20,
      sampleComment "L2" (some "R") 30, sampleComment "L3" (some "R") 40],
    articles := [sampleArticle "art1" 4], characters := [] }

/-! ## Sequences of requests -/

/-- A request to one of the handlers that create a comment, delete a comment
or delete a target, with the identifier and the date the handler generates. -/
inductive Op where
  | postArticleComment (user : Option Profile) (articleId : String)
      (content parent_id : Option String) (newId : String) (now : Int)
  | postCharacterComment (user : Option Profile) (characterId : String)
      (content parentId : Option String) (newId : String) (now : Int)
  | deleteForumComment (user : Option Profile) (commentId : String)
  | deleteCharacterComment (user : Option Profile) (characterId commentId : String)
  | deleteArticle (user : Option Profile) (articleId : String)
  | deleteCharacter (user : Option Profile) (characterId : String)
deriving DecidableEq

/-- The store after the request has been handled, whatever the answer was;
`none` when the handler never answers. -/
def Op.apply (s : Store) : Op → Option Store
  | Op.postArticleComment user articleId content parent_id newId now =>
    some (Forum.postArticleComment s user articleId content parent_id newId now).2
  | Op.postCharacterComment user characterId content parentId newId now =>
    some (PublicCharacters.postComment s user characterId content parentId newId now).2
  | Op.deleteForumComment user commentId =>
    (Forum.deleteComment s user commentId).map (fun r => r.2)
  | Op.deleteCharacterComment user characterId commentId =>
    (PublicCharacters.deleteComment s user characterId commentId).map (fun r => r.2)
  | Op.deleteArticle user articleId => some (Forum.deleteArticle s user articleId).2
  | Op.deleteCharacter user characterId =>
    some (PublicCharacters.deleteCharacter s user characterId).2

/-- The states reachable from a store that holds targets but no comment, by
requests that `allowed` admits in the state they arrive in. -/
inductive Reachable (allowed : Store → Op → Prop) : Store → Prop where
  | init {s : Store} : s.comments = [] → Reachable allowed s
  | step {s s' : Store} (op : Op) :
      Reachable allowed s → allowed s op → op.apply s = some s' → Reachable allowed s'

/-- No condition on the requests. -/
def anyRequest (_ : Store) (_ : Op) : Prop := True

/-- The id generated for a create request is the id of no stored comment. -/
def FreshId (s : Store) : Op → Prop
  | Op.postArticleComment _ _ _ _ newId _ => newId ∉ s.comments.map (fun c => c.id)
  | Op.postCharacterComment _ _ _ _ newId _ => newId ∉ s.comments.map (fun c => c.id)
  | _ => True

/-- The id generated for a create request is the id of no stored comment, the
`parent_id` of no stored comment, and not the parent id of the request. -/
def FreshAmongParents (s : Store) : Op → Prop
  | Op.postArticleComment _ _ _ parent_id newId _ =>
    newId ∉ s.comments.map (fun c => c.id) ∧ (∀ c ∈ s.comments, c.parent_id ≠ some newId) ∧
      parent_id ≠ some newId
  | Op.postCharacterComment _ _ _ parentId newId _ =>
    newId ∉ s.comments.map (fun c => c.id) ∧ (∀ c ∈ s.comments, c.parent_id ≠ some newId) ∧
      parentId ≠ some newId
  | _ => True

/-- A create request names no parent, or the id of a stored comment of the
target it is addressed to. -/
def ParentStored (s : Store) : Op → Prop
  | Op.postArticleComment _ articleId _ parent_id _ _ =>
    ∀ p ∈ parent_id, p ≠ "" →
      ∃ q ∈ s.comments, q.id = p ∧ q.target_id = articleId ∧ q.target_type = TargetType.article
  | Op.postCharacterComment _ characterId _ parentId _ _ =>
    ∀ p ∈ parentId, p ≠ "" →
      ∃ q ∈ s.comments, q.id = p ∧ q.target_id = characterId ∧
        q.target_type = TargetType.character
  | _ => True

/-- Every stored comment with a non-null `parent_id` names another stored
comment, and that comment has the same target id and target type. -/
def ParentsStored (comments : List Comment) : Prop :=
  ∀ c ∈ comments, ∀ p ∈ c.parent_id,
    ∃ q ∈ comments, q ≠ c ∧ q.id = p ∧ q.target_id = c.target_id ∧
      q.target_type = c.target_type

instance ParentsStored_decidable (comments : List Comment) :
    Decidable (ParentsStored comments) :=
  inferInstanceAs (Decidable (∀ c ∈ comments, ∀ p ∈ c.parent_id,
    ∃ q ∈ comments, q ≠ c ∧ q.id = p ∧ q.target_id = c.target_id ∧
      q.target_type = c.target_type))

/-- The store `driftStore1` after a comment whose parent id names no comment
has been posted on `a1`. -/
def danglingStore : Store :=
  { comments := [{ driftComment with parent_id := some "nope" }],
    articles := [sampleArticle "a1" 1],
    characters := [] }

/-- The store `driftStore1` after the comment `a` with parent id `b` has been
posted on `a1`. -/
def cycleStore1 : Store :=
  { comments := [{ driftComment with id := "a", parent_id := some "b" }],
    articles := [sampleArticle "a1" 1],
    characters := [] }

/-- The store `cycleStore1` after the comment `b` with parent id `a` has been
posted on `a1`. -/
def cycleStore : Store :=
  { comments := [{ driftComment with id := "a", parent_id := some "b" },
      { driftComment with id := "b", parent_id := some "a", created_at := 3 }],
    articles := [sampleArticle "a1" 2],
    characters := [] }

/-- The store `driftStore2` after the reply `c2` to `c1` has been posted. -/
def replyStore : Store :=
  { comments := [driftComment,
      { driftComment with id := "c2", parent_id := some "c1", content := "re", created_at := 3 }],
    articles := [sampleArticle "a1" 2],
    characters := [] }

/-! ## Counting the comments of a tree (`public/scripts/public-characters.js`) -/

mutual
/-- The function `countTotalComments` of the front end: the length of the
list, plus the count of the `replies` array of every element. The arrays come
from the JSON of `buildCommentTree`, where `replies` is always an array. -/
def countTotalComments : List CommentNode → Nat
  | [] => 0
  | c :: rest => 1 + CommentNode.countReplies c + countTotalComments rest
/-- The count of the `replies` array of one comment. -/
def CommentNode.countReplies : CommentNode → Nat
  | CommentNode.mk _ replies => countTotalComments replies
end

/-- The function `loadComments` of the front end: the number it writes into
`#commentsCount` after `GET /:characterId/comments`, or `none` when the
response is not ok and the element keeps its text. -/
def loadComments (s : Store) (characterId : String) : Option Nat :=
  let response := (PublicCharacters.getComments s characterId).1
  if response.status = 200 then
    match response.body with
    | Body.commentTree comments => some (countTotalComments comments)
    | _ => none
  else none

/-! ## Siblings in the tree -/

/-- The comment of the list under which the builder places `c`: the comment
that a non-empty `parent_id` names, `none` for a root. -/
def placedUnder (comments : List Comment) (c : Comment) : Option Comment :=
  match c.parent_id with
  | none => none
  | some key => if key = "" then none else comments.find? (fun p => p.id = key)

/-- Any two different comments of the list that the builder places in the same
array (the roots, or the replies of one comment) differ in `created_at`. -/
def DistinctSiblingTimes (comments : List Comment) : Prop :=
  ∀ a ∈ comments, ∀ b ∈ comments, a ≠ b →
    placedUnder comments a = placedUnder comments b → a.created_at ≠ b.created_at

instance DistinctSiblingTimes_decidable (comments : List Comment) :
    Decidable (DistinctSiblingTimes comments) :=
  inferInstanceAs (Decidable (∀ a ∈ comments, ∀ b ∈ comments, a ≠ b →
    placedUnder comments a = placedUnder comments b → a.created_at ≠ b.created_at))

/-- The plain comments of the list whose `parent_id` is the non-empty id of
`c`: with unique ids, the array `replies` of `c`. -/
def repliesTo (comments : List Comment) (c : Comment) : List PlainComment :=
  comments.enum.filter (fun x => decide (x.2.parent_id = some c.id ∧ c.id ≠ ""))

/-- A list with a cycle of two comments, a comment that is its own parent, and
a root with one reply. -/
def cyclicThread : List Comment :=
  [sampleComment "a" (some "b") 10, sampleComment "b" (some "a") 20,
   sampleComment "s" (some "s") 30, sampleComment "d" none 40,
   sampleComment "e" (some "d") 50]

/-- Two roots created at the same time, one without parent and one whose
parent is gone. -/
def tiedRoots : List Comment :=
  [sampleComment "r1" none 10, sampleComment "r2" (some "gone") 10]

/-! ## The like handler -/

namespace Forum

/-- Handler of `POST /articles/:articleId/like`, every store call resolving.
`$pull` removes every occurrence of the handle, `$push` appends it. -/
def likeArticle (s : Store) (user : Option Profile) (articleId : String) : Response × Store :=
  match user with
  | none => ({ status := 401, body := Body.error "Authentication required" }, s)
  | some profile =>
    let userHandle := profile.handle
    match Article.findOne s.articles articleId with
    | none => ({ status := 404, body := Body.error "Article not found" }, s)
    | some article =>
      let hasLiked := decide (userHandle ∈ article.liked_by)
      let updateQuery : Article → Article :=
        if hasLiked then
          fun a => { a with liked_by := a.liked_by.filter (fun h => h ≠ userHandle),
                            likes := a.likes - 1 }
        else fun a => { a with liked_by := a.liked_by ++ [userHandle], likes := a.likes + 1 }
      match Article.findOneAndUpdate s.articles articleId updateQuery with
      | (none, _) => ({ status := 500, body := Body.error "Failed to toggle like" }, s)
      | (some updatedArticle, articles) =>
        ({ status := 200,
           body := Body.liked updatedArticle.likes (!hasLiked)
             (if hasLiked then "取消点赞" else "点赞成功") },
          { s with articles := articles })

end Forum

/-- The field `likes` is the number of entries of `liked_by`, and no handle is
entered twice. -/
def LikesConsistent (a : Article) : Prop :=
  a.liked_by.Nodup ∧ a.likes = (a.liked_by.length : Int)

instance LikesConsistent_decidable (a : Article) : Decidable (LikesConsistent a) :=
  inferInstanceAs (Decidable (a.liked_by.Nodup ∧ a.likes = (a.liked_by.length : Int)))

/-- A sequence of like requests on one article, each handled to its end before
the next: the store they leave, and the responses in order, each with the
handle of the user it was sent to. -/
def likeRequests (articleId : String) : Store → List Profile → Store × List (String × Response)
  | s, [] => (s, [])
  | s, profile :: rest =>
    let r := Forum.likeArticle s (some profile) articleId
    let t := likeRequests articleId r.2 rest
    (t.1, (profile.handle, r.1) :: t.2)

/-- The last response that was sent to the user `handle`. -/
def lastResponse : List (String × Response) → String → Option Response
  | [], _ => none
  | (h, r) :: rest, handle =>
    match lastResponse rest handle with
    | some later => some later
    | none => if h = handle then some r else none

/-- A store with one article, liked by `ann`. -/
def likedStore : Store :=
  { comments := [],
    articles := [{ sampleArticle "a1" 0 with likes := 1, liked_by := ["ann"] }],
    characters := [] }

/-! ## JavaScript and Node library functions used on names and paths -/

namespace Js

/-- The method `String.prototype.toLowerCase` on the letters `A` to `Z`; other
characters are left as they are. No character outside `A` to `Z` is mapped by
the method to `.`, `/` or a letter of the extensions tested below. -/
def toLowerCase (s : String) : String := String.mk (s.data.map Char.toLower)

/-- The method `String.prototype.endsWith`. -/
def endsWith (s suffix : String) : Bool := suffix.data.reverse.isPrefixOf s.data.reverse

/-- The method `String.prototype.includes`. -/
def includes (s sub : String) : Bool := s.data.tails.any (fun t => sub.data.isPrefixOf t)

/-- The value of a hexadecimal digit. -/
def hexValue (c : Char) : Option Nat :=
  if '0' ≤ c ∧ c ≤ '9' then some (c.toNat - 48)
  else if 'a' ≤ c ∧ c ≤ 'f' then some (c.toNat - 87)
  else if 'A' ≤ c ∧ c ≤ 'F' then some (c.toNat - 55)
  else none

/-- A character of the argument of `decodeURIComponent`, or the byte that an
escape `%XX` stands for. -/
inductive UriToken where
  | unit (c : Char)
  | byte (b : Nat)
deriving DecidableEq

/-- The escapes of a string, read off; `none` for a `%` that two hexadecimal
digits do not follow (URIError). -/
def uriTokens : List Char → Option (List UriToken)
  | [] => some []
  | '%' :: a :: b :: rest =>
    match hexValue a, hexValue b with
    | some h, some l => (uriTokens rest).map (fun ts => UriToken.byte (16 * h + l) :: ts)
    | _, _ => none
  | c :: rest => if c = '%' then none else (uriTokens rest).map (fun ts => UriToken.unit c :: ts)

/-- A continuation byte of UTF-8. -/
def isContinuation (b : Nat) : Bool := decide (0x80 ≤ b) && decide (b ≤ 0xBF)

/-- The escaped bytes decoded as UTF-8; `none` when they are not the encoding
of code points (URIError). -/
def utf8Decode : List UriToken → Option (List Char)
  | [] => some []
  | UriToken.unit c :: rest => (utf8Decode rest).map (fun cs => c :: cs)
  | UriToken.byte b :: rest =>
    if b < 0x80 then (utf8Decode rest).map (fun cs => Char.ofNat b :: cs)
    else if 0xC0 ≤ b ∧ b < 0xE0 then
      match rest with
      | UriToken.byte b1 :: rest1 =>
        let v := (b - 0xC0) * 64 + (b1 - 0x80)
        if isContinuation b1 ∧ 0x80 ≤ v then
          (utf8Decode rest1).map (fun cs => Char.ofNat v :: cs)
        else none
      | _ => none
    else if 0xE0 ≤ b ∧ b < 0xF0 then
      match rest with
      | UriToken.byte b1 :: UriToken.byte b2 :: rest2 =>
        let v := (b - 0xE0) * 4096 + (b1 - 0x80) * 64 + (b2 - 0x80)
        if isContinuation b1 ∧ isContinuation b2 ∧ 0x800 ≤ v ∧ ¬ (0xD800 ≤ v ∧ v ≤ 0xDFFF) then
          (utf8Decode rest2).map (fun cs => Char.ofNat v :: cs)
        else none
      | _ => none
    else if 0xF0 ≤ b ∧ b < 0xF8 then
      match rest with
      | UriToken.byte b1 :: UriToken.byte b2 :: UriToken.byte b3 :: rest3 =>
        let v := (b - 0xF0) * 262144 + (b1 - 0x80) * 4096 + (b2 - 0x80) * 64 + (b3 - 0x80)
        if isContinuation b1 ∧ isContinuation b2 ∧ isContinuation b3 ∧ 0x10000 ≤ v ∧
            v ≤ 0x10FFFF then
          (utf8Decode rest3).map (fun cs => Char.ofNat v :: cs)
        else none
      | _ => none
    else none

/-- The function `decodeURIComponent`; `none` when it throws a URIError. -/
def decodeURIComponent (s : String) : Option String :=
  ((uriTokens s.data).bind utf8Decode).map String.mk

end Js

namespace NodePath

/-- The pieces of a path between its `/` characters. -/
def splitSlash : List Char → List (List Char)
  | [] => [[]]
  | c :: rest =>
    match splitSlash rest with
    | [] => [[c]]
    | seg :: segs => if c = '/' then [] :: seg :: segs else (c :: seg) :: segs

/-- The helper `normalizeString` of `path.posix`: empty and `.` segments are
dropped, `..` removes the segment before it; a `..` with nothing before it is
kept when `allowAboveRoot`, and dropped otherwise. `kept` holds the segments
kept so far, last first. -/
def normalizeString (allowAboveRoot : Bool) : List String → List String → List String
  | kept, [] => kept.reverse
  | kept, seg :: rest =>
    if seg = "" ∨ seg = "." then normalizeString allowAboveRoot kept rest
    else if seg = ".." then
      match kept with
      | [] =>
        if allowAboveRoot then normalizeString allowAboveRoot [".."] rest
        else normalizeString allowAboveRoot [] rest
      | top :: below =>
        if top = ".." then normalizeString allowAboveRoot (".." :: top :: below) rest
        else normalizeString allowAboveRoot below rest
    else normalizeString allowAboveRoot (seg :: kept) rest

/-- The function `path.normalize` (POSIX). -/
def normalize (path : String) : String :=
  if path = "" then "."
  else
    let isAbsolute := decide (path.data.head? = some '/')
    let trailingSeparator := decide (path.data.getLast? = some '/')
    let segments :=
      normalizeString (!isAbsolute) [] ((splitSlash path.data).map String.mk)
    let joined := "/".intercalate segments
    if joined = "" then
      if isAbsolute then "/" else if trailingSeparator then "./" else "."
    else
      let joined := if trailingSeparator then joined ++ "/" else joined
      if isAbsolute then "/" ++ joined else joined

/-- The function `path.join` (POSIX) of two arguments. -/
def join (a b : String) : String :=
  if a = "" ∧ b = "" then "."
  else if a = "" then normalize b
  else if b = "" then normalize a
  else normalize (a ++ "/" ++ b)

/-- The function `path.extname` (POSIX): the part of the last component of the
path from its last `.` on; empty when the component has no `.`, when nothing
precedes its last `.`, and when the component is `..`. Separators at the end
of the path do not count. -/
def extname (path : String) : String :=
  let rev := path.data.reverse.dropWhile (fun c => c = '/')
  let part := rev.takeWhile (fun c => c ≠ '/')
  let ext := part.takeWhile (fun c => c ≠ '.')
  let before := (part.dropWhile (fun c => c ≠ '.')).drop 1
  if '.' ∉ part then ""
  else if before = [] then ""
  else if ext = [] ∧ before = ['.'] then ""
  else String.mk (ext ++ ['.']).reverse

/-- The path `p` names something below the directory `dir`. -/
def inside (dir p : String) : Prop := (dir.data ++ ['/']) <+: p.data

instance inside_decidable (dir p : String) : Decidable (inside dir p) :=
  inferInstanceAs (Decidable ((dir.data ++ ['/']) <+: p.data))

end NodePath

/-! ## Routing (Express 4) -/

/-- The HTTP methods the routers register. -/
inductive Method where
  | GET
  | POST
  | PUT
  | DELETE
deriving DecidableEq

/-- A segment of a route path: fixed text, or a parameter `:name`. -/
inductive PathPart where
  | literal (text : String)
  | param (name : String)
deriving DecidableEq

/-- Matching of a route path against the segments of a request path, with the
router's default options: a parameter takes exactly one non-empty segment, and
fixed text is compared without regard to the case of letters. The result is
the list of the path parameters, as they stand in the URL. -/
def matchRoute : List PathPart → List String → Option (List (String × String))
  | [], [] => some []
  | PathPart.literal text :: parts, seg :: segs =>
    if Js.toLowerCase text = Js.toLowerCase seg then matchRoute parts segs else none
  | PathPart.param name :: parts, seg :: segs =>
    if seg = "" then none else (matchRoute parts segs).map (fun ps => (name, seg) :: ps)
  | _, _ => none

/-- Dispatch in a router: the first route, in the order of registration, whose
method and path match. Every handler of the two routers answers without
calling `next`, so no later route is tried. -/
def dispatch {ε : Type} (routes : List (Method × List PathPart × ε)) (method : Method)
    (segments : List String) : Option (ε × List (String × String)) :=
  routes.findSome? (fun r =>
    if r.1 = method then (matchRoute r.2.1 segments).map (fun ps => (r.2.2, ps)) else none)

/-- The value of a path parameter in `request.params`: Express decodes the
segment with `decodeURIComponent`. -/
def requestParam (segment : String) : Option String := Js.decodeURIComponent segment

/-- The handlers registered on the character router. -/
inductive CharacterEndpoint where
  | getAll
  | getOne
  | upload
  | deleteOne
  | search
  | download
  | avatar
  | importOne
  | getComments
  | postComment
  | deleteComment
deriving DecidableEq

/-- The routes of `public-characters.js`, in the order of registration. -/
def characterRoutes : List (Method × List PathPart × CharacterEndpoint) :=
  [(Method.GET, [], CharacterEndpoint.getAll),
   (Method.GET, [PathPart.param "characterId"], CharacterEndpoint.getOne),
   (Method.POST, [PathPart.literal "upload"], CharacterEndpoint.upload),
   (Method.DELETE, [PathPart.param "characterId"], CharacterEndpoint.deleteOne),
   (Method.GET, [PathPart.literal "search"], CharacterEndpoint.search),
   (Method.POST, [PathPart.param "characterId", PathPart.literal "download"],
     CharacterEndpoint.download),
   (Method.GET, [PathPart.literal "avatar", PathPart.param "filename"],
     CharacterEndpoint.avatar),
   (Method.POST, [PathPart.param "characterId", PathPart.literal "import"],
     CharacterEndpoint.importOne),
   (Method.GET, [PathPart.param "characterId", PathPart.literal "comments"],
     CharacterEndpoint.getComments),
   (Method.POST, [PathPart.param "characterId", PathPart.literal "comments"],
     CharacterEndpoint.postComment),
   (Method.DELETE,
     [PathPart.param "characterId", PathPart.literal "comments", PathPart.param "commentId"],
     CharacterEndpoint.deleteComment)]

/-- The handlers registered on the forum router. -/
inductive ForumEndpoint where
  | getArticles
  | getArticle
  | postArticle
  | putArticle
  | deleteArticle
  | postComment
  | deleteComment
  | like
  | categories
  | search
  | uploadImage
  | image
deriving DecidableEq

/-- The routes of `forum.js`, in the order of registration. -/
def forumRoutes : List (Method × List PathPart × ForumEndpoint) :=
  [(Method.GET, [PathPart.literal "articles"], ForumEndpoint.getArticles),
   (Method.GET, [PathPart.literal "articles", PathPart.param "articleId"],
     ForumEndpoint.getArticle),
   (Method.POST, [PathPart.literal "articles"], ForumEndpoint.postArticle),
   (Method.PUT, [PathPart.literal "articles", PathPart.param "articleId"],
     ForumEndpoint.putArticle),
   (Method.DELETE, [PathPart.literal "articles", PathPart.param "articleId"],
     ForumEndpoint.deleteArticle),
   (Method.POST,
     [PathPart.literal "articles", PathPart.param "articleId", PathPart.literal "comments"],
     ForumEndpoint.postComment),
   (Method.DELETE, [PathPart.literal "comments", PathPart.param "commentId"],
     ForumEndpoint.deleteComment),
   (Method.POST,
     [PathPart.literal "articles", PathPart.param "articleId", PathPart.literal "like"],
     ForumEndpoint.like),
   (Method.GET, [PathPart.literal "categories"], ForumEndpoint.categories),
   (Method.GET, [PathPart.literal "search"], ForumEndpoint.search),
   (Method.POST, [PathPart.literal "upload-image"], ForumEndpoint.uploadImage),
   (Method.GET, [PathPart.literal "images", PathPart.param "filename"], ForumEndpoint.image)]

/-! ## The search, avatar and upload-validation code of the character router -/

/-- What a path of the file system holds. -/
inductive FsEntry where
  | missing
  | directory
  | file (content : String)
deriving DecidableEq

namespace PublicCharacters

/-- Handler of `GET /search`: a redirect to the list endpoint. `queryString`
is `new URLSearchParams(request.query).toString()`. -/
def search (queryString : String) : Response :=
  { status := 302, body := Body.redirect ("/api/public-characters/?" ++ queryString) }

/-- The path that the handler of `GET /avatar/:filename` checks and reads,
when `decodeURIComponent` returns. -/
def avatarPath (dir : String) (filename : String) : Option String :=
  (Js.decodeURIComponent filename).map (fun decodedFilename =>
    NodePath.join dir decodedFilename)

/-- Handler of `GET /avatar/:filename`. `dir` is `PUBLIC_CHARACTERS_DIR`, `fs`
the file system, `filename` the value of `request.params.filename`. -/
def getAvatar (fs : String → FsEntry) (dir : String) (filename : String) : Response :=
  match Js.decodeURIComponent filename with
  | none => { status := 500, body := Body.error "Failed to serve avatar" }
  | some decodedFilename =>
    let avatarPath := NodePath.join dir decodedFilename
    match fs avatarPath with
    | FsEntry.missing => { status := 404, body := Body.error "Avatar not found" }
    | FsEntry.directory => { status := 500, body := Body.error "Failed to serve avatar" }
    | FsEntry.file avatarBuffer =>
      let ext := Js.toLowerCase (NodePath.extname decodedFilename)
      let contentType :=
        if ext = ".jpg" ∨ ext = ".jpeg" then "image/jpeg"
        else if ext = ".gif" then "image/gif"
        else if ext = ".webp" then "image/webp"
        else "image/png"
      { status := 200, body := Body.file contentType avatarBuffer }

/-- The array `allowedMimeTypes` of `validateFileType`. -/
def allowedMimeTypes : List String :=
  ["image/png", "application/json", "text/yaml", "text/x-yaml", "application/x-yaml"]

/-- The array `allowedExtensions` of `validateFileType`. -/
def allowedExtensions : List String := [".png", ".json", ".yaml", ".yml"]

/-- The middleware `validateFileType`: the response it sends, or `none` when it
calls `next()`. -/
def validateFileType (file : Option UploadedFile) : Option Response :=
  match file with
  | none => some { status := 400, body := Body.error "请选择角色卡文件" }
  | some file =>
    let originalName := Js.toLowerCase file.originalname
    let hasValidExtension := allowedExtensions.any (fun ext => Js.endsWith originalName ext)
    let isValidType := decide (file.mimetype ∈ allowedMimeTypes) || hasValidExtension
    if !isValidType then
      some { status := 400, body := Body.error "不支持的文件类型: 仅支持 PNG, JSON, YAML" }
    else if file.size > 10 * 1024 * 1024 then
      some { status := 400, body := Body.error "文件大小不能超过10MB" }
    else none

/-- The variable `fileType` of the upload handler; `none` is `null`. -/
def uploadFileType (file : UploadedFile) : Option String :=
  let mime := Js.toLowerCase file.mimetype
  let ext := Js.toLowerCase (NodePath.extname file.originalname)
  if mime = "image/png" ∨ ext = ".png" then some "png"
  else if Js.includes mime "json" ∨ ext = ".json" then some "json"
  else if Js.includes mime "yaml" ∨ ext = ".yaml" ∨ ext = ".yml" then some "yaml"
  else none

end PublicCharacters

/-- A file system with a file outside the directory of the public characters
and one avatar inside it. -/
def sampleFs (path : String) : FsEntry :=
  if path = "/srv/data/public_characters/hero.png" then FsEntry.file "PNG"
  else if path = "/srv/secrets.yaml" then FsEntry.file "TOKEN"
  else FsEntry.missing

/-- An upload named by a bare extension, with a MIME type outside the list. -/
def dotFileUpload : UploadedFile :=
  { path := "/tmp/upload_1", originalname := ".json", mimetype := "application/octet-stream",
    size := 120 }

/-! ## Inputs whose parent id names an inherited member -/

/-- A root and a comment whose `parent_id` is `toString`, the id of no comment
of the list: the ids are unique and the parent links have no cycle. -/
def inheritedThread : List Comment :=
  [sampleComment "c1" none 10, sampleComment "c2" (some "toString") 20]

/-- The store `characterStore` after `ann` has posted, under the character
`ch1`, a comment whose `parentId` is `constructor`. -/
def inheritedStore : Store :=
  { characterStore with
    comments := characterStore.comments ++ [characterComment "n1" (some "constructor") 100] }

/-! ## Facts about parent-link graphs -/

namespace Forest

theorem up_add {α : Type} (par : α → Option α) (a b : Nat) (x : α) :
    up par (a + b) x = (up par a x).bind (up par b) := by
  induction b with
  | zero => simp [up]
  | succ b ih =>
    rw [← Nat.add_assoc, up, ih]
    cases h : up par a x with
    | none => simp
    | some y => simp [up]

theorem up_succ_left {α : Type} (par : α → Option α) (d : Nat) (x : α) :
    up par (d + 1) x = (par x).bind (up par d) := by
  rw [Nat.add_comm, up_add]
  simp [up]

theorem mem_kids {α : Type} [DecidableEq α] {E : List α} {par : α → Option α} {x c : α} :
    c ∈ kids E par x ↔ c ∈ E ∧ par c = some x := by
  simp [kids]

theorem collect_eq_some {α β : Type} {g : α → Option (List β)} :
    ∀ {l : List α} {D : List β}, collect g l = some D →
      (∀ c ∈ l, ∃ L, g c = some L) ∧ D = l.flatMap (fun c => (g c).getD []) := by
  intro l
  induction l with
  | nil =>
    intro D h
    simp [collect] at h
    simp [h]
  | cons c cs ih =>
    intro D h
    unfold collect at h
    cases hc : g c with
    | none => simp [hc] at h
    | some a =>
      cases hcs : collect g cs with
      | none => simp [hc, hcs] at h
      | some b =>
        simp [hc, hcs] at h
        obtain ⟨h1, h2⟩ := ih hcs
        constructor
        · intro c' hc'
          rcases List.mem_cons.1 hc' with rfl | hc'
          · exact ⟨a, hc⟩
          · exact h1 c' hc'
        · simp [List.flatMap_cons, hc, ← h2, h]

theorem collect_isSome {α β : Type} {g : α → Option (List β)} :
    ∀ {l : List α}, (∀ c ∈ l, ∃ L, g c = some L) → ∃ D, collect g l = some D := by
  intro l
  induction l with
  | nil => intro _; exact ⟨[], rfl⟩
  | cons c cs ih =>
    intro h
    obtain ⟨a, ha⟩ := h c (List.mem_cons_self _ _)
    obtain ⟨b, hb⟩ := ih (fun c' hc' => h c' (List.mem_cons_of_mem _ hc'))
    exact ⟨a ++ b, by simp [collect, ha, hb]⟩

end Forest

namespace Forest

/-- What a successful walk returns: the start node followed by exactly its
proper descendants, each once. -/
theorem walk_spec {α : Type} [DecidableEq α] (E : List α) (hE : E.Nodup) (par : α → Option α)
    (hpar : ∀ c x, par c = some x → c ∈ E) :
    ∀ (f : Nat) (x : α) (D : List α), walk E par f x = some D →
      ∃ T, D = x :: T ∧ (∀ y, y ∈ T ↔ ∃ d, up par (d + 1) y = some x) ∧ x ∉ T ∧ T.Nodup := by
  intro f
  induction f with
  | zero => intro x D h; simp [walk] at h
  | succ f ih =>
    intro x D h
    simp only [walk, Option.map_eq_some'] at h
    obtain ⟨T, hT, rfl⟩ := h
    obtain ⟨hall, hTeq⟩ := collect_eq_some hT
    have hmem : ∀ y, y ∈ T ↔ ∃ d, up par (d + 1) y = some x := by
      intro y
      rw [hTeq, List.mem_flatMap]
      constructor
      · rintro ⟨c, hc, hy⟩
        obtain ⟨L, hL⟩ := hall c hc
        rw [hL] at hy
        obtain ⟨L', rfl, hm, _, _⟩ := ih c L hL
        have hpc : par c = some x := (mem_kids.1 hc).2
        simp only [Option.getD_some] at hy
        rcases List.mem_cons.1 hy with rfl | hy'
        · exact ⟨0, by simp [up, hpc]⟩
        · obtain ⟨d, hd⟩ := (hm y).1 hy'
          refine ⟨d + 1, ?_⟩
          show (up par (d + 1) y).bind par = some x
          rw [hd]; simpa using hpc
      · rintro ⟨d, hd⟩
        have hd' : (up par d y).bind par = some x := hd
        obtain ⟨c, hc, hpc⟩ := Option.bind_eq_some.1 hd'
        have hck : c ∈ kids E par x := mem_kids.2 ⟨hpar c x hpc, hpc⟩
        obtain ⟨L, hL⟩ := hall c hck
        obtain ⟨L', rfl, hm, _, _⟩ := ih c L hL
        refine ⟨c, hck, ?_⟩
        rw [hL]
        simp only [Option.getD_some]
        cases d with
        | zero =>
          simp only [up, Option.some.injEq] at hc
          rw [hc]; exact List.mem_cons_self _ _
        | succ d => exact List.mem_cons_of_mem _ ((hm y).2 ⟨d, hc⟩)
    have hx : x ∉ T := by
      intro hxT
      obtain ⟨d, hd⟩ := (hmem x).1 hxT
      have hd' : (up par d x).bind par = some x := hd
      obtain ⟨c, hc, hpc⟩ := Option.bind_eq_some.1 hd'
      have hck : c ∈ kids E par x := mem_kids.2 ⟨hpar c x hpc, hpc⟩
      obtain ⟨L, hL⟩ := hall c hck
      obtain ⟨L', rfl, hm, hcL, _⟩ := ih c L hL
      apply hcL
      apply (hm c).2
      refine ⟨d, ?_⟩
      rw [up_succ_left, hpc]
      simpa using hc
    refine ⟨T, rfl, hmem, hx, ?_⟩
    rw [hTeq, List.nodup_flatMap]
    constructor
    · intro c hc
      obtain ⟨L, hL⟩ := hall c hc
      obtain ⟨L', rfl, _, hcL, hnd⟩ := ih c L hL
      rw [hL]
      simp only [Option.getD_some]
      exact List.nodup_cons.2 ⟨hcL, hnd⟩
    · have hkn : (kids E par x).Nodup := hE.filter _
      -- a node below two different children would put `x` below itself
      have key : ∀ c c', c ∈ kids E par x → c' ∈ kids E par x → ∀ y a b,
          up par a y = some c → up par b y = some c' → a < b → False := by
        intro c c' hc hc' y a b ha hb hab
        obtain ⟨k, rfl⟩ : ∃ k, b = a + (k + 1) := ⟨b - a - 1, by omega⟩
        rw [up_add, ha] at hb
        simp only [Option.some_bind] at hb
        rw [up_succ_left, (mem_kids.1 hc).2] at hb
        simp only [Option.some_bind] at hb
        apply hx
        apply (hmem x).2
        refine ⟨k, ?_⟩
        show (up par k x).bind par = some x
        rw [hb]; simpa using (mem_kids.1 hc').2
      have anc : ∀ c, c ∈ kids E par x → ∀ y, y ∈ (walk E par f c).getD [] →
          ∃ a, up par a y = some c := by
        intro c hc y hy
        obtain ⟨L, hL⟩ := hall c hc
        obtain ⟨L', rfl, hm, _, _⟩ := ih c L hL
        rw [hL] at hy
        simp only [Option.getD_some] at hy
        rcases List.mem_cons.1 hy with rfl | hy'
        · exact ⟨0, rfl⟩
        · obtain ⟨d, hd⟩ := (hm y).1 hy'
          exact ⟨d + 1, hd⟩
      refine List.Nodup.pairwise_of_forall_ne hkn ?_
      intro c hc c' hc' hne
      rw [Function.onFun, List.disjoint_left]
      intro y hy hy'
      obtain ⟨a, ha⟩ := anc c hc y hy
      obtain ⟨b, hb⟩ := anc c' hc' y hy'
      rcases Nat.lt_trichotomy a b with hab | hab | hab
      · exact key c c' hc hc' y a b ha hb hab
      · subst hab
        rw [ha] at hb
        exact hne (Option.some.inj hb)
      · exact key c' c hc' hc y b a hb ha hab

/-- A walk succeeds as soon as the bound exceeds the depth of everything below
its start. -/
theorem walk_isSome {α : Type} [DecidableEq α] (E : List α) (par : α → Option α) :
    ∀ (f : Nat) (x : α), (∀ y d, up par d y = some x → d < f) → ∃ D, walk E par f x = some D := by
  intro f
  induction f with
  | zero =>
    intro x h
    exact absurd (h x 0 rfl) (Nat.lt_irrefl 0)
  | succ f ih =>
    intro x h
    have : ∀ c ∈ kids E par x, ∃ L, walk E par f c = some L := by
      intro c hc
      apply ih
      intro y d hd
      have : up par (d + 1) y = some x := by
        show (up par d y).bind par = some x
        rw [hd]; simpa using (mem_kids.1 hc).2
      have := h y (d + 1) this
      omega
    obtain ⟨D, hD⟩ := collect_isSome this
    exact ⟨x :: D, by simp [walk, hD]⟩

end Forest

/-! ## The two `forEach` passes of `buildCommentTree` -/

theorem indexById_eq (l : List PlainComment) :
    indexById l = (l.map (fun c => (c.2.id, c))).reverse := by
  have h : ∀ (l : List PlainComment) (acc : IdMap),
      l.foldl (fun map c => (c.2.id, c) :: map) acc
        = (l.map (fun c => (c.2.id, c))).reverse ++ acc := by
    intro l
    induction l with
    | nil => intro acc; rfl
    | cons c cs ih => intro acc; simp [ih]
  simpa [indexById] using h l []

theorem lookup_indexById_mem {l : List PlainComment} {k : String} {p : PlainComment}
    (h : (indexById l).lookup k = some p) : p ∈ l ∧ p.2.id = k := by
  obtain ⟨l₁, l₂, heq, _⟩ := List.lookup_eq_some_iff.1 h
  have hm : (k, p) ∈ indexById l := by rw [heq]; simp
  rw [indexById_eq, List.mem_reverse, List.mem_map] at hm
  obtain ⟨c, hc, hcp⟩ := hm
  simp only [Prod.mk.injEq] at hcp
  obtain ⟨h1, h2⟩ := hcp
  subst h2
  exact ⟨hc, h1⟩

theorem lookup_indexById_none {l : List PlainComment} {k : String} :
    (indexById l).lookup k = none ↔ ∀ c ∈ l, c.2.id ≠ k := by
  rw [List.lookup_eq_none_iff, indexById_eq]
  constructor
  · intro h c hc heq
    have hm : (c.2.id, c) ∈ (l.map (fun c => (c.2.id, c))).reverse :=
      List.mem_reverse.2 (List.mem_map_of_mem _ hc)
    have := h (c.2.id, c) hm
    simp [heq] at this
  · intro h p hp
    rw [List.mem_reverse, List.mem_map] at hp
    obtain ⟨c, hc, rfl⟩ := hp
    have := h c hc
    simp only [bne_iff_ne, ne_eq]
    exact fun e => this e.symm

theorem lookup_indexById_self {l : List PlainComment}
    (hl : (l.map (fun c => c.2.id)).Nodup) {p : PlainComment} (hp : p ∈ l) :
    (indexById l).lookup p.2.id = some p := by
  cases h : (indexById l).lookup p.2.id with
  | none => exact absurd rfl (lookup_indexById_none.1 h p hp)
  | some q =>
    obtain ⟨hq, hid⟩ := lookup_indexById_mem h
    rw [List.inj_on_of_nodup_map hl hq hp hid]

theorem foldlM_attach_ok (map : IdMap) :
    ∀ (l : List PlainComment) (st : TreeState),
      (∀ c ∈ l, parentEntry map c.2 ≠ JsValue.builtin) →
      ∃ st', l.foldlM (attach map) st = Except.ok st' ∧
        st'.roots = st.roots ++ l.filter (fun c => parentEntry map c.2 = JsValue.falsy) ∧
        ∀ i, st'.replies i = st.replies i ++ l.filter (fun c => parentRef map c.2 = some i) := by
  intro l
  induction l with
  | nil => intro st _; exact ⟨st, rfl, by simp, by simp⟩
  | cons c cs ih =>
    intro st h
    have hc := h c (List.mem_cons_self _ _)
    have hcs : ∀ c' ∈ cs, parentEntry map c'.2 ≠ JsValue.builtin :=
      fun c' hc' => h c' (List.mem_cons_of_mem _ hc')
    cases hp : parentEntry map c.2 with
    | builtin => exact absurd hp hc
    | falsy =>
      obtain ⟨st', h1, h2, h3⟩ := ih { st with roots := st.roots ++ [c] } hcs
      refine ⟨st', ?_, ?_, ?_⟩
      · simp only [List.foldlM_cons, attach, hp]
        exact h1
      · rw [h2]; simp [List.filter_cons, hp]
      · intro i; rw [h3]; simp [List.filter_cons, parentRef, hp]
    | object p =>
      obtain ⟨st', h1, h2, h3⟩ := ih
        { st with replies := Function.update st.replies p.1 (st.replies p.1 ++ [c]) } hcs
      refine ⟨st', ?_, ?_, ?_⟩
      · simp only [List.foldlM_cons, attach, hp]
        exact h1
      · rw [h2]; simp [List.filter_cons, hp]
      · intro i
        rw [h3]
        by_cases hi : i = p.1
        · subst hi; simp [List.filter_cons, parentRef, hp]
        · have hi' : ¬ p.1 = i := fun h => hi h.symm
          simp [List.filter_cons, parentRef, hp, Function.update_noteq hi, hi']

theorem foldlM_attach_error (map : IdMap) :
    ∀ (l : List PlainComment) (st : TreeState),
      (∃ c ∈ l, parentEntry map c.2 = JsValue.builtin) →
      l.foldlM (attach map) st = Except.error JsError.typeError := by
  intro l
  induction l with
  | nil => intro st h; obtain ⟨c, hc, _⟩ := h; cases hc
  | cons c cs ih =>
    intro st h
    cases hp : parentEntry map c.2 with
    | builtin => simp only [List.foldlM_cons, attach, hp]; rfl
    | falsy =>
      have hcs : ∃ c' ∈ cs, parentEntry map c'.2 = JsValue.builtin := by
        obtain ⟨c', hc', hb⟩ := h
        rcases List.mem_cons.1 hc' with rfl | hc'
        · rw [hp] at hb; cases hb
        · exact ⟨c', hc', hb⟩
      simp only [List.foldlM_cons, attach, hp]
      exact ih _ hcs
    | object p =>
      have hcs : ∃ c' ∈ cs, parentEntry map c'.2 = JsValue.builtin := by
        obtain ⟨c', hc', hb⟩ := h
        rcases List.mem_cons.1 hc' with rfl | hc'
        · rw [hp] at hb; cases hb
        · exact ⟨c', hc', hb⟩
      simp only [List.foldlM_cons, attach, hp]
      exact ih _ hcs

/-- Without a parent_id that hits an inherited member, the builder returns
the sorted read-out of `roots`. -/
theorem buildCommentTree_ok (comments : List Comment)
    (h : ∀ c ∈ comments.enum, parentEntry (indexById comments.enum) c.2 ≠ JsValue.builtin) :
    buildCommentTree comments
      = Except.ok (sortReplies (repliesOf comments) comments.enum.length (rootsOf comments)) := by
  obtain ⟨st, h1, h2, h3⟩ := foldlM_attach_ok (indexById comments.enum) comments.enum
    { replies := fun _ => [], roots := [] } h
  have hr : st.replies = repliesOf comments := by
    funext i; rw [h3]; simp [repliesOf]
  have hroots : st.roots = rootsOf comments := by
    rw [h2]; simp [rootsOf]
  simp only [buildCommentTree, h1, hr, hroots]

/-- A parent_id that hits an inherited member makes the builder throw. -/
theorem buildCommentTree_error (comments : List Comment)
    (h : ∃ c ∈ comments.enum, parentEntry (indexById comments.enum) c.2 = JsValue.builtin) :
    buildCommentTree comments = Except.error JsError.typeError := by
  simp only [buildCommentTree, foldlM_attach_error (indexById comments.enum) comments.enum _ h]

theorem buildCommentTree_ok_iff (comments : List Comment) (t : List CommentNode) :
    buildCommentTree comments = Except.ok t ↔
      (∀ c ∈ comments.enum, parentEntry (indexById comments.enum) c.2 ≠ JsValue.builtin) ∧
      t = sortReplies (repliesOf comments) comments.enum.length (rootsOf comments) := by
  constructor
  · intro ht
    by_cases h : ∃ c ∈ comments.enum, parentEntry (indexById comments.enum) c.2 = JsValue.builtin
    · rw [buildCommentTree_error comments h] at ht; cases ht
    · have h' : ∀ c ∈ comments.enum,
          parentEntry (indexById comments.enum) c.2 ≠ JsValue.builtin :=
        fun c hc hb => h ⟨c, hc, hb⟩
      rw [buildCommentTree_ok comments h'] at ht
      exact ⟨h', (Except.ok.inj ht).symm⟩
  · rintro ⟨h, rfl⟩
    exact buildCommentTree_ok comments h

/-! ## The pushed arrays as a parent-link graph -/

theorem enum_nodup (comments : List Comment) : comments.enum.Nodup :=
  List.Nodup.of_map Prod.fst (List.nodup_enum_map_fst comments)

theorem enum_fst_inj {comments : List Comment} {p q : PlainComment}
    (hp : p ∈ comments.enum) (hq : q ∈ comments.enum) (h : p.1 = q.1) : p = q :=
  List.inj_on_of_nodup_map (List.nodup_enum_map_fst comments) hp hq h

theorem enum_snd_mem {comments : List Comment} {p : PlainComment}
    (hp : p ∈ comments.enum) : p.2 ∈ comments := by
  have : p.2 ∈ comments.enum.map Prod.snd := List.mem_map_of_mem _ hp
  rwa [List.enum_map_snd] at this

theorem exists_enum_of_mem {comments : List Comment} {c : Comment}
    (hc : c ∈ comments) : ∃ j, (j, c) ∈ comments.enum := by
  rw [← List.enum_map_snd comments, List.mem_map] at hc
  obtain ⟨p, hp, rfl⟩ := hc
  exact ⟨p.1, hp⟩

theorem enum_ids_nodup {comments : List Comment} (hU : UniqueIds comments) :
    (comments.enum.map (fun c => c.2.id)).Nodup := by
  have : comments.enum.map (fun c => c.2.id) = comments.map (fun c => c.id) := by
    conv_rhs => rw [← List.enum_map_snd comments]
    rw [List.map_map]; rfl
  rw [this]; exact hU

theorem parentEntry_object {map : IdMap} {c : Comment} {p : PlainComment}
    (h : parentEntry map c = JsValue.object p) :
    ∃ k, c.parent_id = some k ∧ k ≠ "" ∧ map.lookup k = some p := by
  unfold parentEntry at h
  cases hk : c.parent_id with
  | none => simp [hk] at h
  | some k =>
    simp only [hk] at h
    by_cases hke : k = ""
    · simp [hke] at h
    · simp only [hke, if_false, mapGet] at h
      cases hl : map.lookup k with
      | none =>
        simp only [hl] at h
        split at h <;> cases h
      | some q =>
        simp only [hl, JsValue.object.injEq] at h
        exact ⟨k, rfl, hke, by rw [← h]; exact hl⟩

theorem parentEntry_of_lookup {map : IdMap} {c : Comment} {k : String} {p : PlainComment}
    (hk : c.parent_id = some k) (hke : k ≠ "") (hl : map.lookup k = some p) :
    parentEntry map c = JsValue.object p := by
  simp [parentEntry, hk, hke, mapGet, hl]

theorem mapGet_cases (map : IdMap) (k : String) :
    (∃ p, map.lookup k = some p ∧ mapGet map k = JsValue.object p) ∨
    (map.lookup k = none ∧ k ∈ objectPrototypeKeys ∧ mapGet map k = JsValue.builtin) ∨
    (map.lookup k = none ∧ k ∉ objectPrototypeKeys ∧ mapGet map k = JsValue.falsy) := by
  unfold mapGet
  cases hl : map.lookup k with
  | some p => exact Or.inl ⟨p, rfl, rfl⟩
  | none =>
    by_cases hb : k ∈ objectPrototypeKeys
    · exact Or.inr (Or.inl ⟨rfl, hb, if_pos hb⟩)
    · exact Or.inr (Or.inr ⟨rfl, hb, if_neg hb⟩)

theorem parentEntry_some {map : IdMap} {c : Comment} {k : String}
    (hk : c.parent_id = some k) (hke : k ≠ "") : parentEntry map c = mapGet map k := by
  simp [parentEntry, hk, hke]

theorem parentEntry_falsy_iff {map : IdMap} {c : Comment} :
    parentEntry map c = JsValue.falsy ↔
      c.parent_id = none ∨ c.parent_id = some "" ∨
        ∃ k, c.parent_id = some k ∧ map.lookup k = none ∧ k ∉ objectPrototypeKeys := by
  cases hk : c.parent_id with
  | none => simp [parentEntry, hk]
  | some k =>
    by_cases hke : k = ""
    · simp [parentEntry, hk, hke]
    · rw [parentEntry_some hk hke]
      simp only [Option.some.injEq, hke, false_or, reduceCtorEq, exists_eq_left']
      rcases mapGet_cases map k with ⟨p, hl, hg⟩ | ⟨hl, hb, hg⟩ | ⟨hl, hb, hg⟩
      · rw [hg, hl]; simp
      · rw [hg]; simp only [reduceCtorEq, false_iff]; exact fun h => h.2 hb
      · rw [hg]; simp only [true_iff]; exact ⟨hl, hb⟩

theorem parentEntry_builtin_iff {map : IdMap} {c : Comment} :
    parentEntry map c = JsValue.builtin ↔
      ∃ k, c.parent_id = some k ∧ k ≠ "" ∧ map.lookup k = none ∧ k ∈ objectPrototypeKeys := by
  cases hk : c.parent_id with
  | none => simp [parentEntry, hk]
  | some k =>
    by_cases hke : k = ""
    · simp [parentEntry, hk, hke]
    · rw [parentEntry_some hk hke]
      simp only [Option.some.injEq, exists_eq_left']
      rcases mapGet_cases map k with ⟨p, hl, hg⟩ | ⟨hl, hb, hg⟩ | ⟨hl, hb, hg⟩
      · rw [hg, hl]; simp
      · rw [hg]; simp only [true_iff]; exact ⟨hke, hl, hb⟩
      · rw [hg]; simp only [reduceCtorEq, false_iff]; exact fun h => hb h.2.2

theorem treeParent_eq_some {comments : List Comment} {c p : PlainComment} :
    treeParent comments c = some p ↔
      c ∈ comments.enum ∧ parentEntry (indexById comments.enum) c.2 = JsValue.object p := by
  unfold treeParent
  by_cases hc : c ∈ comments.enum
  · simp only [hc, if_true, true_and]
    cases h : parentEntry (indexById comments.enum) c.2 <;> simp
  · simp [hc]

theorem treeParent_dom {comments : List Comment} (c p : PlainComment)
    (h : treeParent comments c = some p) : c ∈ comments.enum :=
  (treeParent_eq_some.1 h).1

theorem treeParent_range {comments : List Comment} {c p : PlainComment}
    (h : treeParent comments c = some p) : p ∈ comments.enum := by
  obtain ⟨k, _, _, hl⟩ := parentEntry_object (treeParent_eq_some.1 h).2
  exact (lookup_indexById_mem hl).1

theorem repliesOf_eq_kids {comments : List Comment} {x : PlainComment}
    (hx : x ∈ comments.enum) :
    repliesOf comments x.1 = Forest.kids comments.enum (treeParent comments) x := by
  unfold repliesOf Forest.kids
  apply List.filter_congr
  intro c hc
  have : (parentRef (indexById comments.enum) c.2 = some x.1) ↔
      (treeParent comments c = some x) := by
    rw [treeParent_eq_some]
    constructor
    · intro h
      refine ⟨hc, ?_⟩
      unfold parentRef at h
      cases hp : parentEntry (indexById comments.enum) c.2 with
      | falsy => simp [hp] at h
      | builtin => simp [hp] at h
      | object p =>
        simp only [hp, Option.some.injEq] at h
        have hpE : p ∈ comments.enum := treeParent_range (treeParent_eq_some.2 ⟨hc, hp⟩)
        rw [enum_fst_inj hpE hx h]
    · rintro ⟨_, h⟩
      simp [parentRef, h]
  simp only [this]

theorem mem_rootsOf {comments : List Comment} {r : PlainComment} :
    r ∈ rootsOf comments ↔
      r ∈ comments.enum ∧ parentEntry (indexById comments.enum) r.2 = JsValue.falsy := by
  simp [rootsOf]

theorem treeParent_root {comments : List Comment} {r : PlainComment}
    (hr : r ∈ rootsOf comments) : treeParent comments r = none := by
  cases h : treeParent comments r with
  | none => rfl
  | some p =>
    have := (treeParent_eq_some.1 h).2
    rw [(mem_rootsOf.1 hr).2] at this
    cases this

/-! ## Reading the sorted arrays -/

theorem sortReplies_nil (replies : Nat → List PlainComment) (f : Nat) :
    sortReplies replies f [] = [] := by
  cases f <;> simp [sortReplies]

theorem sortReplies_succ (replies : Nat → List PlainComment) (f : Nat) (items : List PlainComment) :
    sortReplies replies (f + 1) items
      = (items.insertionSort createdBefore).map fun item =>
          CommentNode.mk item.2 (sortReplies replies f (replies item.1)) := by
  rw [sortReplies]
  apply List.map_congr_left
  intro item _
  by_cases h : (replies item.1).length > 0
  · simp only [h, if_true]
  · have : replies item.1 = [] := List.length_eq_zero.1 (by omega)
    simp [this, sortReplies_nil]

theorem flattenNodes_map {β : Type} (h : β → Comment) (g : β → List CommentNode) (l : List β) :
    flattenNodes (l.map (fun item => CommentNode.mk (h item) (g item)))
      = l.flatMap (fun item => h item :: flattenNodes (g item)) := by
  induction l with
  | nil => simp [flattenNodes]
  | cons a l ih => simp [flattenNodes, CommentNode.flatten, ih, List.flatMap_cons]

theorem subnodesOf_map {β : Type} (h : β → Comment) (g : β → List CommentNode) (l : List β) :
    subnodesOf (l.map (fun item => CommentNode.mk (h item) (g item)))
      = l.flatMap (fun item => CommentNode.mk (h item) (g item) :: subnodesOf (g item)) := by
  induction l with
  | nil => simp [subnodesOf]
  | cons a l ih => simp [subnodesOf, CommentNode.subnodes, ih, List.flatMap_cons]

theorem flattenNodes_eq_subnodes :
    ∀ (n : Nat) (nodes : List CommentNode), sizeOf nodes ≤ n →
      flattenNodes nodes = (subnodesOf nodes).map CommentNode.comment := by
  intro n
  induction n with
  | zero =>
    intro nodes h
    cases nodes with
    | nil => simp [flattenNodes, subnodesOf]
    | cons a l => simp at h
  | succ n ih =>
    intro nodes h
    cases nodes with
    | nil => simp [flattenNodes, subnodesOf]
    | cons a l =>
      cases a with
      | mk c rs =>
        simp only [List.cons.sizeOf_spec, CommentNode.mk.sizeOf_spec] at h
        rw [flattenNodes, subnodesOf, CommentNode.flatten, CommentNode.subnodes,
          List.map_append, List.map_cons, ih rs (by omega), ih l (by omega)]
        rfl

/-- The depth-first comments of the sorted arrays are, up to order, the walks
below the items. -/
theorem flatten_sortReplies (comments : List Comment) :
    ∀ (f : Nat) (items : List PlainComment),
      (∀ x ∈ items, x ∈ comments.enum ∧
        ∃ D, Forest.walk comments.enum (treeParent comments) f x = some D) →
      (flattenNodes (sortReplies (repliesOf comments) f items)).Perm
        ((items.flatMap (fun x =>
          (Forest.walk comments.enum (treeParent comments) f x).getD [])).map Prod.snd) := by
  intro f
  induction f with
  | zero =>
    intro items h
    have : items = [] := by
      apply List.eq_nil_iff_forall_not_mem.2
      intro x hx
      obtain ⟨_, D, hD⟩ := h x hx
      simp [Forest.walk] at hD
    subst this
    simp [sortReplies, flattenNodes]
  | succ f ih =>
    intro items h
    rw [sortReplies_succ, flattenNodes_map, List.map_flatMap]
    refine List.Perm.trans (List.Perm.flatMap_right _ (List.perm_insertionSort _ items)) ?_
    apply List.Perm.flatMap_left
    intro x hx
    obtain ⟨hxE, D, hD⟩ := h x hx
    have hD' := hD
    simp only [Forest.walk, Option.map_eq_some'] at hD'
    obtain ⟨T, hT, rfl⟩ := hD'
    obtain ⟨hall, hTeq⟩ := Forest.collect_eq_some hT
    rw [hD, repliesOf_eq_kids hxE]
    simp only [Option.getD_some, List.map_cons]
    apply List.Perm.cons
    rw [hTeq]
    apply ih
    intro c hc
    exact ⟨(Forest.mem_kids.1 hc).1, hall c hc⟩

namespace Forest

theorem up_le_of_root {α : Type} {par : α → Option α} {c r z : α} {m d : Nat}
    (hm : up par m c = some r) (hr : par r = none) (hd : up par d c = some z) : d ≤ m := by
  by_contra hlt
  obtain ⟨k, rfl⟩ : ∃ k, d = m + (k + 1) := ⟨d - m - 1, by omega⟩
  rw [up_add, hm, Option.some_bind, up_succ_left, hr] at hd
  cases hd

theorem exists_root_of_bounded {α : Type} {par : α → Option α} {y : α} {n : Nat}
    (h : ∀ d x, up par d y = some x → d < n) :
    ∃ d r, up par d y = some r ∧ par r = none := by
  have aux : ∀ k d x, up par d y = some x → d + k = n →
      ∃ d' r, up par d' y = some r ∧ par r = none := by
    intro k
    induction k with
    | zero =>
      intro d x hd hk
      have := h d x hd
      omega
    | succ k ih =>
      intro d x hd hk
      cases hp : par x with
      | none => exact ⟨d, x, hd, hp⟩
      | some z =>
        apply ih (d + 1) z
        · show (up par d y).bind par = some z
          rw [hd]; exact hp
        · omega
  have h0 := h 0 y rfl
  exact aux n 0 y rfl (by omega)

theorem up_mem {α : Type} {par : α → Option α} {E : List α}
    (hrange : ∀ c p, par c = some p → p ∈ E) {y : α} (hy : y ∈ E) :
    ∀ (d : Nat) (x : α), up par d y = some x → x ∈ E := by
  intro d
  induction d with
  | zero =>
    intro x h
    simp only [up, Option.some.injEq] at h
    rw [← h]; exact hy
  | succ d _ =>
    intro x h
    have h' : (up par d y).bind par = some x := h
    obtain ⟨c, _, hc⟩ := Option.bind_eq_some.1 h'
    exact hrange c x hc

end Forest

/-! ## Acyclic parent links bound the nesting depth -/

theorem reachesRoot_spec (comments : List Comment) :
    ∀ (f : Nat) (c : Comment), reachesRoot comments f c = true →
      ∃ m, m < f ∧ ∃ r, Forest.up (parentOf comments) m c = some r ∧ parentOf comments r = none := by
  intro f
  induction f with
  | zero => intro c h; simp [reachesRoot] at h
  | succ f ih =>
    intro c h
    unfold reachesRoot at h
    cases hp : parentOf comments c with
    | none => exact ⟨0, Nat.succ_pos _, c, rfl, hp⟩
    | some p =>
      simp only [hp] at h
      obtain ⟨m, hm, r, hr, hroot⟩ := ih p h
      refine ⟨m + 1, Nat.succ_lt_succ hm, r, ?_, hroot⟩
      rw [Forest.up_succ_left, hp]
      exact hr

theorem find_id_unique {comments : List Comment} (hU : UniqueIds comments) {p : Comment}
    (hp : p ∈ comments) : comments.find? (fun q => q.id = p.id) = some p := by
  cases h : comments.find? (fun q => q.id = p.id) with
  | none =>
    have := List.find?_eq_none.1 h p hp
    simp at this
  | some q =>
    have hq := List.mem_of_find?_eq_some h
    have hid : q.id = p.id := by simpa using List.find?_some h
    rw [List.inj_on_of_nodup_map hU hq hp hid]

theorem treeParent_parentOf {comments : List Comment} (hU : UniqueIds comments)
    {c p : PlainComment} (h : treeParent comments c = some p) :
    parentOf comments c.2 = some p.2 := by
  obtain ⟨k, hk, _, hl⟩ := parentEntry_object (treeParent_eq_some.1 h).2
  obtain ⟨hpE, hid⟩ := lookup_indexById_mem hl
  unfold parentOf
  rw [hk]
  simp only
  rw [← hid]
  exact find_id_unique hU (enum_snd_mem hpE)

theorem up_treeParent_parentOf {comments : List Comment} (hU : UniqueIds comments) :
    ∀ (d : Nat) (x y : PlainComment), Forest.up (treeParent comments) d x = some y →
      Forest.up (parentOf comments) d x.2 = some y.2 := by
  intro d
  induction d with
  | zero =>
    intro x y h
    simp only [Forest.up, Option.some.injEq] at h ⊢
    rw [h]
  | succ d ih =>
    intro x y h
    have h' : (Forest.up (treeParent comments) d x).bind (treeParent comments) = some y := h
    obtain ⟨c, hc, hcy⟩ := Option.bind_eq_some.1 h'
    show (Forest.up (parentOf comments) d x.2).bind (parentOf comments) = some y.2
    rw [ih x c hc]
    exact treeParent_parentOf hU hcy

theorem tree_depth_bound {comments : List Comment} (hU : UniqueIds comments)
    (hA : AcyclicParents comments) {x y : PlainComment} (hx : x ∈ comments.enum) {d : Nat}
    (h : Forest.up (treeParent comments) d x = some y) : d < comments.length := by
  obtain ⟨m, hm, r, hr, hroot⟩ := reachesRoot_spec comments _ x.2 (hA x.2 (enum_snd_mem hx))
  have := Forest.up_le_of_root hr hroot (up_treeParent_parentOf hU d x y h)
  omega

theorem tree_depth_bound_any {comments : List Comment} (hU : UniqueIds comments)
    (hA : AcyclicParents comments) {x y : PlainComment} (hy : y ∈ comments.enum) {d : Nat}
    (h : Forest.up (treeParent comments) d x = some y) : d < comments.length := by
  cases d with
  | zero =>
    have : 0 < comments.enum.length := List.length_pos_of_mem hy
    simpa using this
  | succ d =>
    rw [Forest.up_succ_left] at h
    obtain ⟨c, hc, _⟩ := Option.bind_eq_some.1 h
    have hx : x ∈ comments.enum := treeParent_dom x c hc
    rw [← Forest.up_succ_left] at h
    exact tree_depth_bound hU hA hx h

theorem walk_root_isSome {comments : List Comment} (hU : UniqueIds comments)
    (hA : AcyclicParents comments) {x : PlainComment} (hx : x ∈ comments.enum) :
    ∃ D, Forest.walk comments.enum (treeParent comments) comments.length x = some D :=
  Forest.walk_isSome _ _ _ _ (fun _ _ h => tree_depth_bound_any hU hA hx h)

/-! ## Every comment is placed exactly once -/

theorem no_builtin_of_noInherited {comments : List Comment} (hK : NoInheritedParent comments) :
    ∀ c ∈ comments.enum, parentEntry (indexById comments.enum) c.2 ≠ JsValue.builtin := by
  intro c hc hb
  obtain ⟨k, hk, _, hl, hkeys⟩ := parentEntry_builtin_iff.1 hb
  obtain ⟨p, hp, hid⟩ := hK.2 c.2 (enum_snd_mem hc) k hk hkeys
  obtain ⟨j, hj⟩ := exists_enum_of_mem hp
  exact lookup_indexById_none.1 hl (j, p) hj hid

theorem mem_rootsOf_of_no_parent {comments : List Comment}
    (hB : ∀ c ∈ comments.enum, parentEntry (indexById comments.enum) c.2 ≠ JsValue.builtin)
    {r : PlainComment} (hr : r ∈ comments.enum) (hp : treeParent comments r = none) :
    r ∈ rootsOf comments := by
  rw [mem_rootsOf]
  refine ⟨hr, ?_⟩
  cases h : parentEntry (indexById comments.enum) r.2 with
  | falsy => rfl
  | builtin => exact absurd h (hB r hr)
  | object p =>
    rw [treeParent_eq_some.2 ⟨hr, h⟩] at hp
    cases hp

theorem mem_walk_up {comments : List Comment} {f : Nat} {x y : PlainComment} {D : List PlainComment}
    (hD : Forest.walk comments.enum (treeParent comments) f x = some D) :
    y ∈ D ↔ ∃ d, Forest.up (treeParent comments) d y = some x := by
  obtain ⟨T, rfl, hm, _, _⟩ :=
    Forest.walk_spec comments.enum (enum_nodup comments) (treeParent comments) treeParent_dom f x D hD
  constructor
  · intro hy
    rcases List.mem_cons.1 hy with rfl | hy
    · exact ⟨0, rfl⟩
    · obtain ⟨d, hd⟩ := (hm y).1 hy
      exact ⟨d + 1, hd⟩
  · rintro ⟨d, hd⟩
    cases d with
    | zero =>
      simp only [Forest.up, Option.some.injEq] at hd
      rw [hd]; exact List.mem_cons_self _ _
    | succ d => exact List.mem_cons_of_mem _ ((hm y).2 ⟨d, hd⟩)

theorem roots_walk_perm {comments : List Comment} (hU : UniqueIds comments)
    (hA : AcyclicParents comments)
    (hB : ∀ c ∈ comments.enum, parentEntry (indexById comments.enum) c.2 ≠ JsValue.builtin) :
    ((rootsOf comments).flatMap (fun x =>
      (Forest.walk comments.enum (treeParent comments) comments.length x).getD [])).Perm
      comments.enum := by
  have hrE : ∀ r ∈ rootsOf comments, r ∈ comments.enum := fun r hr => (mem_rootsOf.1 hr).1
  have anc : ∀ r ∈ rootsOf comments, ∀ y,
      y ∈ (Forest.walk comments.enum (treeParent comments) comments.length r).getD [] ↔
        ∃ d, Forest.up (treeParent comments) d y = some r := by
    intro r hr y
    obtain ⟨D, hD⟩ := walk_root_isSome hU hA (hrE r hr)
    rw [hD, Option.getD_some]
    exact mem_walk_up hD
  apply (List.perm_ext_iff_of_nodup ?_ (enum_nodup comments)).2
  · intro y
    rw [List.mem_flatMap]
    constructor
    · rintro ⟨r, hr, hy⟩
      obtain ⟨d, hd⟩ := (anc r hr y).1 hy
      cases d with
      | zero =>
        simp only [Forest.up, Option.some.injEq] at hd
        rw [hd]; exact hrE r hr
      | succ d =>
        rw [Forest.up_succ_left] at hd
        obtain ⟨c, hc, _⟩ := Option.bind_eq_some.1 hd
        exact treeParent_dom y c hc
    · intro hy
      obtain ⟨d, r, hd, hroot⟩ := Forest.exists_root_of_bounded
        (fun d x h => tree_depth_bound hU hA hy h)
      have hr : r ∈ comments.enum :=
        Forest.up_mem (fun c p h => treeParent_range h) hy d r hd
      have hr' := mem_rootsOf_of_no_parent hB hr hroot
      exact ⟨r, hr', (anc r hr' y).2 ⟨d, hd⟩⟩
  · rw [List.nodup_flatMap]
    constructor
    · intro r hr
      obtain ⟨D, hD⟩ := walk_root_isSome hU hA (hrE r hr)
      obtain ⟨T, rfl, _, hrT, hT⟩ := Forest.walk_spec comments.enum (enum_nodup comments)
        (treeParent comments) treeParent_dom _ r D hD
      rw [hD, Option.getD_some]
      exact List.nodup_cons.2 ⟨hrT, hT⟩
    · have hn : (rootsOf comments).Nodup := (enum_nodup comments).filter _
      have key : ∀ r r', r ∈ rootsOf comments → ∀ y a b,
          Forest.up (treeParent comments) a y = some r →
          Forest.up (treeParent comments) b y = some r' → a < b → False := by
        intro r r' hr y a b ha hb hab
        obtain ⟨k, rfl⟩ : ∃ k, b = a + (k + 1) := ⟨b - a - 1, by omega⟩
        rw [Forest.up_add, ha, Option.some_bind, Forest.up_succ_left, treeParent_root hr] at hb
        cases hb
      refine List.Nodup.pairwise_of_forall_ne hn ?_
      intro r hr r' hr' hne
      rw [Function.onFun, List.disjoint_left]
      intro y hy hy'
      obtain ⟨a, ha⟩ := (anc r hr y).1 hy
      obtain ⟨b, hb⟩ := (anc r' hr' y).1 hy'
      rcases Nat.lt_trichotomy a b with hab | hab | hab
      · exact key r r' hr y a b ha hb hab
      · subst hab
        rw [ha] at hb
        exact hne (Option.some.inj hb)
      · exact key r' r hr' y b a hb ha hab

/-- The depth-first comments of the result are the input comments, each once. -/
theorem flatten_buildCommentTree {comments : List Comment} (hU : UniqueIds comments)
    (hA : AcyclicParents comments) {roots : List CommentNode}
    (h : buildCommentTree comments = Except.ok roots) :
    (flattenNodes roots).Perm comments := by
  obtain ⟨hB, rfl⟩ := (buildCommentTree_ok_iff comments roots).1 h
  rw [List.enum_length]
  have h1 := flatten_sortReplies comments comments.length (rootsOf comments)
    (fun x hx => ⟨(mem_rootsOf.1 hx).1, walk_root_isSome hU hA (mem_rootsOf.1 hx).1⟩)
  have h2 := (roots_walk_perm hU hA hB).map Prod.snd
  rw [List.enum_map_snd] at h2
  exact h1.trans h2

/-! ## Shape and order of the result -/

theorem sortReplies_comments (comments : List Comment) (f : Nat) (items : List PlainComment)
    (h : ∀ x ∈ items, ∃ D, Forest.walk comments.enum (treeParent comments) f x = some D) :
    (sortReplies (repliesOf comments) f items).map CommentNode.comment
      = (items.insertionSort createdBefore).map Prod.snd := by
  cases f with
  | zero =>
    have : items = [] := by
      apply List.eq_nil_iff_forall_not_mem.2
      intro x hx
      obtain ⟨D, hD⟩ := h x hx
      simp [Forest.walk] at hD
    subst this
    simp [sortReplies]
  | succ f =>
    rw [sortReplies_succ, List.map_map]
    rfl

theorem kids_walk_isSome {comments : List Comment} {f : Nat} {x : PlainComment}
    {D : List PlainComment}
    (hD : Forest.walk comments.enum (treeParent comments) (f + 1) x = some D) :
    ∀ c ∈ Forest.kids comments.enum (treeParent comments) x,
      c ∈ comments.enum ∧ ∃ L, Forest.walk comments.enum (treeParent comments) f c = some L := by
  simp only [Forest.walk, Option.map_eq_some'] at hD
  obtain ⟨T, hT, _⟩ := hD
  intro c hc
  exact ⟨(Forest.mem_kids.1 hc).1, (Forest.collect_eq_some hT).1 c hc⟩

theorem subnodes_sortReplies (comments : List Comment) :
    ∀ (f : Nat) (items : List PlainComment),
      (∀ x ∈ items, x ∈ comments.enum ∧
        ∃ D, Forest.walk comments.enum (treeParent comments) f x = some D) →
      ∀ N ∈ subnodesOf (sortReplies (repliesOf comments) f items),
        ∃ x ∈ comments.enum, N.comment = x.2 ∧
          N.replies.map CommentNode.comment
            = ((Forest.kids comments.enum (treeParent comments) x).insertionSort
                createdBefore).map Prod.snd := by
  intro f
  induction f with
  | zero =>
    intro items _ N hN
    simp [sortReplies, subnodesOf] at hN
  | succ f ih =>
    intro items h N hN
    rw [sortReplies_succ, subnodesOf_map, List.mem_flatMap] at hN
    obtain ⟨item, hitem, hN⟩ := hN
    have hitem' : item ∈ items := (List.perm_insertionSort _ items).mem_iff.1 hitem
    obtain ⟨hE, D, hD⟩ := h item hitem'
    have hk := kids_walk_isSome hD
    rw [repliesOf_eq_kids hE] at hN
    rcases List.mem_cons.1 hN with rfl | hN
    · refine ⟨item, hE, rfl, ?_⟩
      exact sortReplies_comments comments f _ (fun c hc => (hk c hc).2)
    · exact ih _ hk N hN

theorem sortReplies_sorted (replies : Nat → List PlainComment) :
    ∀ (f : Nat) (items : List PlainComment),
      (sortReplies replies f items).Sorted createdOrder ∧
        ∀ N ∈ subnodesOf (sortReplies replies f items), N.replies.Sorted createdOrder := by
  intro f
  induction f with
  | zero =>
    intro items
    simp [sortReplies, subnodesOf]
  | succ f ih =>
    intro items
    rw [sortReplies_succ]
    constructor
    · rw [List.Sorted, List.pairwise_map]
      exact List.sorted_insertionSort createdBefore items
    · intro N hN
      rw [subnodesOf_map, List.mem_flatMap] at hN
      obtain ⟨item, _, hN⟩ := hN
      rcases List.mem_cons.1 hN with rfl | hN
      · exact (ih _).1
      · exact (ih _).2 N hN

/-! ## The claims about `buildCommentTree` -/

/-- C1, as stated, fails: a comment whose parent_id is its own id is pushed
onto its own `replies`, so the returned tree is empty and its id, an input
id, is not among the ids of the flattened result. -/
theorem buildCommentTree_omits_self_reply :
    buildCommentTree [sampleComment "c1" (some "c1") 10] = Except.ok [] ∧
      "c1" ∈ [sampleComment "c1" (some "c1") 10].map (fun c => c.id) ∧
      "c1" ∉ (flattenNodes ([] : List CommentNode)).map (fun c => c.id) :=
  ⟨rfl, by decide, by decide⟩

/-- C1 (amended): for a list with unique ids and acyclic parent links, the
depth-first ids of the tree the builder returns are the input ids: each
appears, none twice, no other. The builder does return a tree when no read of
`map` reaches an inherited member (`NoInheritedParent`). -/
theorem buildCommentTree_flatten_ids (comments : List Comment) (hU : UniqueIds comments)
    (hA : AcyclicParents comments) :
    (NoInheritedParent comments → ∃ roots, buildCommentTree comments = Except.ok roots) ∧
    ∀ roots, buildCommentTree comments = Except.ok roots →
      ((flattenNodes roots).map (fun c => c.id)).Perm (comments.map (fun c => c.id)) ∧
      ((flattenNodes roots).map (fun c => c.id)).Nodup := by
  refine ⟨fun hK => ⟨_, buildCommentTree_ok comments (no_builtin_of_noInherited hK)⟩, ?_⟩
  intro roots hok
  exact ⟨(flatten_buildCommentTree hU hA hok).map _,
    ((flatten_buildCommentTree hU hA hok).map _).nodup_iff.2 hU⟩

/-- C1 (amended) on `sampleThread`, whose tree is `sampleTree`. -/
theorem buildCommentTree_flatten_ids_witness :
    UniqueIds sampleThread ∧ AcyclicParents sampleThread ∧ NoInheritedParent sampleThread ∧
    buildCommentTree sampleThread = Except.ok sampleTree ∧
    (flattenNodes sampleTree).map (fun c => c.id) = ["c3", "c1", "c5", "c2", "c4"] ∧
    (∃ roots, buildCommentTree sampleThread = Except.ok roots) ∧
    ((flattenNodes sampleTree).map (fun c => c.id)).Perm (sampleThread.map (fun c => c.id)) ∧
    ((flattenNodes sampleTree).map (fun c => c.id)).Nodup :=
  ⟨by decide, by decide, by decide, rfl, by decide,
    (buildCommentTree_flatten_ids sampleThread (by decide) (by decide)).1 (by decide),
    (buildCommentTree_flatten_ids sampleThread (by decide) (by decide)).2 sampleTree rfl⟩

/-- C2: for a list with unique ids and acyclic parent links, in the tree the
builder returns every input comment is a node; the replies of a node, at any
depth, are exactly the input comments whose (non-empty) parent_id is that
node's id; and the roots are exactly the input comments whose parent_id is
null, empty, or the id of no input comment. The builder does return a tree
when no read of `map` reaches an inherited member (`NoInheritedParent`). -/
theorem buildCommentTree_structure (comments : List Comment) (hU : UniqueIds comments)
    (hA : AcyclicParents comments) :
    (NoInheritedParent comments → ∃ roots, buildCommentTree comments = Except.ok roots) ∧
    ∀ roots, buildCommentTree comments = Except.ok roots →
      (∀ P ∈ comments, ∃ N ∈ subnodesOf roots, N.comment = P) ∧
      (∀ N ∈ subnodesOf roots, ∀ X : Comment,
        X ∈ N.replies.map CommentNode.comment ↔
          X ∈ comments ∧ ∃ k, X.parent_id = some k ∧ k ≠ "" ∧ k = N.comment.id) ∧
      (∀ X : Comment,
        X ∈ roots.map CommentNode.comment ↔
          X ∈ comments ∧ (X.parent_id = none ∨ X.parent_id = some "" ∨
            ∃ k, X.parent_id = some k ∧ ∀ p ∈ comments, p.id ≠ k)) := by
  refine ⟨fun hK => ⟨_, buildCommentTree_ok comments (no_builtin_of_noInherited hK)⟩, ?_⟩
  intro roots h
  have hperm := flatten_buildCommentTree hU hA h
  obtain ⟨hB, rfl⟩ := (buildCommentTree_ok_iff comments roots).1 h
  rw [List.enum_length] at hperm ⊢
  have hroots : ∀ x ∈ rootsOf comments, x ∈ comments.enum ∧
      ∃ D, Forest.walk comments.enum (treeParent comments) comments.length x = some D :=
    fun x hx => ⟨(mem_rootsOf.1 hx).1, walk_root_isSome hU hA (mem_rootsOf.1 hx).1⟩
  refine ⟨?_, ?_, ?_⟩
  · intro P hP
    have : P ∈ flattenNodes (sortReplies (repliesOf comments) comments.length (rootsOf comments)) :=
      hperm.mem_iff.2 hP
    rw [flattenNodes_eq_subnodes _ _ (Nat.le_refl _), List.mem_map] at this
    exact this
  · intro N hN X
    obtain ⟨x, hx, hNx, hrep⟩ := subnodes_sortReplies comments _ _ hroots N hN
    rw [hrep, hNx, List.mem_map]
    constructor
    · rintro ⟨c, hc, rfl⟩
      have hc' := (List.perm_insertionSort _ _).mem_iff.1 hc
      obtain ⟨hcE, hpar⟩ := Forest.mem_kids.1 hc'
      obtain ⟨k, hk, hke, hl⟩ := parentEntry_object (treeParent_eq_some.1 hpar).2
      exact ⟨enum_snd_mem hcE, k, hk, hke, (lookup_indexById_mem hl).2.symm⟩
    · rintro ⟨hX, k, hk, hke, rfl⟩
      obtain ⟨j, hj⟩ := exists_enum_of_mem hX
      refine ⟨(j, X), ?_, rfl⟩
      apply (List.perm_insertionSort _ _).mem_iff.2
      apply Forest.mem_kids.2
      refine ⟨hj, treeParent_eq_some.2 ⟨hj, ?_⟩⟩
      exact parentEntry_of_lookup hk hke (lookup_indexById_self (enum_ids_nodup hU) hx)
  · intro X
    rw [sortReplies_comments comments _ _ (fun x hx => (hroots x hx).2), List.mem_map]
    constructor
    · rintro ⟨c, hc, rfl⟩
      have hc' := (List.perm_insertionSort _ _).mem_iff.1 hc
      obtain ⟨hcE, hf⟩ := mem_rootsOf.1 hc'
      refine ⟨enum_snd_mem hcE, ?_⟩
      rcases parentEntry_falsy_iff.1 hf with h1 | h1 | ⟨k, hk, hl, _⟩
      · exact Or.inl h1
      · exact Or.inr (Or.inl h1)
      · refine Or.inr (Or.inr ⟨k, hk, ?_⟩)
        intro p hp
        obtain ⟨j, hj⟩ := exists_enum_of_mem hp
        exact lookup_indexById_none.1 hl (j, p) hj
    · rintro ⟨hX, hcase⟩
      obtain ⟨j, hj⟩ := exists_enum_of_mem hX
      refine ⟨(j, X), ?_, rfl⟩
      apply (List.perm_insertionSort _ _).mem_iff.2
      apply mem_rootsOf.2
      refine ⟨hj, ?_⟩
      rcases hcase with h1 | h1 | ⟨k, hk, hno⟩
      · exact parentEntry_falsy_iff.2 (Or.inl h1)
      · exact parentEntry_falsy_iff.2 (Or.inr (Or.inl h1))
      · have hl : (indexById comments.enum).lookup k = none :=
          lookup_indexById_none.2 (fun c hc => hno c.2 (enum_snd_mem hc))
        apply parentEntry_falsy_iff.2
        refine Or.inr (Or.inr ⟨k, hk, hl, ?_⟩)
        intro hkeys
        by_cases hke : k = ""
        · subst hke; revert hkeys; decide
        · exact hB (j, X) hj (parentEntry_builtin_iff.2 ⟨k, hk, hke, hl, hkeys⟩)

/-- C2 on `sampleThread`, whose tree is `sampleTree`. -/
theorem buildCommentTree_structure_witness :
    UniqueIds sampleThread ∧ AcyclicParents sampleThread ∧ NoInheritedParent sampleThread ∧
    buildCommentTree sampleThread = Except.ok sampleTree ∧
    (∃ roots, buildCommentTree sampleThread = Except.ok roots) ∧
    (∀ P ∈ sampleThread, ∃ N ∈ subnodesOf sampleTree, N.comment = P) ∧
    (∀ N ∈ subnodesOf sampleTree, ∀ X : Comment,
      X ∈ N.replies.map CommentNode.comment ↔
        X ∈ sampleThread ∧ ∃ k, X.parent_id = some k ∧ k ≠ "" ∧ k = N.comment.id) ∧
    (∀ X : Comment,
      X ∈ sampleTree.map CommentNode.comment ↔
        X ∈ sampleThread ∧ (X.parent_id = none ∨ X.parent_id = some "" ∨
          ∃ k, X.parent_id = some k ∧ ∀ p ∈ sampleThread, p.id ≠ k)) :=
  ⟨by decide, by decide, by decide, rfl,
    (buildCommentTree_structure sampleThread (by decide) (by decide)).1 (by decide),
    (buildCommentTree_structure sampleThread (by decide) (by decide)).2 sampleTree rfl⟩

/-- C3: in the tree the builder returns, the roots and the replies of every
node at every depth are in non-decreasing order of `created_at`. The builder
does return a tree when no read of `map` reaches an inherited member
(`NoInheritedParent`). -/
theorem buildCommentTree_sorted (comments : List Comment) :
    (NoInheritedParent comments → ∃ roots, buildCommentTree comments = Except.ok roots) ∧
    ∀ roots, buildCommentTree comments = Except.ok roots →
      roots.Sorted createdOrder ∧ ∀ N ∈ subnodesOf roots, N.replies.Sorted createdOrder := by
  refine ⟨fun hK => ⟨_, buildCommentTree_ok comments (no_builtin_of_noInherited hK)⟩, ?_⟩
  intro roots h
  obtain ⟨_, rfl⟩ := (buildCommentTree_ok_iff comments roots).1 h
  exact sortReplies_sorted _ _ _

/-- C3 on `sampleThread`, whose tree is `sampleTree`. -/
theorem buildCommentTree_sorted_witness :
    NoInheritedParent sampleThread ∧
    buildCommentTree sampleThread = Except.ok sampleTree ∧
    (∃ roots, buildCommentTree sampleThread = Except.ok roots) ∧
    sampleTree.Sorted createdOrder ∧
    ∀ N ∈ subnodesOf sampleTree, N.replies.Sorted createdOrder :=
  ⟨by decide, rfl, (buildCommentTree_sorted sampleThread).1 (by decide),
    (buildCommentTree_sorted sampleThread).2 sampleTree rfl⟩

/-- C4 fails on the code: a comment whose parent_id is `constructor`, the id of
no comment, is not made a root; the guard reads the inherited member and the
builder throws a TypeError. -/
theorem buildCommentTree_throws_on_inherited_name :
    (∀ p ∈ [sampleComment "c1" (some "constructor") 10], p.id ≠ "constructor") ∧
    buildCommentTree [sampleComment "c1" (some "constructor") 10]
      = Except.error JsError.typeError :=
  ⟨by decide, rfl⟩

/-! ## The cascade walk -/

theorem findOne_mem {comments : List Comment} {id : String} {c : Comment}
    (h : Comment.findOne comments id = some c) : c ∈ comments ∧ c.id = id :=
  ⟨List.mem_of_find?_eq_some h, by simpa using List.find?_some h⟩

theorem findOne_eq_none {comments : List Comment} {id : String} :
    Comment.findOne comments id = none ↔ ∀ c ∈ comments, c.id ≠ id := by
  simp [Comment.findOne]

theorem idParent_of_mem {comments : List Comment} (hU : UniqueIds comments) {c : Comment}
    (hc : c ∈ comments) : idParent comments c.id = c.parent_id := by
  unfold idParent Comment.findOne
  rw [find_id_unique hU hc]
  rfl

theorem idParent_dom {comments : List Comment} (y x : String)
    (h : idParent comments y = some x) : y ∈ comments.map (fun c => c.id) := by
  unfold idParent at h
  obtain ⟨c, hc, _⟩ := Option.bind_eq_some.1 h
  obtain ⟨hm, hid⟩ := findOne_mem hc
  exact List.mem_map.2 ⟨c, hm, hid⟩

theorem find_eq_kids {comments : List Comment} (hU : UniqueIds comments) (x : String) :
    (Comment.find comments x).map (fun c => c.id)
      = Forest.kids (comments.map (fun c => c.id)) (idParent comments) x := by
  unfold Forest.kids Comment.find
  rw [List.filter_map]
  congr 1
  apply List.filter_congr
  intro c hc
  simp only [Function.comp_apply, idParent_of_mem hU hc]

theorem foldlM_findChildren (comments : List Comment) (f : Nat)
    (ih : ∀ x acc, findChildren comments f x (acc ++ [x])
      = (Forest.walk (comments.map (fun c => c.id)) (idParent comments) f x).map
          (fun D => acc ++ D)) :
    ∀ (l : List Comment) (acc : List String),
      l.foldlM (fun acc child => findChildren comments f child.id (acc ++ [child.id])) acc
        = (Forest.collect (Forest.walk (comments.map (fun c => c.id)) (idParent comments) f)
            (l.map (fun c => c.id))).map (fun D => acc ++ D) := by
  intro l
  induction l with
  | nil => intro acc; simp [Forest.collect]
  | cons c l ihl =>
    intro acc
    rw [List.foldlM_cons, ih, List.map_cons, Forest.collect]
    cases hw : Forest.walk (comments.map (fun c => c.id)) (idParent comments) f c.id with
    | none => simp
    | some a =>
      simp only [Option.map_some', Option.bind_eq_bind, Option.some_bind]
      rw [ihl]
      cases Forest.collect (Forest.walk (comments.map (fun c => c.id)) (idParent comments) f)
        (l.map (fun c => c.id)) with
      | none => simp
      | some b => simp

/-- The ids `findChildren` appends are the pre-order walk below the start id. -/
theorem findChildren_eq_walk {comments : List Comment} (hU : UniqueIds comments) :
    ∀ (f : Nat) (x : String) (acc : List String),
      findChildren comments f x (acc ++ [x])
        = (Forest.walk (comments.map (fun c => c.id)) (idParent comments) f x).map
            (fun D => acc ++ D) := by
  intro f
  induction f with
  | zero => intro x acc; simp [findChildren, Forest.walk]
  | succ f ih =>
    intro x acc
    rw [findChildren, foldlM_findChildren comments f ih, find_eq_kids hU, Forest.walk]
    cases Forest.collect (Forest.walk (comments.map (fun c => c.id)) (idParent comments) f)
      (Forest.kids (comments.map (fun c => c.id)) (idParent comments) x) with
    | none => simp
    | some b => simp

theorem isReplyBelow_iff_up {comments : List Comment} (hU : UniqueIds comments)
    (rootId : String) {x : Comment} (hx : x ∈ comments) :
    IsReplyBelow comments rootId x ↔
      ∃ d, Forest.up (idParent comments) (d + 1) x.id = some rootId := by
  constructor
  · intro h
    induction h with
    | @direct x hx hp =>
      refine ⟨0, ?_⟩
      rw [Forest.up_succ_left, idParent_of_mem hU hx, hp]
      rfl
    | @nested x p hx hbelow hp ih =>
      have hpm : p ∈ comments := by
        cases hbelow with
        | direct h _ => exact h
        | nested h _ _ => exact h
      obtain ⟨d, hd⟩ := ih hpm
      refine ⟨d + 1, ?_⟩
      rw [Forest.up_succ_left, idParent_of_mem hU hx, hp]
      exact hd
  · rintro ⟨d, hd⟩
    induction d generalizing x with
    | zero =>
      rw [Forest.up_succ_left, idParent_of_mem hU hx] at hd
      cases hp : x.parent_id with
      | none => rw [hp] at hd; cases hd
      | some k =>
        rw [hp] at hd
        simp only [Option.some_bind, Forest.up, Option.some.injEq] at hd
        subst hd
        exact IsReplyBelow.direct hx hp
    | succ d ih =>
      rw [Forest.up_succ_left, idParent_of_mem hU hx] at hd
      cases hp : x.parent_id with
      | none => rw [hp] at hd; cases hd
      | some k =>
        rw [hp] at hd
        simp only [Option.some_bind] at hd
        have hd' := hd
        rw [Forest.up_succ_left] at hd'
        obtain ⟨k', hk', _⟩ := Option.bind_eq_some.1 hd'
        obtain ⟨p, hpm, hpid⟩ := List.mem_map.1 (idParent_dom k k' hk')
        subst hpid
        exact IsReplyBelow.nested hx (ih hpm hd) hp

/-- What a returning `findChildren` has collected: the start id, then the id
of every stored reply below it, each once. -/
theorem findChildren_spec {comments : List Comment} (hU : UniqueIds comments)
    {f : Nat} {c : Comment} (hc : c ∈ comments) {D : List String}
    (h : findChildren comments f c.id [c.id] = some D) :
    D.Nodup ∧ (∀ x ∈ comments, x.id ∈ D ↔ x = c ∨ IsReplyBelow comments c.id x) ∧
      ∀ y ∈ D, y ∈ comments.map (fun c => c.id) := by
  have h' := findChildren_eq_walk hU f c.id []
  simp only [List.nil_append] at h'
  rw [h'] at h
  simp only [Option.map_eq_some'] at h
  obtain ⟨D', hD', rfl⟩ := h
  obtain ⟨T, rfl, hm, hcT, hT⟩ := Forest.walk_spec _ hU (idParent comments) idParent_dom f c.id D' hD'
  refine ⟨List.nodup_cons.2 ⟨hcT, hT⟩, ?_, ?_⟩
  · intro x hx
    rw [List.mem_cons, hm, isReplyBelow_iff_up hU c.id hx]
    constructor
    · rintro (h | h)
      · exact Or.inl (List.inj_on_of_nodup_map hU hx hc h)
      · exact Or.inr h
    · rintro (h | h)
      · exact Or.inl (by rw [h])
      · exact Or.inr h
  · intro y hy
    rcases List.mem_cons.1 hy with rfl | hy
    · exact List.mem_map_of_mem _ hc
    · obtain ⟨d, hd⟩ := (hm y).1 hy
      rw [Forest.up_succ_left] at hd
      obtain ⟨k, hk, _⟩ := Option.bind_eq_some.1 hd
      exact idParent_dom y k hk

theorem up_idParent_parentOf {comments : List Comment} (hU : UniqueIds comments) {c : Comment}
    (hc : c ∈ comments) :
    ∀ (d : Nat) (x : Comment), x ∈ comments →
      Forest.up (idParent comments) d x.id = some c.id →
      Forest.up (parentOf comments) d x = some c := by
  intro d
  induction d with
  | zero =>
    intro x hx h
    simp only [Forest.up, Option.some.injEq] at h ⊢
    exact List.inj_on_of_nodup_map hU hx hc h
  | succ d ih =>
    intro x hx h
    rw [Forest.up_succ_left, idParent_of_mem hU hx] at h
    cases hp : x.parent_id with
    | none => rw [hp] at h; cases h
    | some k =>
      rw [hp, Option.some_bind] at h
      have hk : ∃ p ∈ comments, p.id = k := by
        cases d with
        | zero =>
          simp only [Forest.up, Option.some.injEq] at h
          exact ⟨c, hc, h.symm⟩
        | succ d =>
          rw [Forest.up_succ_left] at h
          obtain ⟨k', hk', _⟩ := Option.bind_eq_some.1 h
          exact List.mem_map.1 (idParent_dom k k' hk')
      obtain ⟨p, hpm, rfl⟩ := hk
      have hpo : parentOf comments x = some p := by
        unfold parentOf
        rw [hp]
        exact find_id_unique hU hpm
      rw [Forest.up_succ_left, hpo, Option.some_bind]
      exact ih p hpm h

theorem store_depth_bound {comments : List Comment} (hU : UniqueIds comments)
    (hA : AcyclicParents comments) {c : Comment} (hc : c ∈ comments) (y : String) (d : Nat)
    (h : Forest.up (idParent comments) d y = some c.id) : d < comments.length := by
  cases d with
  | zero => exact List.length_pos_of_mem hc
  | succ d =>
    have hy : y ∈ comments.map (fun c => c.id) := by
      rw [Forest.up_succ_left] at h
      obtain ⟨k, hk, _⟩ := Option.bind_eq_some.1 h
      exact idParent_dom y k hk
    obtain ⟨x, hx, rfl⟩ := List.mem_map.1 hy
    obtain ⟨m, hm, r, hr, hroot⟩ := reachesRoot_spec comments _ x (hA x hx)
    have := Forest.up_le_of_root hr hroot (up_idParent_parentOf hU hc (d + 1) x hx h)
    omega

/-- In a forest-shaped store `findChildren` returns. -/
theorem findChildren_isSome {comments : List Comment} (hU : UniqueIds comments)
    (hA : AcyclicParents comments) {c : Comment} (hc : c ∈ comments) :
    ∃ D, findChildren comments comments.length c.id [c.id] = some D := by
  obtain ⟨D, hD⟩ := Forest.walk_isSome (comments.map (fun c => c.id)) (idParent comments)
    comments.length c.id (store_depth_bound hU hA hc)
  have h := findChildren_eq_walk hU comments.length c.id []
  simp only [List.nil_append] at h
  exact ⟨D, by rw [h, hD]; simp⟩

theorem deleteMany_length {comments : List Comment} (hU : UniqueIds comments)
    {D : List String} (hD : D.Nodup) (hsub : ∀ y ∈ D, y ∈ comments.map (fun c => c.id)) :
    (Comment.deleteMany comments D).length + D.length = comments.length := by
  have hperm : ((comments.map (fun c => c.id)).filter (fun y => y ∈ D)).Perm D := by
    apply (List.perm_ext_iff_of_nodup (hU.filter _) hD).2
    intro y
    simp only [List.mem_filter, decide_eq_true_eq]
    exact ⟨fun h => h.2, fun h => ⟨hsub y h, h⟩⟩
  have hlen : (comments.filter (fun c => c.id ∈ D)).length = D.length := by
    rw [← hperm.length_eq, List.filter_map, List.length_map]
    rfl
  have := List.length_eq_length_filter_add (l := comments) (fun c => decide (c.id ∉ D))
  unfold Comment.deleteMany
  have hneg : comments.filter (fun x => !decide (x.id ∉ D))
      = comments.filter (fun c => decide (c.id ∈ D)) := by
    apply List.filter_congr
    intro x _
    by_cases hx : x.id ∈ D <;> simp [hx]
  rw [hneg, hlen] at this
  omega

theorem incCommentsCount_of_findOne {articles : List Article} {id : String} {a : Article}
    (delta : Int) (h : Article.findOne articles id = some a) :
    ∃ pre post, articles = pre ++ a :: post ∧ (∀ b ∈ pre, b.id ≠ id) ∧
      Article.incCommentsCount articles id delta
        = pre ++ { a with comments_count := a.comments_count + delta } :: post := by
  induction articles with
  | nil => simp [Article.findOne] at h
  | cons b rest ih =>
    by_cases hb : b.id = id
    · have : a = b := by
        simp [Article.findOne, List.find?_cons, hb] at h
        exact h.symm
      subst this
      exact ⟨[], rest, rfl, by simp, by simp [Article.incCommentsCount, hb]⟩
    · have h' : Article.findOne rest id = some a := by
        simpa [Article.findOne, List.find?_cons, hb] using h
      obtain ⟨pre, post, h1, h2, h3⟩ := ih h'
      refine ⟨b :: pre, post, by rw [h1]; rfl, ?_, ?_⟩
      · intro x hx
        rcases List.mem_cons.1 hx with rfl | hx
        · exact hb
        · exact h2 x hx
      · simp [Article.incCommentsCount, hb, h3]

theorem incCommentsCount_of_none {articles : List Article} {id : String}
    (delta : Int) (h : Article.findOne articles id = none) :
    Article.incCommentsCount articles id delta = articles := by
  induction articles with
  | nil => rfl
  | cons b rest ih =>
    by_cases hb : b.id = id
    · simp [Article.findOne, List.find?_cons, hb] at h
    · have h' : Article.findOne rest id = none := by
        simpa [Article.findOne, List.find?_cons, hb] using h
      simp [Article.incCommentsCount, hb, ih h']

theorem incCommentsCount_only_counter (articles : List Article) (id : String) (delta : Int) :
    (Article.incCommentsCount articles id delta).map (fun a => { a with comments_count := 0 })
      = articles.map (fun a => { a with comments_count := 0 }) := by
  induction articles with
  | nil => rfl
  | cons b rest ih =>
    by_cases hb : b.id = id
    · simp [Article.incCommentsCount, hb]
    · simp [Article.incCommentsCount, hb, ih]

/-! ## The delete handlers, branch by branch -/

theorem forum_deleteComment_of_findChildren {s : Store} {profile : Profile} {commentId : String}
    {c : Comment} (hc : Comment.findOne s.comments commentId = some c)
    (hauth : c.author.handle = profile.handle ∨ profile.admin = true) :
    Forum.deleteComment s (some profile) commentId
      = (findChildren s.comments s.comments.length commentId [c.id]).map (fun D =>
          (({ status := 200, body := Body.deleted D.length } : Response),
            ({ s with
                comments := Comment.deleteMany s.comments D,
                articles :=
                  if c.target_type = TargetType.article then
                    Article.incCommentsCount s.articles c.target_id (-(D.length : Int))
                  else s.articles } : Store))) := by
  have hguard : (!decide (c.author.handle = profile.handle) && !profile.admin) = false := by
    rcases hauth with h | h <;> simp [h]
  simp only [Forum.deleteComment, hc, hguard]
  cases findChildren s.comments s.comments.length commentId [c.id] <;> rfl

theorem character_deleteComment_of_findChildren {s : Store} {profile : Profile}
    {characterId commentId : String} {c : Comment}
    (hc : Comment.findOne s.comments commentId = some c)
    (hauth : c.author.handle = profile.handle ∨ profile.admin = true) :
    PublicCharacters.deleteComment s (some profile) characterId commentId
      = (findChildren s.comments s.comments.length commentId [c.id]).map (fun D =>
          (({ status := 200, body := Body.success } : Response),
            ({ s with comments := Comment.deleteMany s.comments D } : Store))) := by
  have hguard : (!decide (c.author.handle = profile.handle) && !profile.admin) = false := by
    rcases hauth with h | h <;> simp [h]
  simp only [PublicCharacters.deleteComment, hc, hguard]
  cases findChildren s.comments s.comments.length commentId [c.id] <;> rfl

/-! ## The claims about cascade deletion -/

/-- C5: in a forest-shaped store, an authorised delete of an existing comment
through the forum route answers with `deletedCount = k` and leaves the store
without exactly that comment and the replies below it: the other comments stay
as they were and in order, no article changes except in its counter, the
characters are untouched, `k` is the number of comments removed, and `k = 1`
when the comment has no reply. -/
theorem forum_deleteComment_removes_subtree (s : Store) (hU : UniqueIds s.comments)
    (hA : AcyclicParents s.comments) (profile : Profile) (commentId : String) (c : Comment)
    (hc : Comment.findOne s.comments commentId = some c)
    (hauth : c.author.handle = profile.handle ∨ profile.admin = true) :
    ∃ k s', Forum.deleteComment s (some profile) commentId
        = some ({ status := 200, body := Body.deleted k }, s') ∧
      s'.comments.Sublist s.comments ∧
      (∀ x, x ∈ s'.comments ↔ x ∈ s.comments ∧ x ≠ c ∧ ¬ IsReplyBelow s.comments c.id x) ∧
      s'.articles.map (fun a => { a with comments_count := 0 })
        = s.articles.map (fun a => { a with comments_count := 0 }) ∧
      s'.characters = s.characters ∧
      s'.comments.length + k = s.comments.length ∧
      ((∀ x ∈ s.comments, x.parent_id ≠ some c.id) → k = 1) := by
  obtain ⟨hcm, hcid⟩ := findOne_mem hc
  subst hcid
  obtain ⟨D, hD⟩ := findChildren_isSome hU hA hcm
  obtain ⟨hnd, hmem, hsub⟩ := findChildren_spec hU hcm hD
  refine ⟨D.length,
    { s with
      comments := Comment.deleteMany s.comments D,
      articles :=
        if c.target_type = TargetType.article then
          Article.incCommentsCount s.articles c.target_id (-(D.length : Int))
        else s.articles },
    by rw [forum_deleteComment_of_findChildren hc hauth, hD]; rfl, ?_, ?_, ?_, rfl,
    deleteMany_length hU hnd hsub, ?_⟩
  · exact List.filter_sublist _
  · intro x
    simp only [Comment.deleteMany, List.mem_filter, decide_eq_true_eq]
    constructor
    · rintro ⟨hx, hxD⟩
      refine ⟨hx, fun h => hxD ((hmem x hx).2 (Or.inl h)), fun h => hxD ((hmem x hx).2 (Or.inr h))⟩
    · rintro ⟨hx, h1, h2⟩
      refine ⟨hx, fun h => ?_⟩
      rcases (hmem x hx).1 h with h | h
      · exact h1 h
      · exact h2 h
  · show List.map _ (if _ then _ else _) = _
    split
    · exact incCommentsCount_only_counter _ _ _
    · rfl
  · intro hleaf
    obtain ⟨m, hm⟩ : ∃ m, s.comments.length = m + 1 :=
      ⟨s.comments.length - 1, by have := List.length_pos_of_mem hcm; omega⟩
    have hnone : Comment.find s.comments c.id = [] := by
      unfold Comment.find
      apply List.filter_eq_nil_iff.2
      intro x hx
      simpa using hleaf x hx
    rw [hm, findChildren, hnone] at hD
    simp only [List.foldlM_nil] at hD
    have : D = [c.id] := (Option.some.inj hD).symm
    rw [this]; rfl

/-- C5 on the tree `C1: [C2, C3]`, `C2: [C4]` of `sampleStore`: deleting `C1`
removes the four comments and reports `deletedCount = 4`; deleting the leaf
`C4` reports `deletedCount = 1`. -/
theorem forum_deleteComment_removes_subtree_witness :
    UniqueIds sampleStore.comments ∧ AcyclicParents sampleStore.comments ∧
    Comment.findOne sampleStore.comments "C1" = some (sampleComment "C1" none 10) ∧
    Forum.deleteComment sampleStore (some ann) "C1"
      = some ({ status := 200, body := Body.deleted 4 }, sampleStoreAfter) ∧
    (Forum.deleteComment sampleStore (some ann) "C4").map (fun r => r.1)
      = some { status := 200, body := Body.deleted 1 } ∧
    ∃ k s', Forum.deleteComment sampleStore (some ann) "C1"
        = some ({ status := 200, body := Body.deleted k }, s') ∧
      s'.comments.Sublist sampleStore.comments ∧
      (∀ x, x ∈ s'.comments ↔ x ∈ sampleStore.comments ∧ x ≠ sampleComment "C1" none 10 ∧
        ¬ IsReplyBelow sampleStore.comments (sampleComment "C1" none 10).id x) ∧
      s'.articles.map (fun a => { a with comments_count := 0 })
        = sampleStore.articles.map (fun a => { a with comments_count := 0 }) ∧
      s'.characters = sampleStore.characters ∧
      s'.comments.length + k = sampleStore.comments.length ∧
      ((∀ x ∈ sampleStore.comments, x.parent_id ≠ some (sampleComment "C1" none 10).id) →
        k = 1) :=
  ⟨by decide, by decide, by decide, by decide, by decide,
    forum_deleteComment_removes_subtree sampleStore (by decide) (by decide) ann "C1"
      (sampleComment "C1" none 10) (by decide) (Or.inl (by decide))⟩

/-- C6: when a delete through the forum route succeeds with `deletedCount = k`
and the deleted comment's target is an article, `k` is the number of comments
removed, the first article with that id has its `comments_count` lowered by
`k`, and every other article is unchanged. -/
theorem forum_deleteComment_counter (s : Store) (hU : UniqueIds s.comments)
    (profile : Profile) (commentId : String) (c : Comment)
    (hc : Comment.findOne s.comments commentId = some c)
    (ht : c.target_type = TargetType.article) (k : Nat) (s' : Store)
    (h : Forum.deleteComment s (some profile) commentId
      = some ({ status := 200, body := Body.deleted k }, s')) :
    s'.comments.length + k = s.comments.length ∧
    (∀ a, Article.findOne s.articles c.target_id = some a →
      ∃ pre post, s.articles = pre ++ a :: post ∧ (∀ b ∈ pre, b.id ≠ c.target_id) ∧
        s'.articles = pre ++ { a with comments_count := a.comments_count - k } :: post) ∧
    (Article.findOne s.articles c.target_id = none → s'.articles = s.articles) := by
  obtain ⟨hcm, hcid⟩ := findOne_mem hc
  have hauth : c.author.handle = profile.handle ∨ profile.admin = true := by
    by_contra hno
    have h1 : ¬ c.author.handle = profile.handle := fun e => hno (Or.inl e)
    have h2 : profile.admin = false := by
      cases hadm : profile.admin with
      | false => rfl
      | true => exact absurd (Or.inr hadm) hno
    simp [Forum.deleteComment, hc, h1, h2] at h
  rw [forum_deleteComment_of_findChildren hc hauth] at h
  cases hD : findChildren s.comments s.comments.length commentId [c.id] with
  | none => rw [hD] at h; cases h
  | some D =>
    rw [hD] at h
    simp only [Option.map_some', Option.some.injEq, Prod.mk.injEq, Response.mk.injEq,
      Body.deleted.injEq, true_and] at h
    obtain ⟨hk, hs⟩ := h
    subst hk hs
    subst hcid
    obtain ⟨hnd, _, hsub⟩ := findChildren_spec hU hcm hD
    refine ⟨deleteMany_length hU hnd hsub, ?_, ?_⟩
    · intro a ha
      obtain ⟨pre, post, h1, h2, h3⟩ := incCommentsCount_of_findOne (-(D.length : Int)) ha
      refine ⟨pre, post, h1, h2, ?_⟩
      simp only [ht, if_true, h3]
      rfl
    · intro hnone
      simp only [ht, if_true]
      exact incCommentsCount_of_none _ hnone

/-- C6 on `sampleStore`: deleting `C1` lowers the counter of `art1` from 4 to 0 and leaves
`art2` alone. -/
theorem forum_deleteComment_counter_witness :
    UniqueIds sampleStore.comments ∧
    Comment.findOne sampleStore.comments "C1" = some (sampleComment "C1" none 10) ∧
    (sampleComment "C1" none 10).target_type = TargetType.article ∧
    Forum.deleteComment sampleStore (some ann) "C1"
      = some ({ status := 200, body := Body.deleted 4 }, sampleStoreAfter) ∧
    (sampleStoreAfter.comments.length + 4 = sampleStore.comments.length ∧
    (∀ a, Article.findOne sampleStore.articles (sampleComment "C1" none 10).target_id = some a →
      ∃ pre post, sampleStore.articles = pre ++ a :: post ∧
        (∀ b ∈ pre, b.id ≠ (sampleComment "C1" none 10).target_id) ∧
        sampleStoreAfter.articles
          = pre ++ { a with comments_count := a.comments_count - (4 : Nat) } :: post) ∧
    (Article.findOne sampleStore.articles (sampleComment "C1" none 10).target_id = none →
      sampleStoreAfter.articles = sampleStore.articles)) :=
  ⟨by decide, by decide, by decide, by decide,
    forum_deleteComment_counter sampleStore (by decide) ann "C1" (sampleComment "C1" none 10)
      (by decide) (by decide) 4 sampleStoreAfter (by decide)⟩

/-! ## The claims about the counter, creation and the error answers -/

/-- C7 fails on the code: from the empty store, posting an article, posting a
comment on it and deleting that comment through the character route are three
successful operations, and they leave the article with `comments_count = 1`
and no stored comment. -/
theorem counter_drifts_through_character_route :
    Forum.postArticle emptyStore (some ann) (some "Title") (some "Body") none none "a1" 1
      = ({ status := 200, body := Body.article (sampleArticle "a1" 0) }, driftStore1) ∧
    Forum.postArticleComment driftStore1 (some ann) "a1" (some "hi") none "c1" 2
      = ({ status := 200, body := Body.comment driftComment }, driftStore2) ∧
    CounterConsistent driftStore2 ∧
    PublicCharacters.deleteComment driftStore2 (some ann) "ch1" "c1"
      = some ({ status := 200, body := Body.success }, driftStore3) ∧
    ¬ CounterConsistent driftStore3 := by
  refine ⟨by decide, by decide, by decide, by decide, by decide⟩

/-- C8, as stated, fails: content made of blanks is non-empty, yet the trimmed
content is empty, the schema rejects the document, the answer is 500 and no
comment is stored. -/
theorem postArticleComment_blank_content :
    (" " : String) ≠ "" ∧ Article.findOne sampleStore.articles "art1" ≠ none ∧
    Forum.postArticleComment sampleStore (some bob) "art1" (some " ") none "n1" 100
      = ({ status := 500, body := Body.error "Failed to add comment" }, sampleStore) := by
  refine ⟨by decide, by decide, by decide⟩

/-- C8 (amended): a create-comment request on an existing article by a
resolved identity, whose content is non-empty after trimming and whose new
document passes the schema (fresh non-empty id, non-empty article id, handle
and name), adds exactly one comment with the stated fields, answers with that
record, and raises the article's `comments_count` by exactly 1. -/
theorem postArticleComment_creates (s : Store) (profile : Profile) (articleId : String)
    (article : Article) (content : String) (parent_id : Option String) (newId : String)
    (now : Int) (ha : Article.findOne s.articles articleId = some article)
    (hcontent : trim content ≠ "") (hid : newId ≠ "")
    (hfresh : ∀ c ∈ s.comments, c.id ≠ newId) (haid : articleId ≠ "")
    (hhandle : profile.handle ≠ "") (hname : profile.name ≠ "") :
    ∃ newComment s',
      Forum.postArticleComment s (some profile) articleId (some content) parent_id newId now
        = ({ status := 200, body := Body.comment newComment }, s') ∧
      newComment =
        { id := newId, target_id := articleId, target_type := TargetType.article,
          parent_id := if truthy parent_id then parent_id else none,
          content := trim content,
          author := { handle := profile.handle, name := profile.name },
          created_at := now, likes := 0 } ∧
      s'.comments = s.comments ++ [newComment] ∧
      (∃ pre post, s.articles = pre ++ article :: post ∧ (∀ b ∈ pre, b.id ≠ articleId) ∧
        s'.articles
          = pre ++ { article with comments_count := article.comments_count + 1 } :: post) ∧
      s'.characters = s.characters := by
  have hne : content ≠ "" := by
    intro h
    apply hcontent
    rw [h]
    decide
  have hnotin : newId ∉ s.comments.map (fun x => x.id) := by
    intro h
    obtain ⟨c, hc, hcid⟩ := List.mem_map.1 h
    exact hfresh c hc hcid
  refine ⟨_, { s with
      comments := s.comments ++ [_],
      articles := Article.incCommentsCount s.articles articleId 1 }, ?_, rfl, rfl, ?_, rfl⟩
  · simp [Forum.postArticleComment, hne, ha, Comment.save, Comment.validate, hcontent, hid,
      haid, hhandle, hname, hnotin]
  · obtain ⟨pre, post, h1, h2, h3⟩ := incCommentsCount_of_findOne 1 ha
    exact ⟨pre, post, h1, h2, h3⟩

/-- C8 (amended) on `driftStore1`: the content is trimmed, the empty parent id becomes null,
the counter of `a1` goes from 0 to 1. -/
theorem postArticleComment_creates_witness :
    Article.findOne driftStore1.articles "a1" = some (sampleArticle "a1" 0) ∧
    Forum.postArticleComment driftStore1 (some ann) "a1" (some " hi ") (some "") "c1" 2
      = ({ status := 200, body := Body.comment driftComment }, driftStore2) ∧
    ∃ newComment s',
      Forum.postArticleComment driftStore1 (some ann) "a1" (some " hi ") (some "") "c1" 2
        = ({ status := 200, body := Body.comment newComment }, s') ∧
      newComment =
        { id := "c1", target_id := "a1", target_type := TargetType.article,
          parent_id := if truthy (some "") then some "" else none,
          content := trim " hi ",
          author := { handle := ann.handle, name := ann.name },
          created_at := 2, likes := 0 } ∧
      s'.comments = driftStore1.comments ++ [newComment] ∧
      (∃ pre post, driftStore1.articles = pre ++ sampleArticle "a1" 0 :: post ∧
        (∀ b ∈ pre, b.id ≠ "a1") ∧
        s'.articles
          = pre ++ { sampleArticle "a1" 0 with
              comments_count := (sampleArticle "a1" 0).comments_count + 1 } :: post) ∧
      s'.characters = driftStore1.characters :=
  ⟨by decide, by decide,
    postArticleComment_creates driftStore1 ann "a1" (sampleArticle "a1" 0) " hi " (some "")
      "c1" 2 (by decide) (by decide) (by decide) (by decide) (by decide) (by decide)
      (by decide)⟩

/-- C9: a delete request for an existing comment by a caller who is neither
its author nor an administrator is answered 403 by both delete handlers, with
the store unchanged; a request by the author or an administrator is never
answered 403. -/
theorem deleteComment_forbidden (s : Store) (profile : Profile) (characterId commentId : String)
    (c : Comment) (hc : Comment.findOne s.comments commentId = some c) :
    ((c.author.handle ≠ profile.handle ∧ profile.admin = false) →
      Forum.deleteComment s (some profile) commentId
        = some ({ status := 403, body := Body.error "Permission denied" }, s) ∧
      PublicCharacters.deleteComment s (some profile) characterId commentId
        = some ({ status := 403, body := Body.error "Permission denied" }, s)) ∧
    ((c.author.handle = profile.handle ∨ profile.admin = true) →
      (∀ r, Forum.deleteComment s (some profile) commentId = some r → r.1.status ≠ 403) ∧
      (∀ r, PublicCharacters.deleteComment s (some profile) characterId commentId = some r →
        r.1.status ≠ 403)) := by
  constructor
  · rintro ⟨h1, h2⟩
    simp [Forum.deleteComment, PublicCharacters.deleteComment, hc, h1, h2]
  · intro hauth
    rw [forum_deleteComment_of_findChildren hc hauth,
      character_deleteComment_of_findChildren hc hauth]
    constructor
    · intro r hr
      obtain ⟨D, _, rfl⟩ := Option.map_eq_some'.1 hr
      show (200 : Nat) ≠ 403
      decide
    · intro r hr
      obtain ⟨D, _, rfl⟩ := Option.map_eq_some'.1 hr
      show (200 : Nat) ≠ 403
      decide

/-- C9 on `sampleStore`: `bob` may not delete the comment `C2` of `ann`, and
`ann` is not turned away. -/
theorem deleteComment_forbidden_witness :
    Comment.findOne sampleStore.comments "C2" = some (sampleComment "C2" (some "C1") 20) ∧
    (Forum.deleteComment sampleStore (some bob) "C2"
        = some ({ status := 403, body := Body.error "Permission denied" }, sampleStore) ∧
      PublicCharacters.deleteComment sampleStore (some bob) "ch1" "C2"
        = some ({ status := 403, body := Body.error "Permission denied" }, sampleStore)) ∧
    ((∀ r, Forum.deleteComment sampleStore (some ann) "C2" = some r → r.1.status ≠ 403) ∧
      (∀ r, PublicCharacters.deleteComment sampleStore (some ann) "ch1" "C2" = some r →
        r.1.status ≠ 403)) :=
  ⟨by decide,
    (deleteComment_forbidden sampleStore bob "ch1" "C2" (sampleComment "C2" (some "C1") 20)
      (by decide)).1 ⟨by decide, by decide⟩,
    (deleteComment_forbidden sampleStore ann "ch1" "C2" (sampleComment "C2" (some "C1") 20)
      (by decide)).2 (Or.inl (by decide))⟩

/-- C10: a delete request by a resolved identity for an id that no stored
comment has is answered 404 by both delete handlers, with the comments and
every counter unchanged. -/
theorem deleteComment_not_found (s : Store) (profile : Profile) (characterId commentId : String)
    (h : ∀ c ∈ s.comments, c.id ≠ commentId) :
    Forum.deleteComment s (some profile) commentId
      = some ({ status := 404, body := Body.error "Comment not found" }, s) ∧
    PublicCharacters.deleteComment s (some profile) characterId commentId
      = some ({ status := 404, body := Body.error "Comment not found" }, s) := by
  have hnone : Comment.findOne s.comments commentId = none := findOne_eq_none.2 h
  simp [Forum.deleteComment, PublicCharacters.deleteComment, hnone]

/-- C10 on `sampleStore`: no comment has the id `C7`. -/
theorem deleteComment_not_found_witness :
    (∀ c ∈ sampleStore.comments, c.id ≠ "C7") ∧
    Forum.deleteComment sampleStore (some ann) "C7"
      = some ({ status := 404, body := Body.error "Comment not found" }, sampleStore) ∧
    PublicCharacters.deleteComment sampleStore (some ann) "ch1" "C7"
      = some ({ status := 404, body := Body.error "Comment not found" }, sampleStore) :=
  ⟨by decide, deleteComment_not_found sampleStore ann "ch1" "C7" (by decide)⟩

/-! ## The depth bounds are enough

A chain of parent links that repeats no node visits at most as many nodes as
there are; so the bounds used above never cut a walk short. -/

namespace Forest

theorem up_defined_of_le {α : Type} {par : α → Option α} {y r : α} {d : Nat}
    (h : up par d y = some r) {i : Nat} (hi : i ≤ d) : ∃ z, up par i y = some z := by
  obtain ⟨k, rfl⟩ : ∃ k, d = i + k := ⟨d - i, by omega⟩
  rw [up_add] at h
  cases hz : up par i y with
  | none => rw [hz] at h; cases h
  | some z => exact ⟨z, rfl⟩

/-- A chain on which no node repeats is shorter than the list of nodes. -/
theorem chain_lt_length {α : Type} [DecidableEq α] {E : List α} {par : α → Option α}
    (hdom : ∀ c x, par c = some x → c ∈ E) {y x : α} {d : Nat}
    (h : up par d y = some x) (hxE : x ∈ E)
    (hno : ∀ i j, i < j → j ≤ d → up par i y = up par j y → False) : d < E.length := by
  have hinj : ∀ i ∈ List.range (d + 1), ∀ j ∈ List.range (d + 1),
      up par i y = up par j y → i = j := by
    intro i hi j hj hij
    rw [List.mem_range] at hi hj
    rcases Nat.lt_trichotomy i j with hlt | heq | hgt
    · exact absurd hij (fun e => hno i j hlt (by omega) e)
    · exact heq
    · exact absurd hij.symm (fun e => hno j i hgt (by omega) e)
  have hnd : ((List.range (d + 1)).map (fun i => up par i y)).Nodup :=
    List.Nodup.map_on hinj (List.nodup_range _)
  have hsub : (List.range (d + 1)).map (fun i => up par i y) ⊆ E.map some := by
    intro o ho
    obtain ⟨i, hi, rfl⟩ := List.mem_map.1 ho
    rw [List.mem_range] at hi
    obtain ⟨z, hz⟩ := up_defined_of_le h (show i ≤ d by omega)
    rw [hz]
    apply List.mem_map_of_mem
    by_cases hid : i = d
    · subst hid
      rw [h] at hz
      rw [← Option.some.inj hz]; exact hxE
    · obtain ⟨z', hz'⟩ := up_defined_of_le h (show i + 1 ≤ d by omega)
      have : (up par i y).bind par = some z' := hz'
      rw [hz] at this
      exact hdom z z' this
  have := (List.subperm_of_subset hnd hsub).length_le
  simp only [List.length_map, List.length_range] at this
  omega

/-- Below a node without parent, every chain is shorter than the list. -/
theorem chain_to_root_lt_length {α : Type} [DecidableEq α] {E : List α} {par : α → Option α}
    (hdom : ∀ c x, par c = some x → c ∈ E) {y r : α} {d : Nat}
    (h : up par d y = some r) (hrE : r ∈ E) (hr : par r = none) : d < E.length := by
  apply chain_lt_length hdom h hrE
  intro i j hij hjd heq
  obtain ⟨k, rfl⟩ : ∃ k, d = j + k := ⟨d - j, by omega⟩
  have h' := h
  rw [up_add, ← heq, ← up_add] at h'
  have := up_le_of_root h' hr h
  omega

theorem collect_congr {α β : Type} {g g' : α → Option (List β)} :
    ∀ {l : List α}, (∀ c ∈ l, g c = g' c) → collect g l = collect g' l := by
  intro l
  induction l with
  | nil => intro _; rfl
  | cons c cs ih =>
    intro h
    rw [collect, collect, h c (List.mem_cons_self _ _),
      ih (fun c' hc' => h c' (List.mem_cons_of_mem _ hc'))]

/-- A walk that succeeds under one bound succeeds, with the same result, under
every larger bound. -/
theorem walk_mono {α : Type} [DecidableEq α] (E : List α) (par : α → Option α) :
    ∀ (f : Nat) (x : α) (D : List α), walk E par f x = some D →
      ∀ k, walk E par (f + k) x = some D := by
  intro f
  induction f with
  | zero => intro x D h; simp [walk] at h
  | succ f ih =>
    intro x D h k
    have hfk : f + 1 + k = (f + k) + 1 := by omega
    rw [hfk, walk]
    rw [walk] at h
    have hc : collect (walk E par (f + k)) (kids E par x)
        = collect (walk E par f) (kids E par x) := by
      simp only [Option.map_eq_some'] at h
      obtain ⟨T, hT, _⟩ := h
      apply collect_congr
      intro c hc
      obtain ⟨L, hL⟩ := (collect_eq_some hT).1 c hc
      rw [hL, ih c L hL k]
    rw [hc]; exact h

/-- Below the start of a successful walk every walk succeeds. -/
theorem walk_below {α : Type} [DecidableEq α] (E : List α) (par : α → Option α)
    (hdom : ∀ c x, par c = some x → c ∈ E) :
    ∀ (k f : Nat) (x z : α) (D : List α), walk E par f x = some D → up par k z = some x →
      ∃ f' D', walk E par f' z = some D' := by
  intro k
  induction k with
  | zero =>
    intro f x z D h hz
    simp only [up, Option.some.injEq] at hz
    subst hz
    exact ⟨f, D, h⟩
  | succ k ih =>
    intro f x z D h hz
    have hz' : (up par k z).bind par = some x := hz
    obtain ⟨w, hw, hwx⟩ := Option.bind_eq_some.1 hz'
    cases f with
    | zero => simp [walk] at h
    | succ f =>
      simp only [walk, Option.map_eq_some'] at h
      obtain ⟨T, hT, _⟩ := h
      obtain ⟨L, hL⟩ := (collect_eq_some hT).1 w (mem_kids.2 ⟨hdom w x hwx, hwx⟩)
      exact ih f w z L hL hw

/-- A successful walk is a walk the list-length bound allows. -/
theorem walk_length_bound {α : Type} [DecidableEq α] (E : List α) (hE : E.Nodup)
    (par : α → Option α) (hdom : ∀ c x, par c = some x → c ∈ E)
    {f : Nat} {x : α} {D : List α} (hxE : x ∈ E) (h : walk E par f x = some D) :
    walk E par E.length x = some D := by
  have hdepth : ∀ y d, up par d y = some x → d < E.length := by
    intro y d hd
    apply chain_lt_length hdom hd hxE
    intro i j hij hjd heq
    obtain ⟨z, hz⟩ := up_defined_of_le hd (show j ≤ d by omega)
    obtain ⟨m, rfl⟩ : ∃ m, d = j + m := ⟨d - j, by omega⟩
    have hzx : up par m z = some x := by
      have := hd
      rw [up_add, hz] at this
      exact this
    obtain ⟨f', D', hD'⟩ := walk_below E par hdom m f x z D h hzx
    obtain ⟨T, _, hm, hzT, _⟩ := walk_spec E hE par hdom f' z D' hD'
    apply hzT
    apply (hm z).2
    obtain ⟨n, rfl⟩ : ∃ n, j = i + (n + 1) := ⟨j - i - 1, by omega⟩
    refine ⟨n, ?_⟩
    have : up par (i + (n + 1)) y = some z := hz
    rw [up_add, heq, hz] at this
    exact this
  obtain ⟨D', hD'⟩ := walk_isSome E par E.length x hdepth
  rcases Nat.le_total f E.length with hle | hle
  · obtain ⟨k, hk⟩ : ∃ k, E.length = f + k := ⟨E.length - f, by omega⟩
    rw [hk]; exact walk_mono E par f x D h k
  · obtain ⟨k, hk⟩ : ∃ k, f = E.length + k := ⟨f - E.length, by omega⟩
    have := walk_mono E par E.length x D' hD' k
    rw [← hk, h] at this
    rw [hD', this]

end Forest

/-- Whatever the input, the depth bound of `buildCommentTree` is never reached:
a larger bound gives the same arrays. -/
theorem sortReplies_fuel_stable (comments : List Comment) :
    ∀ (f : Nat) (items : List PlainComment),
      (∀ x ∈ items, x ∈ comments.enum ∧
        ∃ D, Forest.walk comments.enum (treeParent comments) f x = some D) →
      ∀ k, sortReplies (repliesOf comments) (f + k) items
        = sortReplies (repliesOf comments) f items := by
  intro f
  induction f with
  | zero =>
    intro items h k
    have : items = [] := by
      apply List.eq_nil_iff_forall_not_mem.2
      intro x hx
      obtain ⟨_, D, hD⟩ := h x hx
      simp [Forest.walk] at hD
    subst this
    simp [sortReplies_nil]
  | succ f ih =>
    intro items h k
    have hfk : f + 1 + k = (f + k) + 1 := by omega
    rw [hfk, sortReplies_succ, sortReplies_succ]
    apply List.map_congr_left
    intro item hitem
    have hitem' : item ∈ items := (List.perm_insertionSort _ items).mem_iff.1 hitem
    obtain ⟨hE, D, hD⟩ := h item hitem'
    rw [repliesOf_eq_kids hE, ih _ (kids_walk_isSome hD) k]

theorem roots_walk_isSome (comments : List Comment) :
    ∀ x ∈ rootsOf comments, x ∈ comments.enum ∧
      ∃ D, Forest.walk comments.enum (treeParent comments) comments.length x = some D := by
  intro x hx
  have hxE := (mem_rootsOf.1 hx).1
  refine ⟨hxE, Forest.walk_isSome _ _ _ _ ?_⟩
  intro y d hd
  have := Forest.chain_to_root_lt_length (E := comments.enum) treeParent_dom hd hxE
    (treeParent_root hx)
  simpa using this

/-- The tree `buildCommentTree` returns does not depend on the depth bound of
the model, for any input. -/
theorem buildCommentTree_fuel_adequate (comments : List Comment) (k : Nat) :
    sortReplies (repliesOf comments) (comments.enum.length + k) (rootsOf comments)
      = sortReplies (repliesOf comments) comments.enum.length (rootsOf comments) := by
  rw [List.enum_length]
  exact sortReplies_fuel_stable comments _ _ (roots_walk_isSome comments) k

/-- Whenever `findChildren` returns under some depth bound, it returns the same
list under the bound the handlers use. -/
theorem findChildren_fuel_adequate {comments : List Comment} (hU : UniqueIds comments)
    {c : Comment} (hc : c ∈ comments) {f : Nat} {D : List String}
    (h : findChildren comments f c.id [c.id] = some D) :
    findChildren comments comments.length c.id [c.id] = some D := by
  have e1 := findChildren_eq_walk hU f c.id []
  have e2 := findChildren_eq_walk hU comments.length c.id []
  simp only [List.nil_append] at e1 e2
  rw [e1] at h
  rw [e2]
  simp only [Option.map_eq_some'] at h ⊢
  obtain ⟨D', hD', rfl⟩ := h
  refine ⟨D', ?_, rfl⟩
  have := Forest.walk_length_bound (comments.map (fun c : Comment => c.id)) hU
    (idParent comments) idParent_dom (List.mem_map_of_mem _ hc) hD'
  simpa using this

/-! ## Acyclic means: no comment is its own ancestor -/

theorem parentOf_mem {comments : List Comment} {c p : Comment}
    (h : parentOf comments c = some p) : p ∈ comments := by
  unfold parentOf at h
  cases hk : c.parent_id with
  | none => rw [hk] at h; cases h
  | some k =>
    rw [hk] at h
    exact List.mem_of_find?_eq_some h

theorem up_parentOf_restrict (comments : List Comment) {c : Comment} (hc : c ∈ comments) :
    ∀ d, Forest.up (fun x => if x ∈ comments then parentOf comments x else none) d c
      = Forest.up (parentOf comments) d c := by
  intro d
  induction d with
  | zero => rfl
  | succ d ih =>
    show (Forest.up _ d c).bind _ = (Forest.up _ d c).bind _
    rw [ih]
    cases hz : Forest.up (parentOf comments) d c with
    | none => rfl
    | some z =>
      have hzm : z ∈ comments := Forest.up_mem (fun _ _ h => parentOf_mem h) hc d z hz
      simp [hzm]

theorem reachesRoot_of_up (comments : List Comment) :
    ∀ (f m : Nat) (c r : Comment), m < f → Forest.up (parentOf comments) m c = some r →
      parentOf comments r = none → reachesRoot comments f c = true := by
  intro f
  induction f with
  | zero => intro m c r hm; omega
  | succ f ih =>
    intro m c r hm hr hroot
    unfold reachesRoot
    cases hp : parentOf comments c with
    | none => rfl
    | some p =>
      cases m with
      | zero =>
        simp only [Forest.up, Option.some.injEq] at hr
        rw [hr, hroot] at hp
        cases hp
      | succ m =>
        rw [Forest.up_succ_left, hp, Option.some_bind] at hr
        exact ih m p r (by omega) hr hroot

/-- The bounded definition of acyclic parent links says that no comment is its
own ancestor. -/
theorem acyclicParents_iff_noParentCycle (comments : List Comment) :
    AcyclicParents comments ↔ NoParentCycle comments := by
  constructor
  · intro hA c hc d hcyc
    obtain ⟨m, _, r, hr, hroot⟩ := reachesRoot_spec comments _ c (hA c hc)
    have hper : ∀ k, Forest.up (parentOf comments) (k * (d + 1)) c = some c := by
      intro k
      induction k with
      | zero => simp [Forest.up]
      | succ k ih =>
        have : (k + 1) * (d + 1) = k * (d + 1) + (d + 1) := by ring
        rw [this, Forest.up_add, ih]
        exact hcyc
    have hle := Forest.up_le_of_root hr hroot (hper (m + 1))
    have : m + 1 ≤ (m + 1) * (d + 1) := Nat.le_mul_of_pos_right _ (Nat.succ_pos d)
    omega
  · intro hN c hc
    have hbound : ∀ d x, Forest.up (parentOf comments) d c = some x → d < comments.length := by
      intro d x hd
      have hx : x ∈ comments := Forest.up_mem (fun _ _ h => parentOf_mem h) hc d x hd
      have hd' := hd
      rw [← up_parentOf_restrict comments hc] at hd'
      have hdom : ∀ a b, (fun x => if x ∈ comments then parentOf comments x else none) a
          = some b → a ∈ comments := by
        intro a b hab
        by_cases ha : a ∈ comments
        · exact ha
        · simp [ha] at hab
      apply Forest.chain_lt_length hdom hd' hx
      intro i j hij hjd heq
      rw [up_parentOf_restrict comments hc, up_parentOf_restrict comments hc] at heq
      obtain ⟨z, hz⟩ := Forest.up_defined_of_le hd (show i ≤ d by omega)
      have hzm : z ∈ comments := Forest.up_mem (fun _ _ h => parentOf_mem h) hc i z hz
      obtain ⟨n, rfl⟩ : ∃ n, j = i + (n + 1) := ⟨j - i - 1, by omega⟩
      rw [Forest.up_add, hz, Option.some_bind] at heq
      exact hN z hzm n heq.symm
    obtain ⟨d, r, hd, hroot⟩ := Forest.exists_root_of_bounded hbound
    exact reachesRoot_of_up comments _ d c r (hbound d r hd) hd hroot

/-! ## The connection flag -/

/-- C20: `connectDatabase` and `disconnectDatabase` always return to their
caller; with the flag already `true` (respectively `false`) they make no
driver call and change nothing; otherwise they make exactly one driver call,
and the flag is changed, to `true` by `connectDatabase` and to `false` by
`disconnectDatabase`, exactly when that driver call succeeded. -/
theorem database_flag_idempotent (mongodbUri : Option String) (driver : Except String Unit)
    (st : Database.State) :
    (Database.connectDatabase mongodbUri driver st).1 = Database.Completion.returned ∧
    (Database.disconnectDatabase driver st).1 = Database.Completion.returned ∧
    (st.isConnected = true →
      (Database.connectDatabase mongodbUri driver st).2 = st) ∧
    (st.isConnected = false →
      (Database.disconnectDatabase driver st).2 = st) ∧
    (st.isConnected = false →
      (∃ uri, (Database.connectDatabase mongodbUri driver st).2.driverCalls
        = st.driverCalls ++ [Database.DriverCall.connect uri]) ∧
      ((Database.connectDatabase mongodbUri driver st).2.isConnected = true
        ↔ driver = Except.ok ())) ∧
    (st.isConnected = true →
      (Database.disconnectDatabase driver st).2.driverCalls
        = st.driverCalls ++ [Database.DriverCall.disconnect] ∧
      ((Database.disconnectDatabase driver st).2.isConnected = false
        ↔ driver = Except.ok ())) := by
  refine ⟨?_, ?_, ?_, ?_, ?_, ?_⟩
  · unfold Database.connectDatabase
    split
    · rfl
    · cases driver <;> rfl
  · unfold Database.disconnectDatabase
    split
    · rfl
    · cases driver <;> rfl
  · intro h
    simp [Database.connectDatabase, h]
  · intro h
    simp [Database.disconnectDatabase, h]
  · intro h
    cases driver with
    | ok u => cases u; simp [Database.connectDatabase, h]
    | error e => simp [Database.connectDatabase, h]
  · intro h
    cases driver with
    | ok u => cases u; simp [Database.disconnectDatabase, h]
    | error e => simp [Database.disconnectDatabase, h]

/-- C20 on a run: a failed connect leaves the flag `false` after one driver
call, a successful one sets it, a second connect makes no further call, and a
failed disconnect leaves the flag `true`. -/
theorem database_flag_idempotent_witness :
    (Database.connectDatabase none (Except.error "ECONNREFUSED")
        { isConnected := false, driverCalls := [] })
      = (Database.Completion.returned,
          { isConnected := false,
            driverCalls := [Database.DriverCall.connect Database.defaultUri] }) ∧
    (Database.connectDatabase (some "mongodb://db/st") (Except.ok ())
        { isConnected := false, driverCalls := [] })
      = (Database.Completion.returned,
          { isConnected := true,
            driverCalls := [Database.DriverCall.connect "mongodb://db/st"] }) ∧
    (Database.connectDatabase none (Except.ok ())
        { isConnected := true, driverCalls := [Database.DriverCall.connect "mongodb://db/st"] })
      = (Database.Completion.returned,
          { isConnected := true,
            driverCalls := [Database.DriverCall.connect "mongodb://db/st"] }) ∧
    (Database.disconnectDatabase (Except.error "timeout")
        { isConnected := true, driverCalls := [] }).2.isConnected = true ∧
    (Database.connectDatabase none (Except.ok ())
        { isConnected := true, driverCalls := [] }).2
      = { isConnected := true, driverCalls := [] } :=
  ⟨by decide, by decide, by decide, by decide,
    (database_flag_idempotent none (Except.ok ())
      { isConnected := true, driverCalls := [] }).2.2.1 rfl⟩

/-! ## Requests without identity, and blank content -/

/-- C11 fails on the code: the forum create handler tests the content before
the identity, so a request without identity and with empty (or missing)
content is answered 400, not 401. On the same request the character create
handler, its twin, answers 401, as do both delete handlers; the store is
unchanged in every case. -/
theorem postArticleComment_anonymous_empty_content :
    Forum.postArticleComment sampleStore none "art1" (some "") none "n1" 100
      = ({ status := 400, body := Body.error "Comment content is required" }, sampleStore) ∧
    Forum.postArticleComment sampleStore none "art1" none none "n1" 100
      = ({ status := 400, body := Body.error "Comment content is required" }, sampleStore) ∧
    PublicCharacters.postComment characterStore none "ch1" (some "") none "n1" 100
      = ({ status := 401, body := Body.error "Authentication required" }, characterStore) ∧
    PublicCharacters.postComment characterStore none "ch1" none none "n1" 100
      = ({ status := 401, body := Body.error "Authentication required" }, characterStore) ∧
    Forum.postArticleComment sampleStore none "art1" (some "hi") none "n1" 100
      = ({ status := 401, body := Body.error "Authentication required" }, sampleStore) ∧
    Forum.deleteComment sampleStore none "C1"
      = some ({ status := 401, body := Body.error "Authentication required" }, sampleStore) ∧
    PublicCharacters.deleteComment characterStore none "ch1" "K1"
      = some ({ status := 401, body := Body.error "Authentication required" },
          characterStore) := by
  refine ⟨by decide, by decide, by decide, by decide, by decide, by decide, by decide⟩

/-- The answers of the four comment handlers to a request without resolved
identity, on every store and for every other field: the whole store is
unchanged; the character create handler and both delete handlers answer 401;
the forum create handler answers 401 when the content is non-empty, and 400
when it is missing or empty. -/
theorem unauthenticated_requests (s : Store) (targetId commentId : String)
    (content parent : Option String) (newId : String) (now : Int) :
    PublicCharacters.postComment s none targetId content parent newId now
      = ({ status := 401, body := Body.error "Authentication required" }, s) ∧
    Forum.deleteComment s none commentId
      = some ({ status := 401, body := Body.error "Authentication required" }, s) ∧
    PublicCharacters.deleteComment s none targetId commentId
      = some ({ status := 401, body := Body.error "Authentication required" }, s) ∧
    Forum.postArticleComment s none targetId content parent newId now
      = (if truthy content then
          { status := 401, body := Body.error "Authentication required" }
        else { status := 400, body := Body.error "Comment content is required" }, s) := by
  refine ⟨rfl, rfl, rfl, ?_⟩
  cases content with
  | none => rfl
  | some c =>
    by_cases h : c = ""
    · subst h; rfl
    · simp [Forum.postArticleComment, truthy, h]

/-- C12 fails on the code: content made of blanks only passes the `!content`
guard of both create handlers, is trimmed to the empty string afterwards, and
the rejected `save()` is answered 500, not 4xx. Nothing is stored. Missing or
empty content is answered 400. -/
theorem blank_content_answered_500 :
    trim "   " = "" ∧
    Forum.postArticleComment sampleStore (some ann) "art1" (some "   ") none "n1" 100
      = ({ status := 500, body := Body.error "Failed to add comment" }, sampleStore) ∧
    PublicCharacters.postComment characterStore (some ann) "ch1" (some "   ") none "n1" 100
      = ({ status := 500, body := Body.error "Failed to add comment" }, characterStore) ∧
    Forum.postArticleComment sampleStore (some ann) "art1" (some "") none "n1" 100
      = ({ status := 400, body := Body.error "Comment content is required" }, sampleStore) ∧
    PublicCharacters.postComment characterStore (some ann) "ch1" none none "n1" 100
      = ({ status := 400, body := Body.error "Content is required" }, characterStore) := by
  refine ⟨by decide, by decide, by decide, by decide, by decide⟩

/-- C13 fails on the code: a successful cascade delete through the character
route removes three comments and answers `{ success: true }`, with no
`deletedCount`; the same delete through the forum route answers
`{ success: true, deletedCount: 3 }`. -/
theorem character_delete_omits_deletedCount :
    PublicCharacters.deleteComment characterStore (some ann) "ch1" "K1"
      = some ({ status := 200, body := Body.success },
          { characterStore with comments := [] }) ∧
    Forum.deleteComment characterStore (some ann) "K1"
      = some ({ status := 200, body := Body.deleted 3 },
          { characterStore with comments := [] }) ∧
    Body.success ≠ Body.deleted 3 := by
  refine ⟨by decide, by decide, by decide⟩

/-! ## Detail endpoints and deletion of a target -/

theorem article_findOneAndUpdate_fst (articles : List Article) (id : String)
    (update : Article → Article) :
    (Article.findOneAndUpdate articles id update).1 = (Article.findOne articles id).map update := by
  induction articles with
  | nil => rfl
  | cons a rest ih =>
    by_cases h : a.id = id
    · simp [Article.findOneAndUpdate, Article.findOne, h]
    · simpa [Article.findOneAndUpdate, Article.findOne, h] using ih

theorem character_findOneAndUpdate_fst (characters : List Character) (id : String)
    (update : Character → Character) :
    (Character.findOneAndUpdate characters id update).1
      = (Character.findOne characters id).map update := by
  induction characters with
  | nil => rfl
  | cons c rest ih =>
    by_cases h : c.id = id
    · simp [Character.findOneAndUpdate, Character.findOne, h]
    · simpa [Character.findOneAndUpdate, Character.findOne, h] using ih

theorem publicCharacters_buildCommentTree_eq (comments : List Comment) :
    PublicCharacters.buildCommentTree comments = buildCommentTree comments := rfl

/-- C14, as stated, fails: the character detail handler answers with the
character alone (its view counter raised), although comments of that character
are stored; they are served by `GET /:characterId/comments`. -/
theorem getCharacter_omits_comments :
    Comment.findByTarget characterStore.comments "ch1" TargetType.character
      = characterStore.comments ∧
    characterStore.comments ≠ [] ∧
    PublicCharacters.getCharacter characterStore "ch1"
      = ({ status := 200, body := Body.character (sampleCharacter "ch1" 1) },
          { characterStore with characters := [sampleCharacter "ch1" 1] }) := by
  refine ⟨by decide, by decide, by decide⟩

/-- C14 (amended): a successful `GET /articles/:articleId` answers with the
article, its view counter raised by one, together with the tree that
`buildCommentTree` returns on exactly the stored comments of that article; a
successful character detail answers with the character alone; and a successful
`GET /:characterId/comments` answers with the tree that `buildCommentTree`
returns on exactly the stored comments of that character. The requests succeed
when the entity exists and no read of `map` reaches an inherited member. -/
theorem detail_comments (s : Store) (user : Option Profile) (id : String) :
    (∀ r s', Forum.getArticle s user id = (r, s') → r.status = 200 →
      ∃ a tree, Article.findOne s.articles id = some a ∧
        buildCommentTree (Comment.findByTarget s.comments id TargetType.article)
          = Except.ok tree ∧
        r.body = Body.articleDetail { a with views := a.views + 1 } tree
          (match user with
            | some profile => decide (profile.handle ∈ a.liked_by)
            | none => false) ∧
        s'.comments = s.comments) ∧
    (∀ a, Article.findOne s.articles id = some a →
      NoInheritedParent (Comment.findByTarget s.comments id TargetType.article) →
      (Forum.getArticle s user id).1.status = 200) ∧
    (∀ r s', PublicCharacters.getCharacter s id = (r, s') → r.status = 200 →
      ∃ c, Character.findOne s.characters id = some c ∧
        r.body = Body.character { c with views := c.views + 1 } ∧
        s'.comments = s.comments) ∧
    (∀ r s', PublicCharacters.getComments s id = (r, s') → r.status = 200 →
      ∃ tree, PublicCharacters.buildCommentTree
          (Comment.findByTarget s.comments id TargetType.character) = Except.ok tree ∧
        r.body = Body.commentTree tree ∧ s' = s) ∧
    (NoInheritedParent (Comment.findByTarget s.comments id TargetType.character) →
      (PublicCharacters.getComments s id).1.status = 200) ∧
    (∀ c, Character.findOne s.characters id = some c →
      (PublicCharacters.getCharacter s id).1.status = 200) := by
  refine ⟨?_, ?_, ?_, ?_, ?_, ?_⟩
  · intro r s' h hr
    have h1 := article_findOneAndUpdate_fst s.articles id
      (fun a => { a with views := a.views + 1 })
    unfold Forum.getArticle at h
    rcases hu : Article.findOneAndUpdate s.articles id
      (fun a => { a with views := a.views + 1 }) with ⟨o, articles⟩
    rw [hu] at h h1
    cases o with
    | none =>
      simp only [Prod.mk.injEq] at h
      rw [← h.1] at hr
      exact absurd hr (by decide)
    | some article =>
      simp only at h h1
      obtain ⟨a, ha, hau⟩ := Option.map_eq_some'.1 h1.symm
      cases hb : buildCommentTree (Comment.findByTarget s.comments id TargetType.article) with
      | error e =>
        rw [hb] at h
        simp only [Prod.mk.injEq] at h
        rw [← h.1] at hr
        exact absurd hr (by decide)
      | ok tree =>
        rw [hb] at h
        simp only [Prod.mk.injEq] at h
        refine ⟨a, tree, ha, rfl, ?_, ?_⟩
        · rw [← h.1, ← hau]
        · rw [← h.2]
  · intro a ha hK
    have h1 := article_findOneAndUpdate_fst s.articles id
      (fun a => { a with views := a.views + 1 })
    rw [ha] at h1
    have hb := buildCommentTree_ok _ (no_builtin_of_noInherited hK)
    unfold Forum.getArticle
    rcases hu : Article.findOneAndUpdate s.articles id
      (fun a => { a with views := a.views + 1 }) with ⟨o, articles⟩
    rw [hu] at h1
    simp only [Option.map_some'] at h1
    subst h1
    simp only [hb]
  · intro r s' h hr
    have h1 := character_findOneAndUpdate_fst s.characters id
      (fun c => { c with views := c.views + 1 })
    unfold PublicCharacters.getCharacter at h
    rcases hu : Character.findOneAndUpdate s.characters id
      (fun c => { c with views := c.views + 1 }) with ⟨o, characters⟩
    rw [hu] at h h1
    cases o with
    | none =>
      simp only [Prod.mk.injEq] at h
      rw [← h.1] at hr
      exact absurd hr (by decide)
    | some character =>
      simp only [Prod.mk.injEq] at h h1
      obtain ⟨c, hc, hcu⟩ := Option.map_eq_some'.1 h1.symm
      refine ⟨c, hc, ?_, ?_⟩
      · rw [← h.1, ← hcu]
      · rw [← h.2]
  · intro r s' h hr
    unfold PublicCharacters.getComments at h
    simp only at h
    cases hb : PublicCharacters.buildCommentTree
        (Comment.findByTarget s.comments id TargetType.character) with
    | error e =>
      rw [hb] at h
      simp only [Prod.mk.injEq] at h
      rw [← h.1] at hr
      exact absurd hr (by decide)
    | ok tree =>
      rw [hb] at h
      simp only [Prod.mk.injEq] at h
      exact ⟨tree, rfl, by rw [← h.1], h.2.symm⟩
  · intro hK
    have hb := buildCommentTree_ok _ (no_builtin_of_noInherited hK)
    rw [← publicCharacters_buildCommentTree_eq] at hb
    unfold PublicCharacters.getComments
    simp only [hb]
  · intro c hc
    have h1 := character_findOneAndUpdate_fst s.characters id
      (fun c => { c with views := c.views + 1 })
    rw [hc] at h1
    unfold PublicCharacters.getCharacter
    rcases hu : Character.findOneAndUpdate s.characters id
      (fun c => { c with views := c.views + 1 }) with ⟨o, characters⟩
    rw [hu] at h1
    simp only [Option.map_some'] at h1
    subst h1
    rfl

/-- C14 (amended) on the sample stores: the article detail of `art1` carries
the tree of its four comments, the comments endpoint of `ch1` answers with
the tree of its three comments, and the detail of `ch1` succeeds. -/
theorem detail_comments_witness :
    Forum.getArticle sampleStore (some ann) "art1"
      = ({ status := 200,
           body := Body.articleDetail { sampleArticle "art1" 4 with views := 1 }
             sampleStoreTree false },
          { sampleStore with
            articles := [{ sampleArticle "art1" 4 with views := 1 }, sampleArticle "art2" 1] }) ∧
    PublicCharacters.getComments characterStore "ch1"
      = ({ status := 200, body := Body.commentTree characterStoreTree }, characterStore) ∧
    (Forum.getArticle sampleStore (some ann) "art1").1.status = 200 ∧
    (PublicCharacters.getComments characterStore "ch1").1.status = 200 ∧
    (PublicCharacters.getCharacter characterStore "ch1").1.status = 200 :=
  ⟨by decide, by decide,
    (detail_comments sampleStore (some ann) "art1").2.1 (sampleArticle "art1" 4) (by decide)
      (by decide),
    (detail_comments characterStore none "ch1").2.2.2.2.1 (by decide),
    (detail_comments characterStore none "ch1").2.2.2.2.2 (sampleCharacter "ch1" 0)
      (by decide)⟩

theorem mem_deleteManyByTarget {comments : List Comment} {targetId : String}
    {targetType : TargetType} {c : Comment} :
    c ∈ Comment.deleteManyByTarget comments targetId targetType
      ↔ c ∈ comments ∧ ¬ (c.target_id = targetId ∧ c.target_type = targetType) := by
  unfold Comment.deleteManyByTarget
  rw [List.mem_filter, decide_eq_true_eq]

theorem findByTarget_deleteManyByTarget (comments : List Comment) (targetId t : String)
    (targetType ty : TargetType) (h : ¬ (t = targetId ∧ ty = targetType)) :
    Comment.findByTarget (Comment.deleteManyByTarget comments targetId targetType) t ty
      = Comment.findByTarget comments t ty := by
  unfold Comment.findByTarget Comment.deleteManyByTarget
  rw [List.filter_filter]
  apply List.filter_congr
  intro c _
  by_cases h1 : c.target_id = t ∧ c.target_type = ty
  · have : ¬ (c.target_id = targetId ∧ c.target_type = targetType) := by
      rintro ⟨h2, h3⟩
      exact h ⟨h1.1 ▸ h2, h1.2 ▸ h3⟩
    rw [decide_eq_true this, decide_eq_true h1]
    rfl
  · rw [decide_eq_false h1]
    simp

theorem forum_deleteArticle_ok {s s' : Store} {user : Option Profile} {articleId : String}
    {r : Response} (h : Forum.deleteArticle s user articleId = (r, s')) (hr : r.status = 200) :
    (∃ profile article, user = some profile ∧
      Article.findOne s.articles articleId = some article ∧
      (article.author.handle = profile.handle ∨ profile.admin = true)) ∧
    r.body = Body.success ∧
    s' = { s with articles := Article.deleteOne s.articles articleId,
                  comments := Comment.deleteManyByTarget s.comments articleId
                    TargetType.article } := by
  unfold Forum.deleteArticle at h
  cases user with
  | none =>
    simp only [Prod.mk.injEq] at h
    rw [← h.1] at hr
    exact absurd hr (by decide)
  | some profile =>
    cases ha : Article.findOne s.articles articleId with
    | none =>
      rw [ha] at h
      simp only [Prod.mk.injEq] at h
      rw [← h.1] at hr
      exact absurd hr (by decide)
    | some article =>
      rw [ha] at h
      simp only at h
      split at h
      · simp only [Prod.mk.injEq] at h
        rw [← h.1] at hr
        exact absurd hr (by decide)
      · rename_i hperm
        simp only [Prod.mk.injEq] at h
        refine ⟨⟨profile, article, rfl, rfl, ?_⟩, by rw [← h.1], h.2.symm⟩
        by_cases hh : article.author.handle = profile.handle
        · exact Or.inl hh
        · right
          simpa [hh] using hperm

theorem character_deleteCharacter_ok {s s' : Store} {user : Option Profile}
    {characterId : String} {r : Response}
    (h : PublicCharacters.deleteCharacter s user characterId = (r, s')) (hr : r.status = 200) :
    (∃ profile character, user = some profile ∧
      Character.findOne s.characters characterId = some character ∧
      (character.uploader.handle = profile.handle ∨ profile.admin = true)) ∧
    r.body = Body.success ∧
    s' = { s with characters := Character.deleteOne s.characters characterId,
                  comments := Comment.deleteManyByTarget s.comments characterId
                    TargetType.character } := by
  unfold PublicCharacters.deleteCharacter at h
  cases user with
  | none =>
    simp only [Prod.mk.injEq] at h
    rw [← h.1] at hr
    exact absurd hr (by decide)
  | some profile =>
    cases ha : Character.findOne s.characters characterId with
    | none =>
      rw [ha] at h
      simp only [Prod.mk.injEq] at h
      rw [← h.1] at hr
      exact absurd hr (by decide)
    | some character =>
      rw [ha] at h
      simp only at h
      split at h
      · simp only [Prod.mk.injEq] at h
        rw [← h.1] at hr
        exact absurd hr (by decide)
      · rename_i hperm
        simp only [Prod.mk.injEq] at h
        refine ⟨⟨profile, character, rfl, rfl, ?_⟩, by rw [← h.1], h.2.symm⟩
        by_cases hh : character.uploader.handle = profile.handle
        · exact Or.inl hh
        · right
          simpa [hh] using hperm

/-- C16: a delete of an article, respectively of a character, that is answered
200 was requested by the author (uploader) or an administrator of an existing
entity; afterwards no stored comment has that target id with that target type,
no comment has been added or altered, and for every other pair of target id
and target type the stored comments are the same as before, in the same
order. -/
theorem deleteTarget_removes_comments (s s' : Store) (user : Option Profile) (id : String)
    (r : Response) (targetType : TargetType)
    (h : (match targetType with
          | TargetType.article => Forum.deleteArticle s user id
          | TargetType.character => PublicCharacters.deleteCharacter s user id) = (r, s'))
    (hr : r.status = 200) :
    (∀ c ∈ s'.comments, ¬ (c.target_id = id ∧ c.target_type = targetType)) ∧
    s'.comments.Sublist s.comments ∧
    (∀ c ∈ s.comments, ¬ (c.target_id = id ∧ c.target_type = targetType) → c ∈ s'.comments) ∧
    (∀ t ty, ¬ (t = id ∧ ty = targetType) →
      Comment.findByTarget s'.comments t ty = Comment.findByTarget s.comments t ty) ∧
    ∃ profile, user = some profile ∧
      (profile.admin = true ∨
        match targetType with
        | TargetType.article =>
          ∃ a, Article.findOne s.articles id = some a ∧ a.author.handle = profile.handle
        | TargetType.character =>
          ∃ c, Character.findOne s.characters id = some c ∧
            c.uploader.handle = profile.handle) := by
  have key : s'.comments = Comment.deleteManyByTarget s.comments id targetType ∧
      ∃ profile, user = some profile ∧
      (profile.admin = true ∨
        match targetType with
        | TargetType.article =>
          ∃ a, Article.findOne s.articles id = some a ∧ a.author.handle = profile.handle
        | TargetType.character =>
          ∃ c, Character.findOne s.characters id = some c ∧
            c.uploader.handle = profile.handle) := by
    cases targetType with
    | article =>
      obtain ⟨⟨profile, article, hu, ha, hp⟩, _, hs⟩ := forum_deleteArticle_ok h hr
      refine ⟨by rw [hs], profile, hu, ?_⟩
      rcases hp with hp | hp
      · exact Or.inr ⟨article, ha, hp⟩
      · exact Or.inl hp
    | character =>
      obtain ⟨⟨profile, character, hu, ha, hp⟩, _, hs⟩ := character_deleteCharacter_ok h hr
      refine ⟨by rw [hs], profile, hu, ?_⟩
      rcases hp with hp | hp
      · exact Or.inr ⟨character, ha, hp⟩
      · exact Or.inl hp
  obtain ⟨hc, hauth⟩ := key
  refine ⟨?_, ?_, ?_, ?_, hauth⟩
  · intro c hcm
    rw [hc] at hcm
    exact (mem_deleteManyByTarget.1 hcm).2
  · rw [hc]
    exact List.filter_sublist _
  · intro c hcm hne
    rw [hc]
    exact mem_deleteManyByTarget.2 ⟨hcm, hne⟩
  · intro t ty hne
    rw [hc]
    exact findByTarget_deleteManyByTarget _ _ _ _ _ hne

/-- C16 on a store where an article and a character share the id `x1`:
deleting the article removes the article's comment and keeps the comment of
the character. -/
theorem deleteTarget_removes_comments_witness :
    Forum.deleteArticle sharedIdStore (some ann) "x1"
      = ({ status := 200, body := Body.success },
          { sharedIdStore with
            articles := [],
            comments := [{ sampleComment "B1" none 20 with
              target_id := "x1", target_type := TargetType.character }] }) ∧
    ((∀ c ∈ (Forum.deleteArticle sharedIdStore (some ann) "x1").2.comments,
        ¬ (c.target_id = "x1" ∧ c.target_type = TargetType.article)) ∧
      (Forum.deleteArticle sharedIdStore (some ann) "x1").2.comments.Sublist
        sharedIdStore.comments ∧
      (∀ c ∈ sharedIdStore.comments, ¬ (c.target_id = "x1" ∧ c.target_type = TargetType.article) →
        c ∈ (Forum.deleteArticle sharedIdStore (some ann) "x1").2.comments) ∧
      (∀ t ty, ¬ (t = "x1" ∧ ty = TargetType.article) →
        Comment.findByTarget (Forum.deleteArticle sharedIdStore (some ann) "x1").2.comments t ty
          = Comment.findByTarget sharedIdStore.comments t ty) ∧
      ∃ profile, some ann = some profile ∧
        (profile.admin = true ∨
          ∃ a, Article.findOne sharedIdStore.articles "x1" = some a ∧
            a.author.handle = profile.handle)) :=
  ⟨by decide,
    deleteTarget_removes_comments sharedIdStore
      (Forum.deleteArticle sharedIdStore (some ann) "x1").2 (some ann) "x1"
      (Forum.deleteArticle sharedIdStore (some ann) "x1").1 TargetType.article rfl (by decide)⟩

/-! ## Execution of `try` blocks -/

theorem TryBlock.bind_def {α β : Type} (m : TryBlock α) (f : α → TryBlock β) :
    (m >>= f) = m.bind f := rfl

theorem TryBlock.pure_def {α : Type} (a : α) : (pure a : TryBlock α) = TryBlock.done a := rfl

theorem TryBlock.run_bind {α β : Type} (m : TryBlock α) (f : α → TryBlock β) (faults : Faults)
    (st : RunState) :
    (m.bind f).run faults st
      = match m.run faults st with
        | (Outcome.returned a, st') => (f a).run faults st'
        | (Outcome.storeThrew message, st') => (Outcome.storeThrew message, st')
        | (Outcome.jsThrew message, st') => (Outcome.jsThrew message, st')
        | (Outcome.never, st') => (Outcome.never, st') := by
  induction m generalizing st with
  | done a => rfl
  | await call next ih =>
    simp only [TryBlock.bind, TryBlock.run]
    cases faults st.calls with
    | some message => rfl
    | none =>
      simp only
      cases call st.store with
      | error message => rfl
      | ok r => exact ih r.1 _
  | throwJs message => rfl
  | never => rfl

/-- Two runs of a block in which the driver fails at the same calls, with
whatever messages, end alike: with the same outcome and state, or both by a
rejected store call in the same state. -/
theorem TryBlock.run_oblivious {α : Type} (m : TryBlock α) (f1 f2 : Faults)
    (h : ∀ k, (f1 k).isSome = (f2 k).isSome) (st : RunState) :
    m.run f1 st = m.run f2 st ∨
      ∃ m1 m2 st', m.run f1 st = (Outcome.storeThrew m1, st') ∧
        m.run f2 st = (Outcome.storeThrew m2, st') := by
  induction m generalizing st with
  | done a => exact Or.inl rfl
  | await call next ih =>
    simp only [TryBlock.run]
    have hk := h st.calls
    cases h1 : f1 st.calls with
    | some m1 =>
      cases h2 : f2 st.calls with
      | some m2 => exact Or.inr ⟨m1, m2, _, rfl, rfl⟩
      | none => rw [h1, h2] at hk; cases hk
    | none =>
      cases h2 : f2 st.calls with
      | some m2 => rw [h1, h2] at hk; cases hk
      | none =>
        simp only
        cases call st.store with
        | error message => exact Or.inl rfl
        | ok r => exact ih r.1 _
  | throwJs message => exact Or.inl rfl
  | never => exact Or.inl rfl

theorem respond_oblivious (failText : String) (block : TryBlock Response) (f1 f2 : Faults)
    (h : ∀ k, (f1 k).isSome = (f2 k).isSome) (s : Store) :
    respond failText block f1 s = respond failText block f2 s := by
  unfold respond
  rcases TryBlock.run_oblivious block f1 f2 h { store := s, calls := 0 } with h | ⟨m1, m2, st', h1, h2⟩
  · rw [h]
  · rw [h1, h2]

theorem respond_of_storeThrew {failText : String} {block : TryBlock Response} {faults : Faults}
    {s : Store} {message : String} {st : RunState}
    (h : block.run faults { store := s, calls := 0 } = (Outcome.storeThrew message, st)) :
    respond failText block faults s
      = some ({ status := 500, body := Body.error failText }, st.store) := by
  unfold respond
  rw [h]

theorem TryBlock.run_await_noFaults {α β : Type} (call : Store → Except String (β × Store))
    (next : β → TryBlock α) (st : RunState) :
    (TryBlock.await call next).run noFaults st
      = match call st.store with
        | Except.error message => (Outcome.storeThrew message, { st with calls := st.calls + 1 })
        | Except.ok (b, store) =>
          (next b).run noFaults { store := store, calls := st.calls + 1 } := by
  cases h : call st.store with
  | error message => simp only [TryBlock.run, noFaults, h]
  | ok r => simp only [TryBlock.run, noFaults, h]

theorem TryBlock.query_bind {α β : Type} (g : Store → β) (f : β → TryBlock α) :
    (TryBlock.query g >>= f) = TryBlock.await (fun s => Except.ok (g s, s)) f := rfl

theorem TryBlock.exec_bind {α β : Type} (g : Store → β × Store) (f : β → TryBlock α) :
    (TryBlock.exec g >>= f) = TryBlock.await (fun s => Except.ok (g s)) f := rfl

theorem TryBlock.write_bind {α : Type} (g : Store → Except StoreError Store)
    (f : Unit → TryBlock α) :
    (TryBlock.write g >>= f)
      = TryBlock.await
          (fun s =>
            match g s with
            | Except.error e => Except.error e.message
            | Except.ok s' => Except.ok ((), s')) f := rfl

/-! ## The queries of `findChildren` -/

theorem foldlM_findChildrenBlock (s : Store) (fuel : Nat)
    (ih : ∀ (id : String) (acc : List String) (k : Nat),
      (∀ D, findChildren s.comments fuel id acc = some D →
        ∃ E, D = acc ++ E ∧
          (findChildrenBlock fuel id acc).run noFaults { store := s, calls := k }
            = (Outcome.returned D, { store := s, calls := k + E.length + 1 })) ∧
      (findChildren s.comments fuel id acc = none →
        ((findChildrenBlock fuel id acc).run noFaults { store := s, calls := k }).1
          = Outcome.never)) :
    ∀ (l : List Comment) (acc : List String) (k : Nat),
      (∀ D, l.foldlM (fun acc child => findChildren s.comments fuel child.id (acc ++ [child.id]))
          acc = some D →
        ∃ E, D = acc ++ E ∧
          (l.foldlM (fun acc child => findChildrenBlock fuel child.id (acc ++ [child.id]))
              acc).run noFaults { store := s, calls := k }
            = (Outcome.returned D, { store := s, calls := k + E.length })) ∧
      (l.foldlM (fun acc child => findChildren s.comments fuel child.id (acc ++ [child.id]))
          acc = none →
        ((l.foldlM (fun acc child => findChildrenBlock fuel child.id (acc ++ [child.id]))
            acc).run noFaults { store := s, calls := k }).1 = Outcome.never) := by
  intro l
  induction l with
  | nil =>
    intro acc k
    refine ⟨?_, ?_⟩
    · intro D hD
      simp only [List.foldlM_nil] at hD
      have hD' : acc = D := Option.some.inj hD
      subst hD'
      exact ⟨[], by simp, rfl⟩
    · intro hD
      simp only [List.foldlM_nil] at hD
      cases hD
  | cons c l ihl =>
    intro acc k
    rw [List.foldlM_cons, List.foldlM_cons, TryBlock.bind_def, TryBlock.run_bind]
    obtain ⟨ih1, ih2⟩ := ih c.id (acc ++ [c.id]) k
    cases h1 : findChildren s.comments fuel c.id (acc ++ [c.id]) with
    | none =>
      refine ⟨?_, ?_⟩
      · intro D hD
        simp at hD
      · intro _
        have h := ih2 h1
        rcases hr : (findChildrenBlock fuel c.id (acc ++ [c.id])).run noFaults
          { store := s, calls := k } with ⟨o, st'⟩
        rw [hr] at h
        simp only at h
        subst h
        rfl
    | some D1 =>
      obtain ⟨E1, hE1, hrun1⟩ := ih1 D1 h1
      rw [hrun1]
      simp only [Option.bind_eq_bind, Option.some_bind]
      obtain ⟨ihl1, ihl2⟩ := ihl D1 (k + E1.length + 1)
      refine ⟨?_, ?_⟩
      · intro D hD
        obtain ⟨E2, hE2, hrun2⟩ := ihl1 D hD
        refine ⟨[c.id] ++ E1 ++ E2, ?_, ?_⟩
        · rw [hE2, hE1]; simp
        · rw [hrun2]
          simp only [List.length_append, List.length_singleton, Prod.mk.injEq, true_and,
            RunState.mk.injEq]
          omega
      · intro hD
        exact ihl2 hD

/-- The block `findChildren` without driver failure: it returns what
`findChildren` returns, and while it appends `n` ids it issues `n + 1`
queries. When `findChildren` does not return, neither does the block. -/
theorem findChildrenBlock_run (s : Store) :
    ∀ (fuel : Nat) (id : String) (acc : List String) (k : Nat),
      (∀ D, findChildren s.comments fuel id acc = some D →
        ∃ E, D = acc ++ E ∧
          (findChildrenBlock fuel id acc).run noFaults { store := s, calls := k }
            = (Outcome.returned D, { store := s, calls := k + E.length + 1 })) ∧
      (findChildren s.comments fuel id acc = none →
        ((findChildrenBlock fuel id acc).run noFaults { store := s, calls := k }).1
          = Outcome.never) := by
  intro fuel
  induction fuel with
  | zero =>
    intro id acc k
    refine ⟨?_, ?_⟩
    · intro D hD
      simp [findChildren] at hD
    · intro _
      rfl
  | succ fuel ih =>
    intro id acc k
    have hf := foldlM_findChildrenBlock s fuel ih (Comment.find s.comments id) acc (k + 1)
    have hrun : (findChildrenBlock (fuel + 1) id acc).run noFaults { store := s, calls := k }
        = ((Comment.find s.comments id).foldlM
            (fun acc child => findChildrenBlock fuel child.id (acc ++ [child.id])) acc).run
            noFaults { store := s, calls := k + 1 } := by
      rw [findChildrenBlock, TryBlock.query_bind, TryBlock.run_await_noFaults]
    rw [hrun, findChildren]
    refine ⟨?_, hf.2⟩
    intro D hD
    obtain ⟨E, hE, hr⟩ := hf.1 D hD
    refine ⟨E, hE, ?_⟩
    rw [hr]
    simp only [Prod.mk.injEq, true_and, RunState.mk.injEq]
    omega

/-! ## Without driver failure the blocks are the handlers -/

theorem handle_forumPostArticle (env : Env) (req : Request) (s : Store) :
    handle Route.forumPostArticle env req noFaults s
      = some (Forum.postArticle s req.user req.title req.content req.category req.tags
          env.newId env.now) := by
  unfold handle respond tryBlock Forum.postArticleBlock Forum.postArticle
  cases req.title with
  | none => rfl
  | some title =>
    cases req.content with
    | none => rfl
    | some content =>
      by_cases h : title = "" ∨ content = ""
      · simp only [h, if_true]; rfl
      · simp only [h, if_false]
        cases req.user with
        | none => rfl
        | some profile =>
          simp only [TryBlock.write_bind, TryBlock.run_await_noFaults, failText]
          cases Article.save s.articles _ with
          | error e => rfl
          | ok articles => rfl

theorem handle_forumPostComment (env : Env) (req : Request) (s : Store) :
    handle Route.forumPostComment env req noFaults s
      = some (Forum.postArticleComment s req.user req.articleId req.content req.parent_id
          env.newId env.now) := by
  unfold handle respond tryBlock Forum.postArticleCommentBlock Forum.postArticleComment
  cases req.content with
  | none => rfl
  | some content =>
    by_cases h : content = ""
    · simp only [h, if_true]; rfl
    · simp only [h, if_false]
      cases req.user with
      | none => rfl
      | some profile =>
        simp only [TryBlock.query_bind, TryBlock.run_await_noFaults, failText]
        cases Article.findOne s.articles req.articleId with
        | none => rfl
        | some a =>
          simp only [TryBlock.write_bind, TryBlock.exec_bind, TryBlock.run_await_noFaults]
          cases Comment.save s.comments _ with
          | error e => rfl
          | ok comments => rfl

theorem handle_charactersPostComment (env : Env) (req : Request) (s : Store) :
    handle Route.charactersPostComment env req noFaults s
      = some (PublicCharacters.postComment s req.user req.characterId req.content req.parentId
          env.newId env.now) := by
  unfold handle respond tryBlock PublicCharacters.postCommentBlock PublicCharacters.postComment
  cases req.user with
  | none => rfl
  | some profile =>
    cases req.content with
    | none => rfl
    | some content =>
      by_cases h : content = ""
      · simp only [h, if_true]; rfl
      · simp only [h, if_false]
        simp only [TryBlock.query_bind, TryBlock.run_await_noFaults, failText]
        cases Character.findOne s.characters req.characterId with
        | none => rfl
        | some a =>
          simp only [TryBlock.write_bind, TryBlock.run_await_noFaults]
          cases Comment.save s.comments _ with
          | error e => rfl
          | ok comments => rfl

theorem article_findOneAndUpdate_none {articles : List Article} {id : String}
    {update : Article → Article} (h : (Article.findOneAndUpdate articles id update).1 = none) :
    (Article.findOneAndUpdate articles id update).2 = articles := by
  induction articles with
  | nil => rfl
  | cons a rest ih =>
    by_cases ha : a.id = id
    · simp [Article.findOneAndUpdate, ha] at h
    · simp only [Article.findOneAndUpdate, ha, if_false] at h ⊢
      rw [ih h]

theorem character_findOneAndUpdate_none {characters : List Character} {id : String}
    {update : Character → Character}
    (h : (Character.findOneAndUpdate characters id update).1 = none) :
    (Character.findOneAndUpdate characters id update).2 = characters := by
  induction characters with
  | nil => rfl
  | cons c rest ih =>
    by_cases hc : c.id = id
    · simp [Character.findOneAndUpdate, hc] at h
    · simp only [Character.findOneAndUpdate, hc, if_false] at h ⊢
      rw [ih h]

theorem handle_forumGetArticle (env : Env) (req : Request) (s : Store) :
    handle Route.forumGetArticle env req noFaults s
      = some (Forum.getArticle s req.user req.articleId) := by
  unfold handle respond tryBlock Forum.getArticleBlock Forum.getArticle
  simp only [TryBlock.exec_bind, TryBlock.run_await_noFaults, failText]
  rcases hu : Article.findOneAndUpdate s.articles req.articleId
    (fun a => { a with views := a.views + 1 }) with ⟨o, articles⟩
  cases o with
  | none =>
    have h := article_findOneAndUpdate_none (congrArg Prod.fst hu)
    rw [hu] at h
    simp only at h
    subst h
    rfl
  | some article =>
    simp only [TryBlock.query_bind, TryBlock.run_await_noFaults]
    cases buildCommentTree (Comment.findByTarget s.comments req.articleId TargetType.article) with
    | error e => rfl
    | ok tree => rfl

theorem handle_charactersGetOne (env : Env) (req : Request) (s : Store) :
    handle Route.charactersGetOne env req noFaults s
      = some (PublicCharacters.getCharacter s req.characterId) := by
  unfold handle respond tryBlock PublicCharacters.getCharacterBlock PublicCharacters.getCharacter
  simp only [TryBlock.exec_bind, TryBlock.run_await_noFaults, failText]
  rcases hu : Character.findOneAndUpdate s.characters req.characterId
    (fun c => { c with views := c.views + 1 }) with ⟨o, characters⟩
  cases o with
  | none =>
    have h := character_findOneAndUpdate_none (congrArg Prod.fst hu)
    rw [hu] at h
    simp only at h
    subst h
    rfl
  | some character => rfl

theorem handle_charactersGetComments (env : Env) (req : Request) (s : Store) :
    handle Route.charactersGetComments env req noFaults s
      = some (PublicCharacters.getComments s req.characterId) := by
  unfold handle respond tryBlock PublicCharacters.getCommentsBlock PublicCharacters.getComments
  simp only [TryBlock.query_bind, TryBlock.run_await_noFaults, failText]
  cases PublicCharacters.buildCommentTree
      (Comment.findByTarget s.comments req.characterId TargetType.character) with
  | error e => rfl
  | ok tree => rfl

theorem handle_forumDeleteArticle (env : Env) (req : Request) (s : Store) :
    handle Route.forumDeleteArticle env req noFaults s
      = some (Forum.deleteArticle s req.user req.articleId) := by
  unfold handle respond tryBlock Forum.deleteArticleBlock Forum.deleteArticle
  cases req.user with
  | none => rfl
  | some profile =>
    simp only [TryBlock.query_bind, TryBlock.run_await_noFaults, failText]
    cases Article.findOne s.articles req.articleId with
    | none => rfl
    | some article =>
      simp only
      cases hg : (!decide (article.author.handle = profile.handle) && !profile.admin) with
      | true => rfl
      | false => rfl

theorem handle_charactersDelete (env : Env) (req : Request) (s : Store)
    (hfs : ∀ avatar, env.unlinkAvatar avatar = Except.ok ()) :
    handle Route.charactersDelete env req noFaults s
      = some (PublicCharacters.deleteCharacter s req.user req.characterId) := by
  unfold handle respond tryBlock PublicCharacters.deleteCharacterBlock
    PublicCharacters.deleteCharacter
  cases req.user with
  | none => rfl
  | some profile =>
    simp only [TryBlock.query_bind, TryBlock.run_await_noFaults, failText]
    cases Character.findOne s.characters req.characterId with
    | none => rfl
    | some character =>
      simp only
      cases hg : (!decide (character.uploader.handle = profile.handle) && !profile.admin) with
      | true => rfl
      | false =>
        simp only [Bool.false_eq_true, if_false, TryBlock.exec_bind, TryBlock.run_await_noFaults,
          hfs, ite_self]
        rfl

theorem handle_forumDeleteComment (env : Env) (req : Request) (s : Store) :
    handle Route.forumDeleteComment env req noFaults s
      = Forum.deleteComment s req.user req.commentId := by
  unfold handle respond tryBlock Forum.deleteCommentBlock Forum.deleteComment
  cases req.user with
  | none => rfl
  | some profile =>
    simp only [TryBlock.query_bind, TryBlock.run_await_noFaults, failText]
    cases Comment.findOne s.comments req.commentId with
    | none => rfl
    | some comment =>
      simp only
      cases hg : (!decide (comment.author.handle = profile.handle) && !profile.admin) with
      | true => rfl
      | false =>
        simp only [Bool.false_eq_true, if_false]
        rw [TryBlock.bind_def, TryBlock.run_bind]
        obtain ⟨h1, h2⟩ := findChildrenBlock_run s s.comments.length req.commentId [comment.id] 1
        cases hf : findChildren s.comments s.comments.length req.commentId [comment.id] with
        | none =>
          have h := h2 hf
          rcases hr : (findChildrenBlock s.comments.length req.commentId [comment.id]).run
            noFaults { store := s, calls := 1 } with ⟨o, st'⟩
          rw [hr] at h
          simp only at h
          subst h
          rfl
        | some D =>
          obtain ⟨E, _, hrun⟩ := h1 D hf
          rw [hrun]
          simp only [TryBlock.exec_bind, TryBlock.run_await_noFaults]
          by_cases ht : comment.target_type = TargetType.article
          · simp only [ht, if_true, TryBlock.exec_bind, TryBlock.run_await_noFaults]
            rfl
          · simp only [ht, if_false]
            rfl

theorem handle_charactersDeleteComment (env : Env) (req : Request) (s : Store) :
    handle Route.charactersDeleteComment env req noFaults s
      = PublicCharacters.deleteComment s req.user req.characterId req.commentId := by
  unfold handle respond tryBlock PublicCharacters.deleteCommentBlock
    PublicCharacters.deleteComment
  cases req.user with
  | none => rfl
  | some profile =>
    simp only [TryBlock.query_bind, TryBlock.run_await_noFaults, failText]
    cases Comment.findOne s.comments req.commentId with
    | none => rfl
    | some comment =>
      simp only
      cases hg : (!decide (comment.author.handle = profile.handle) && !profile.admin) with
      | true => rfl
      | false =>
        simp only [Bool.false_eq_true, if_false]
        rw [TryBlock.bind_def, TryBlock.run_bind]
        obtain ⟨h1, h2⟩ := findChildrenBlock_run s s.comments.length req.commentId [comment.id] 1
        cases hf : findChildren s.comments s.comments.length req.commentId [comment.id] with
        | none =>
          have h := h2 hf
          rcases hr : (findChildrenBlock s.comments.length req.commentId [comment.id]).run
            noFaults { store := s, calls := 1 } with ⟨o, st'⟩
          rw [hr] at h
          simp only at h
          subst h
          rfl
        | some D =>
          obtain ⟨E, _, hrun⟩ := h1 D hf
          rw [hrun]
          simp only [TryBlock.exec_bind, TryBlock.run_await_noFaults]
          rfl

/-! ## The claims about the number of queries and about store failures -/

/-- C15, as stated, fails: the two stores are forests in which `R` has two,
respectively three, leaf replies, so the subtree of `R` has two levels in
both; `findChildren` issues three queries in the first and four in the
second. -/
theorem findChildren_queries_grow :
    UniqueIds starStore2.comments ∧ AcyclicParents starStore2.comments ∧
    UniqueIds starStore3.comments ∧ AcyclicParents starStore3.comments ∧
    subtreeLevels starStore2.comments starStore2.comments.length "R" = 2 ∧
    subtreeLevels starStore3.comments starStore3.comments.length "R" = 2 ∧
    findChildrenQueries starStore2 "R" = 3 ∧
    findChildrenQueries starStore3 "R" = 4 := by
  refine ⟨by decide, by decide, by decide, by decide, by decide, by decide, by decide, by decide⟩

/-- C15 (amended): in a forest-shaped store, the cascade below a stored
comment `c` issues one `Comment.find({ parent_id })` query for every comment
of the deleted subtree: `findChildren` returns the list `D` of the ids of `c`
and of the replies below it, each once, the number of queries is the length
of `D`, which is the number of comments the delete removes; and when every
other stored comment is a direct reply to `c`, the number of queries is the
number of stored comments. -/
theorem findChildren_queries_per_node (s : Store) (hU : UniqueIds s.comments)
    (hA : AcyclicParents s.comments) (c : Comment) (hc : c ∈ s.comments) :
    ∃ D, findChildren s.comments s.comments.length c.id [c.id] = some D ∧
      (findChildrenBlock s.comments.length c.id [c.id]).run noFaults { store := s, calls := 0 }
        = (Outcome.returned D, { store := s, calls := D.length }) ∧
      findChildrenQueries s c.id = D.length ∧
      D.Nodup ∧
      (∀ x ∈ s.comments, x.id ∈ D ↔ x = c ∨ IsReplyBelow s.comments c.id x) ∧
      (Comment.deleteMany s.comments D).length + D.length = s.comments.length ∧
      ((∀ x ∈ s.comments, x ≠ c → x.parent_id = some c.id) →
        findChildrenQueries s c.id = s.comments.length) := by
  obtain ⟨D, hD⟩ := findChildren_isSome hU hA hc
  obtain ⟨hnd, hmem, hsub⟩ := findChildren_spec hU hc hD
  obtain ⟨E, hE, hrun⟩ := (findChildrenBlock_run s s.comments.length c.id [c.id] 0).1 D hD
  have hlen : D.length = 0 + E.length + 1 := by
    rw [hE]; simp
  rw [← hlen] at hrun
  have hq : findChildrenQueries s c.id = D.length := by
    unfold findChildrenQueries
    rw [hrun]
  have hdel := deleteMany_length hU hnd hsub
  refine ⟨D, hD, hrun, hq, hnd, hmem, hdel, ?_⟩
  intro hstar
  have hnil : Comment.deleteMany s.comments D = [] := by
    unfold Comment.deleteMany
    apply List.filter_eq_nil_iff.2
    intro x hx
    have hxD : x.id ∈ D := by
      rw [hmem x hx]
      by_cases hxc : x = c
      · exact Or.inl hxc
      · exact Or.inr (IsReplyBelow.direct hx (hstar x hx hxc))
    simpa using hxD
  rw [hnil] at hdel
  rw [hq]
  simpa using hdel

/-- C15 (amended) on `sampleStore`: the cascade below `C1` removes four
comments and issues four queries. -/
theorem findChildren_queries_per_node_witness :
    findChildrenQueries sampleStore "C1" = 4 ∧
    Forum.deleteComment sampleStore (some ann) "C1"
      = some ({ status := 200, body := Body.deleted 4 }, sampleStoreAfter) ∧
    ∃ D, findChildren sampleStore.comments sampleStore.comments.length
        (sampleComment "C1" none 10).id [(sampleComment "C1" none 10).id] = some D ∧
      (findChildrenBlock sampleStore.comments.length (sampleComment "C1" none 10).id
          [(sampleComment "C1" none 10).id]).run noFaults { store := sampleStore, calls := 0 }
        = (Outcome.returned D, { store := sampleStore, calls := D.length }) ∧
      findChildrenQueries sampleStore (sampleComment "C1" none 10).id = D.length ∧
      D.Nodup ∧
      (∀ x ∈ sampleStore.comments, x.id ∈ D ↔
        x = sampleComment "C1" none 10 ∨
          IsReplyBelow sampleStore.comments (sampleComment "C1" none 10).id x) ∧
      (Comment.deleteMany sampleStore.comments D).length + D.length
        = sampleStore.comments.length ∧
      ((∀ x ∈ sampleStore.comments, x ≠ sampleComment "C1" none 10 →
          x.parent_id = some (sampleComment "C1" none 10).id) →
        findChildrenQueries sampleStore (sampleComment "C1" none 10).id
          = sampleStore.comments.length) :=
  ⟨by decide, by decide,
    findChildren_queries_per_node sampleStore (by decide) (by decide)
      (sampleComment "C1" none 10) (by decide)⟩

/-- C19: whenever a store call rejects inside a handler of the two routers,
whether the driver failed or the store refused the document, the handler
answers 500 with the text of its own `catch`, which depends on the handler
alone; and two runs of a handler on the same request and store in which the
driver fails at the same calls with different messages give the same response
and the same store, so nothing of a message reaches the response. -/
theorem store_failure_is_generic (route : Route) (env : Env) (req : Request) (faults : Faults)
    (s : Store) :
    (∀ message, thrownByStore route env req faults s = some message →
      ∃ s', handle route env req faults s
        = some ({ status := 500, body := Body.error (failText route) }, s')) ∧
    (∀ faults', (∀ k, (faults k).isSome = (faults' k).isSome) →
      handle route env req faults' s = handle route env req faults s) := by
  refine ⟨?_, ?_⟩
  · intro message h
    unfold thrownByStore at h
    rcases hr : (tryBlock env s.comments.length req route).run faults
      { store := s, calls := 0 } with ⟨o, st⟩
    rw [hr] at h
    cases o with
    | storeThrew m => exact ⟨st.store, respond_of_storeThrew hr⟩
    | returned r => simp at h
    | jsThrew m => simp at h
    | never => simp at h
  · intro faults' h
    exact respond_oblivious _ _ _ _ (fun k => (h k).symm) s

/-- C19 on `sampleStore`: the driver fails at the third store call of a
cascade delete; the answer is the text of the handler, the same for two
different messages, and the store is as it was. -/
theorem store_failure_is_generic_witness :
    thrownByStore Route.forumDeleteComment sampleEnv { user := some ann, commentId := "C1" }
        (fun k => if k = 2 then some "MongoNetworkError: connection 7 to 10.0.0.5:27017 closed"
          else none) sampleStore
      = some "MongoNetworkError: connection 7 to 10.0.0.5:27017 closed" ∧
    handle Route.forumDeleteComment sampleEnv { user := some ann, commentId := "C1" }
        (fun k => if k = 2 then some "MongoNetworkError: connection 7 to 10.0.0.5:27017 closed"
          else none) sampleStore
      = some ({ status := 500, body := Body.error "Failed to delete comment" }, sampleStore) ∧
    handle Route.forumDeleteComment sampleEnv { user := some ann, commentId := "C1" }
        (fun k => if k = 2 then some "MongoServerSelectionError: timed out" else none)
        sampleStore
      = some ({ status := 500, body := Body.error "Failed to delete comment" }, sampleStore) ∧
    thrownByStore Route.forumPostComment sampleEnv
        { user := some ann, articleId := "art1", content := some "   " } noFaults sampleStore
      = some "ValidationError: Path is required." ∧
    ∃ s', handle Route.forumDeleteComment sampleEnv { user := some ann, commentId := "C1" }
        (fun k => if k = 2 then some "MongoNetworkError: connection 7 to 10.0.0.5:27017 closed"
          else none) sampleStore
      = some ({ status := 500, body := Body.error (failText Route.forumDeleteComment) }, s') :=
  ⟨by decide, by decide, by decide, by decide,
    (store_failure_is_generic Route.forumDeleteComment sampleEnv
      { user := some ann, commentId := "C1" }
      (fun k => if k = 2 then some "MongoNetworkError: connection 7 to 10.0.0.5:27017 closed"
        else none) sampleStore).1
      "MongoNetworkError: connection 7 to 10.0.0.5:27017 closed" (by decide)⟩

/-! ## What the handlers do to the stored comments -/

theorem comment_save_ok {comments comments' : List Comment} {c : Comment}
    (h : Comment.save comments c = Except.ok comments') :
    comments' = comments ++ [c] ∧ c.id ∉ comments.map (fun x => x.id) := by
  unfold Comment.save at h
  split at h
  · cases h
  · split at h
    · cases h
    · rename_i hid
      exact ⟨(Except.ok.inj h).symm, hid⟩

theorem forum_postArticleComment_comments (s : Store) (user : Option Profile)
    (articleId : String) (content parent_id : Option String) (newId : String) (now : Int) :
    (Forum.postArticleComment s user articleId content parent_id newId now).2.comments
        = s.comments ∨
      ∃ c, (Forum.postArticleComment s user articleId content parent_id newId now).2.comments
          = s.comments ++ [c] ∧
        c.id = newId ∧ newId ∉ s.comments.map (fun x => x.id) ∧
        c.parent_id = (if truthy parent_id then parent_id else none) ∧
        c.target_id = articleId ∧ c.target_type = TargetType.article := by
  unfold Forum.postArticleComment
  cases content with
  | none => exact Or.inl rfl
  | some content =>
    by_cases h : content = ""
    · subst h; exact Or.inl rfl
    · simp only [h, if_false]
      cases user with
      | none => exact Or.inl rfl
      | some profile =>
        cases Article.findOne s.articles articleId with
        | none => exact Or.inl rfl
        | some a =>
          simp only
          cases hs : Comment.save s.comments _ with
          | error e => exact Or.inl rfl
          | ok comments =>
            obtain ⟨h1, h2⟩ := comment_save_ok hs
            exact Or.inr ⟨_, h1, rfl, h2, rfl, rfl, rfl⟩

theorem character_postComment_comments (s : Store) (user : Option Profile)
    (characterId : String) (content parentId : Option String) (newId : String) (now : Int) :
    (PublicCharacters.postComment s user characterId content parentId newId now).2.comments
        = s.comments ∨
      ∃ c, (PublicCharacters.postComment s user characterId content parentId newId
            now).2.comments = s.comments ++ [c] ∧
        c.id = newId ∧ newId ∉ s.comments.map (fun x => x.id) ∧
        c.parent_id = (if truthy parentId then parentId else none) ∧
        c.target_id = characterId ∧ c.target_type = TargetType.character := by
  unfold PublicCharacters.postComment
  cases user with
  | none => exact Or.inl rfl
  | some profile =>
    cases content with
    | none => exact Or.inl rfl
    | some content =>
      by_cases h : content = ""
      · subst h; exact Or.inl rfl
      · simp only [h, if_false]
        cases Character.findOne s.characters characterId with
        | none => exact Or.inl rfl
        | some a =>
          simp only
          cases hs : Comment.save s.comments _ with
          | error e => exact Or.inl rfl
          | ok comments =>
            obtain ⟨h1, h2⟩ := comment_save_ok hs
            exact Or.inr ⟨_, h1, rfl, h2, rfl, rfl, rfl⟩

theorem forum_deleteComment_comments {s s' : Store} {user : Option Profile}
    {commentId : String} {r : Response}
    (h : Forum.deleteComment s user commentId = some (r, s')) :
    s'.comments = s.comments ∨
      ∃ c D, c ∈ s.comments ∧
        findChildren s.comments s.comments.length c.id [c.id] = some D ∧
        s'.comments = Comment.deleteMany s.comments D := by
  unfold Forum.deleteComment at h
  cases user with
  | none =>
    simp only [Option.some.injEq, Prod.mk.injEq] at h
    exact Or.inl (by rw [← h.2])
  | some profile =>
    cases hc : Comment.findOne s.comments commentId with
    | none =>
      rw [hc] at h
      simp only [Option.some.injEq, Prod.mk.injEq] at h
      exact Or.inl (by rw [← h.2])
    | some comment =>
      rw [hc] at h
      obtain ⟨hcm, hcid⟩ := findOne_mem hc
      subst hcid
      simp only at h
      cases hg : (!decide (comment.author.handle = profile.handle) && !profile.admin) with
      | true =>
        rw [hg] at h
        simp only [if_true, Option.some.injEq, Prod.mk.injEq] at h
        exact Or.inl (by rw [← h.2])
      | false =>
        rw [hg] at h
        simp only [Bool.false_eq_true, if_false] at h
        cases hf : findChildren s.comments s.comments.length comment.id [comment.id] with
        | none => rw [hf] at h; cases h
        | some D =>
          rw [hf] at h
          simp only [Option.some.injEq, Prod.mk.injEq] at h
          exact Or.inr ⟨comment, D, hcm, hf, by rw [← h.2]⟩

theorem character_deleteComment_comments {s s' : Store} {user : Option Profile}
    {characterId commentId : String} {r : Response}
    (h : PublicCharacters.deleteComment s user characterId commentId = some (r, s')) :
    s'.comments = s.comments ∨
      ∃ c D, c ∈ s.comments ∧
        findChildren s.comments s.comments.length c.id [c.id] = some D ∧
        s'.comments = Comment.deleteMany s.comments D := by
  unfold PublicCharacters.deleteComment at h
  cases user with
  | none =>
    simp only [Option.some.injEq, Prod.mk.injEq] at h
    exact Or.inl (by rw [← h.2])
  | some profile =>
    cases hc : Comment.findOne s.comments commentId with
    | none =>
      rw [hc] at h
      simp only [Option.some.injEq, Prod.mk.injEq] at h
      exact Or.inl (by rw [← h.2])
    | some comment =>
      rw [hc] at h
      obtain ⟨hcm, hcid⟩ := findOne_mem hc
      subst hcid
      simp only at h
      cases hg : (!decide (comment.author.handle = profile.handle) && !profile.admin) with
      | true =>
        rw [hg] at h
        simp only [if_true, Option.some.injEq, Prod.mk.injEq] at h
        exact Or.inl (by rw [← h.2])
      | false =>
        rw [hg] at h
        simp only [Bool.false_eq_true, if_false] at h
        cases hf : findChildren s.comments s.comments.length comment.id [comment.id] with
        | none => rw [hf] at h; cases h
        | some D =>
          rw [hf] at h
          simp only [Option.some.injEq, Prod.mk.injEq] at h
          exact Or.inr ⟨comment, D, hcm, hf, by rw [← h.2]⟩

theorem forum_deleteArticle_comments (s : Store) (user : Option Profile) (articleId : String) :
    (Forum.deleteArticle s user articleId).2.comments = s.comments ∨
      (Forum.deleteArticle s user articleId).2.comments
        = Comment.deleteManyByTarget s.comments articleId TargetType.article := by
  unfold Forum.deleteArticle
  cases user with
  | none => exact Or.inl rfl
  | some profile =>
    cases Article.findOne s.articles articleId with
    | none => exact Or.inl rfl
    | some article =>
      simp only
      cases (!decide (article.author.handle = profile.handle) && !profile.admin) with
      | true => exact Or.inl rfl
      | false => exact Or.inr rfl

theorem character_deleteCharacter_comments (s : Store) (user : Option Profile)
    (characterId : String) :
    (PublicCharacters.deleteCharacter s user characterId).2.comments = s.comments ∨
      (PublicCharacters.deleteCharacter s user characterId).2.comments
        = Comment.deleteManyByTarget s.comments characterId TargetType.character := by
  unfold PublicCharacters.deleteCharacter
  cases user with
  | none => exact Or.inl rfl
  | some profile =>
    cases Character.findOne s.characters characterId with
    | none => exact Or.inl rfl
    | some character =>
      simp only
      cases (!decide (character.uploader.handle = profile.handle) && !profile.admin) with
      | true => exact Or.inl rfl
      | false => exact Or.inr rfl

/-! ## Invariants of the stored comments -/

theorem uniqueIds_append {comments : List Comment} {n : Comment} (hU : UniqueIds comments)
    (hn : n.id ∉ comments.map (fun x => x.id)) : UniqueIds (comments ++ [n]) := by
  unfold UniqueIds at *
  rw [List.map_append, List.nodup_append]
  refine ⟨hU, by simp, ?_⟩
  intro a ha hb
  have : a = n.id := by simpa using hb
  subst this
  exact hn ha

theorem uniqueIds_of_sublist {comments sub : List Comment} (hs : sub.Sublist comments)
    (hU : UniqueIds comments) : UniqueIds sub :=
  List.Nodup.sublist (hs.map _) hU

theorem parentsStored_append {comments : List Comment} {n : Comment}
    (hP : ParentsStored comments) (hn : n.id ∉ comments.map (fun x => x.id))
    (hp : ∀ p ∈ n.parent_id, ∃ q ∈ comments, q.id = p ∧ q.target_id = n.target_id ∧
      q.target_type = n.target_type) :
    ParentsStored (comments ++ [n]) := by
  intro c hc p hpc
  rcases List.mem_append.1 hc with hc | hc
  · obtain ⟨q, hq, hne, hid, ht⟩ := hP c hc p hpc
    exact ⟨q, List.mem_append_left _ hq, hne, hid, ht⟩
  · have hcn : c = n := by simpa using hc
    subst hcn
    obtain ⟨q, hq, hid, ht⟩ := hp p hpc
    refine ⟨q, List.mem_append_left _ hq, ?_, hid, ht⟩
    intro hqc
    subst hqc
    exact hn (List.mem_map_of_mem _ hq)

theorem parentsStored_deleteMany {comments : List Comment} (hU : UniqueIds comments)
    (hP : ParentsStored comments) {c : Comment} (hc : c ∈ comments) {D : List String}
    (hD : findChildren comments comments.length c.id [c.id] = some D) :
    ParentsStored (Comment.deleteMany comments D) := by
  obtain ⟨_, hmem, _⟩ := findChildren_spec hU hc hD
  intro x hx p hp
  unfold Comment.deleteMany at hx ⊢
  rw [List.mem_filter, decide_eq_true_eq] at hx
  obtain ⟨q, hq, hne, hid, ht⟩ := hP x hx.1 p hp
  refine ⟨q, ?_, hne, hid, ht⟩
  rw [List.mem_filter, decide_eq_true_eq]
  refine ⟨hq, ?_⟩
  intro hqD
  apply hx.2
  have hxp : x.parent_id = some q.id := by rw [hid]; exact hp
  rw [hmem x hx.1]
  rcases (hmem q hq).1 hqD with hqc | hqb
  · subst hqc
    exact Or.inr (IsReplyBelow.direct hx.1 hxp)
  · exact Or.inr (IsReplyBelow.nested hx.1 hqb hxp)

theorem parentsStored_deleteManyByTarget {comments : List Comment}
    (hP : ParentsStored comments) (targetId : String) (targetType : TargetType) :
    ParentsStored (Comment.deleteManyByTarget comments targetId targetType) := by
  intro x hx p hp
  rw [mem_deleteManyByTarget] at hx
  obtain ⟨q, hq, hne, hid, ht1, ht2⟩ := hP x hx.1 p hp
  refine ⟨q, mem_deleteManyByTarget.2 ⟨hq, ?_⟩, hne, hid, ht1, ht2⟩
  rw [ht1, ht2]
  exact hx.2

theorem parentOf_eq_some_iff {comments : List Comment} (hU : UniqueIds comments)
    {x p : Comment} : parentOf comments x = some p ↔ p ∈ comments ∧ x.parent_id = some p.id := by
  unfold parentOf
  cases hk : x.parent_id with
  | none => simp
  | some k =>
    simp only [Option.some.injEq]
    constructor
    · intro h
      have hid : p.id = k := by simpa using List.find?_some h
      exact ⟨List.mem_of_find?_eq_some h, hid.symm⟩
    · rintro ⟨hp, hkp⟩
      rw [hkp]
      exact find_id_unique hU hp

theorem parentOf_some_of_mem {comments : List Comment} {x p : Comment}
    (h : parentOf comments x = some p) : p ∈ comments ∧ x.parent_id = some p.id := by
  unfold parentOf at h
  cases hk : x.parent_id with
  | none => rw [hk] at h; cases h
  | some k =>
    rw [hk] at h
    have hid : p.id = k := by simpa using List.find?_some h
    exact ⟨List.mem_of_find?_eq_some h, by rw [hid]⟩

theorem up_parentOf_of_subset {comments sub : List Comment} (hU : UniqueIds comments)
    (hs : ∀ x ∈ sub, x ∈ comments) :
    ∀ (d : Nat) (x y : Comment), Forest.up (parentOf sub) d x = some y →
      Forest.up (parentOf comments) d x = some y := by
  intro d
  induction d with
  | zero => intro x y h; exact h
  | succ d ih =>
    intro x y h
    have h' : (Forest.up (parentOf sub) d x).bind (parentOf sub) = some y := h
    obtain ⟨z, hz, hzy⟩ := Option.bind_eq_some.1 h'
    obtain ⟨hy, hp⟩ := parentOf_some_of_mem hzy
    show (Forest.up (parentOf comments) d x).bind (parentOf comments) = some y
    rw [ih x z hz, Option.some_bind]
    exact (parentOf_eq_some_iff hU).2 ⟨hs y hy, hp⟩

theorem noParentCycle_of_subset {comments sub : List Comment} (hU : UniqueIds comments)
    (hs : ∀ x ∈ sub, x ∈ comments) (hN : NoParentCycle comments) : NoParentCycle sub := by
  intro c hc d hcyc
  exact hN c (hs c hc) d (up_parentOf_of_subset hU hs (d + 1) c c hcyc)

theorem parentOf_append_fresh {comments : List Comment} {n x : Comment}
    (hx : x.parent_id ≠ some n.id) : parentOf (comments ++ [n]) x = parentOf comments x := by
  unfold parentOf
  cases hk : x.parent_id with
  | none => rfl
  | some k =>
    have hne : ¬ n.id = k := by
      intro h
      apply hx
      rw [hk, h]
    simp [List.find?_append, List.find?_cons, hne]

theorem noParentCycle_append {comments : List Comment} {n : Comment}
    (hN : NoParentCycle comments)
    (hold : ∀ c ∈ comments, c.parent_id ≠ some n.id) (hself : n.parent_id ≠ some n.id) :
    NoParentCycle (comments ++ [n]) := by
  have hpar : ∀ x ∈ comments ++ [n], parentOf (comments ++ [n]) x = parentOf comments x := by
    intro x hx
    apply parentOf_append_fresh
    rcases List.mem_append.1 hx with hx | hx
    · exact hold x hx
    · have hxn : x = n := by simpa using hx
      rw [hxn]
      exact hself
  have hup : ∀ (d : Nat) (x y : Comment), x ∈ comments ++ [n] →
      Forest.up (parentOf (comments ++ [n])) d x = some y →
      Forest.up (parentOf comments) d x = some y ∧ y ∈ comments ++ [n] := by
    intro d
    induction d with
    | zero =>
      intro x y hx h
      have hxy : x = y := Option.some.inj h
      subst hxy
      exact ⟨rfl, hx⟩
    | succ d ih =>
      intro x y hx h
      have h' : (Forest.up (parentOf (comments ++ [n])) d x).bind
          (parentOf (comments ++ [n])) = some y := h
      obtain ⟨z, hz, hzy⟩ := Option.bind_eq_some.1 h'
      obtain ⟨hz1, hz2⟩ := ih x z hx hz
      rw [hpar z hz2] at hzy
      refine ⟨?_, List.mem_append_left _ (parentOf_mem hzy)⟩
      show (Forest.up (parentOf comments) d x).bind (parentOf comments) = some y
      rw [hz1, Option.some_bind]
      exact hzy
  intro c hc d hcyc
  obtain ⟨h1, _⟩ := hup (d + 1) c c hc hcyc
  have h1' : (Forest.up (parentOf comments) d c).bind (parentOf comments) = some c := h1
  obtain ⟨z, _, hzc⟩ := Option.bind_eq_some.1 h1'
  have hcm : c ∈ comments := parentOf_mem hzc
  exact hN c hcm d h1

theorem mem_of_mem_deleteMany {comments : List Comment} {D : List String} :
    ∀ x ∈ Comment.deleteMany comments D, x ∈ comments := by
  intro x hx
  exact (List.mem_filter.1 hx).1

theorem mem_of_mem_deleteManyByTarget {comments : List Comment} {targetId : String}
    {targetType : TargetType} :
    ∀ x ∈ Comment.deleteManyByTarget comments targetId targetType, x ∈ comments := by
  intro x hx
  exact (List.mem_filter.1 hx).1

/-! ## The claims about reachable states -/

/-- C17, as stated, fails: the create handlers store whatever parent id the
request carries. From a store with the article `a1` and no comment, one
create request whose parent id names no comment leaves a stored comment whose
`parent_id` is no stored id. -/
theorem dangling_parent_reachable :
    driftStore1.comments = [] ∧
    Op.apply driftStore1
        (Op.postArticleComment (some ann) "a1" (some "hi") (some "nope") "c1" 2)
      = some danglingStore ∧
    Reachable anyRequest danglingStore ∧
    ¬ ParentsStored danglingStore.comments := by
  refine ⟨rfl, by decide, ?_, by decide⟩
  exact Reachable.step
    (Op.postArticleComment (some ann) "a1" (some "hi") (some "nope") "c1" 2)
    (Reachable.init (rfl : driftStore1.comments = [])) trivial (by decide)

/-- C17 (amended): in every state reachable from a store without comments by
create-comment, delete-comment and delete-target requests to the two routers,
in which every create request names as parent nothing or the id of a comment
stored at that moment under the target of the request, every stored comment
with a non-null `parent_id` names another stored comment with the same target
id and target type; and no two stored comments share an id. -/
theorem parents_stored_invariant (s : Store) (h : Reachable ParentStored s) :
    ParentsStored s.comments ∧ UniqueIds s.comments := by
  induction h with
  | init h0 =>
    rw [h0]
    exact ⟨fun c hc => absurd hc (List.not_mem_nil c), List.nodup_nil⟩
  | @step s s' op _ hallowed happly ih =>
    obtain ⟨hP, hU⟩ := ih
    cases op with
    | postArticleComment user articleId content parent_id newId now =>
      have hs : (Forum.postArticleComment s user articleId content parent_id newId now).2 = s' :=
        Option.some.inj happly
      rcases forum_postArticleComment_comments s user articleId content parent_id newId now
        with hc | ⟨c, hc, hid, hfresh, hpar, ht1, ht2⟩
      · rw [← hs, hc]; exact ⟨hP, hU⟩
      · rw [← hs, hc]
        have hfresh' : c.id ∉ s.comments.map (fun x => x.id) := by rw [hid]; exact hfresh
        refine ⟨parentsStored_append hP hfresh' ?_, uniqueIds_append hU hfresh'⟩
        intro p hp
        rw [hpar] at hp
        by_cases htr : truthy parent_id = true
        · rw [if_pos htr] at hp
          have hne : p ≠ "" := by
            intro hpe
            rw [hpe] at hp
            have hp' : parent_id = some "" := hp
            rw [hp'] at htr
            exact absurd htr (by decide)
          obtain ⟨q, hq, hqid, hq1, hq2⟩ := hallowed p hp hne
          exact ⟨q, hq, hqid, by rw [hq1, ht1], by rw [hq2, ht2]⟩
        · rw [if_neg htr] at hp
          cases hp
    | postCharacterComment user characterId content parentId newId now =>
      have hs : (PublicCharacters.postComment s user characterId content parentId newId
          now).2 = s' := Option.some.inj happly
      rcases character_postComment_comments s user characterId content parentId newId now
        with hc | ⟨c, hc, hid, hfresh, hpar, ht1, ht2⟩
      · rw [← hs, hc]; exact ⟨hP, hU⟩
      · rw [← hs, hc]
        have hfresh' : c.id ∉ s.comments.map (fun x => x.id) := by rw [hid]; exact hfresh
        refine ⟨parentsStored_append hP hfresh' ?_, uniqueIds_append hU hfresh'⟩
        intro p hp
        rw [hpar] at hp
        by_cases htr : truthy parentId = true
        · rw [if_pos htr] at hp
          have hne : p ≠ "" := by
            intro hpe
            rw [hpe] at hp
            have hp' : parentId = some "" := hp
            rw [hp'] at htr
            exact absurd htr (by decide)
          obtain ⟨q, hq, hqid, hq1, hq2⟩ := hallowed p hp hne
          exact ⟨q, hq, hqid, by rw [hq1, ht1], by rw [hq2, ht2]⟩
        · rw [if_neg htr] at hp
          cases hp
    | deleteForumComment user commentId =>
      obtain ⟨⟨r, s''⟩, hr, hs⟩ := Option.map_eq_some'.1 happly
      simp only at hs
      subst hs
      rcases forum_deleteComment_comments hr with hc | ⟨c, D, hcm, hD, hc⟩
      · rw [hc]; exact ⟨hP, hU⟩
      · rw [hc]
        exact ⟨parentsStored_deleteMany hU hP hcm hD,
          uniqueIds_of_sublist (List.filter_sublist _) hU⟩
    | deleteCharacterComment user characterId commentId =>
      obtain ⟨⟨r, s''⟩, hr, hs⟩ := Option.map_eq_some'.1 happly
      simp only at hs
      subst hs
      rcases character_deleteComment_comments hr with hc | ⟨c, D, hcm, hD, hc⟩
      · rw [hc]; exact ⟨hP, hU⟩
      · rw [hc]
        exact ⟨parentsStored_deleteMany hU hP hcm hD,
          uniqueIds_of_sublist (List.filter_sublist _) hU⟩
    | deleteArticle user articleId =>
      have hs : (Forum.deleteArticle s user articleId).2 = s' := Option.some.inj happly
      rcases forum_deleteArticle_comments s user articleId with hc | hc
      · rw [← hs, hc]; exact ⟨hP, hU⟩
      · rw [← hs, hc]
        exact ⟨parentsStored_deleteManyByTarget hP _ _,
          uniqueIds_of_sublist (List.filter_sublist _) hU⟩
    | deleteCharacter user characterId =>
      have hs : (PublicCharacters.deleteCharacter s user characterId).2 = s' :=
        Option.some.inj happly
      rcases character_deleteCharacter_comments s user characterId with hc | hc
      · rw [← hs, hc]; exact ⟨hP, hU⟩
      · rw [← hs, hc]
        exact ⟨parentsStored_deleteManyByTarget hP _ _,
          uniqueIds_of_sublist (List.filter_sublist _) hU⟩

theorem replyStore_reachable_parentStored : Reachable ParentStored replyStore := by
  have h1 : Reachable ParentStored driftStore2 :=
    Reachable.step (Op.postArticleComment (some ann) "a1" (some "hi") none "c1" 2)
      (Reachable.init (rfl : driftStore1.comments = []))
      (by intro p hp; cases hp) (by decide)
  refine Reachable.step (Op.postArticleComment (some ann) "a1" (some "re") (some "c1") "c2" 3)
    h1 ?_ (by decide)
  intro p hp _
  have hp' : p = "c1" := (Option.some.inj hp).symm
  subst hp'
  exact ⟨driftComment, by decide, rfl, rfl, rfl⟩

/-- C17 (amended) on the store reached by posting `c1` and then the reply
`c2` to `c1`. -/
theorem parents_stored_invariant_witness :
    Reachable ParentStored replyStore ∧
    ParentsStored replyStore.comments ∧ UniqueIds replyStore.comments :=
  ⟨replyStore_reachable_parentStored,
    parents_stored_invariant replyStore replyStore_reachable_parentStored⟩

/-- C18, as stated, fails: ids that are fresh among the stored ids do not
exclude a cycle. Posting the comment `a` with parent id `b`, then the comment
`b` with parent id `a`, reaches a store in which `a` and `b` are each other's
parent. -/
theorem parent_cycle_reachable :
    driftStore1.comments = [] ∧
    Op.apply driftStore1 (Op.postArticleComment (some ann) "a1" (some "hi") (some "b") "a" 2)
      = some cycleStore1 ∧
    Op.apply cycleStore1 (Op.postArticleComment (some ann) "a1" (some "hi") (some "a") "b" 3)
      = some cycleStore ∧
    Reachable FreshId cycleStore ∧
    ¬ AcyclicParents cycleStore.comments := by
  refine ⟨rfl, by decide, by decide, ?_, by decide⟩
  have h1 : Reachable FreshId cycleStore1 :=
    Reachable.step (Op.postArticleComment (some ann) "a1" (some "hi") (some "b") "a" 2)
      (Reachable.init (rfl : driftStore1.comments = []))
      (by show "a" ∉ driftStore1.comments.map (fun c => c.id); decide) (by decide)
  exact Reachable.step (Op.postArticleComment (some ann) "a1" (some "hi") (some "a") "b" 3)
    h1 (by show "b" ∉ cycleStore1.comments.map (fun c => c.id); decide) (by decide)

theorem noParentCycle_reachable (s : Store) (h : Reachable FreshAmongParents s) :
    UniqueIds s.comments ∧ NoParentCycle s.comments := by
  induction h with
  | init h0 =>
    rw [h0]
    exact ⟨List.nodup_nil, fun c hc => absurd hc (List.not_mem_nil c)⟩
  | @step s s' op _ hallowed happly ih =>
    obtain ⟨hU, hN⟩ := ih
    cases op with
    | postArticleComment user articleId content parent_id newId now =>
      have hs : (Forum.postArticleComment s user articleId content parent_id newId now).2 = s' :=
        Option.some.inj happly
      obtain ⟨_, hold, hself⟩ := hallowed
      rcases forum_postArticleComment_comments s user articleId content parent_id newId now
        with hc | ⟨c, hc, hid, hfresh, hpar, _, _⟩
      · rw [← hs, hc]; exact ⟨hU, hN⟩
      · rw [← hs, hc]
        have hfresh' : c.id ∉ s.comments.map (fun x => x.id) := by rw [hid]; exact hfresh
        refine ⟨uniqueIds_append hU hfresh', noParentCycle_append hN ?_ ?_⟩
        · rw [hid]; exact hold
        · rw [hid, hpar]
          by_cases htr : truthy parent_id = true
          · rw [if_pos htr]; exact hself
          · rw [if_neg htr]; exact fun hh => Option.noConfusion hh
    | postCharacterComment user characterId content parentId newId now =>
      have hs : (PublicCharacters.postComment s user characterId content parentId newId
          now).2 = s' := Option.some.inj happly
      obtain ⟨_, hold, hself⟩ := hallowed
      rcases character_postComment_comments s user characterId content parentId newId now
        with hc | ⟨c, hc, hid, hfresh, hpar, _, _⟩
      · rw [← hs, hc]; exact ⟨hU, hN⟩
      · rw [← hs, hc]
        have hfresh' : c.id ∉ s.comments.map (fun x => x.id) := by rw [hid]; exact hfresh
        refine ⟨uniqueIds_append hU hfresh', noParentCycle_append hN ?_ ?_⟩
        · rw [hid]; exact hold
        · rw [hid, hpar]
          by_cases htr : truthy parentId = true
          · rw [if_pos htr]; exact hself
          · rw [if_neg htr]; exact fun hh => Option.noConfusion hh
    | deleteForumComment user commentId =>
      obtain ⟨⟨r, s''⟩, hr, hs⟩ := Option.map_eq_some'.1 happly
      simp only at hs
      subst hs
      rcases forum_deleteComment_comments hr with hc | ⟨c, D, _, _, hc⟩
      · rw [hc]; exact ⟨hU, hN⟩
      · rw [hc]
        exact ⟨uniqueIds_of_sublist (List.filter_sublist _) hU,
          noParentCycle_of_subset hU mem_of_mem_deleteMany hN⟩
    | deleteCharacterComment user characterId commentId =>
      obtain ⟨⟨r, s''⟩, hr, hs⟩ := Option.map_eq_some'.1 happly
      simp only at hs
      subst hs
      rcases character_deleteComment_comments hr with hc | ⟨c, D, _, _, hc⟩
      · rw [hc]; exact ⟨hU, hN⟩
      · rw [hc]
        exact ⟨uniqueIds_of_sublist (List.filter_sublist _) hU,
          noParentCycle_of_subset hU mem_of_mem_deleteMany hN⟩
    | deleteArticle user articleId =>
      have hs : (Forum.deleteArticle s user articleId).2 = s' := Option.some.inj happly
      rcases forum_deleteArticle_comments s user articleId with hc | hc
      · rw [← hs, hc]; exact ⟨hU, hN⟩
      · rw [← hs, hc]
        exact ⟨uniqueIds_of_sublist (List.filter_sublist _) hU,
          noParentCycle_of_subset hU mem_of_mem_deleteManyByTarget hN⟩
    | deleteCharacter user characterId =>
      have hs : (PublicCharacters.deleteCharacter s user characterId).2 = s' :=
        Option.some.inj happly
      rcases character_deleteCharacter_comments s user characterId with hc | hc
      · rw [← hs, hc]; exact ⟨hU, hN⟩
      · rw [← hs, hc]
        exact ⟨uniqueIds_of_sublist (List.filter_sublist _) hU,
          noParentCycle_of_subset hU mem_of_mem_deleteManyByTarget hN⟩

/-- C18 (amended): in every state reachable from a store without comments by
create-comment and delete-comment requests (and delete-target requests), in
which every generated id differs from all stored ids, from every stored
`parent_id` and from the parent id of its own request, no two stored comments
share an id and the parent links are acyclic, on the whole store and on the
comments of each target id and target type: they form a forest. -/
theorem acyclic_invariant (s : Store) (h : Reachable FreshAmongParents s) :
    UniqueIds s.comments ∧ AcyclicParents s.comments ∧
    ∀ targetId targetType,
      UniqueIds (Comment.findByTarget s.comments targetId targetType) ∧
      AcyclicParents (Comment.findByTarget s.comments targetId targetType) := by
  obtain ⟨hU, hN⟩ := noParentCycle_reachable s h
  refine ⟨hU, (acyclicParents_iff_noParentCycle _).2 hN, ?_⟩
  intro targetId targetType
  refine ⟨uniqueIds_of_sublist (List.filter_sublist _) hU,
    (acyclicParents_iff_noParentCycle _).2 (noParentCycle_of_subset hU ?_ hN)⟩
  intro x hx
  exact (List.mem_filter.1 hx).1

theorem replyStore_reachable_fresh : Reachable FreshAmongParents replyStore := by
  have h1 : Reachable FreshAmongParents driftStore2 :=
    Reachable.step (Op.postArticleComment (some ann) "a1" (some "hi") none "c1" 2)
      (Reachable.init (rfl : driftStore1.comments = []))
      (by
        show "c1" ∉ driftStore1.comments.map (fun c => c.id) ∧
          (∀ c ∈ driftStore1.comments, c.parent_id ≠ some "c1") ∧ (none : Option String) ≠ some "c1"
        decide)
      (by decide)
  exact Reachable.step (Op.postArticleComment (some ann) "a1" (some "re") (some "c1") "c2" 3)
    h1
    (by
      show "c2" ∉ driftStore2.comments.map (fun c => c.id) ∧
        (∀ c ∈ driftStore2.comments, c.parent_id ≠ some "c2") ∧ some "c1" ≠ some "c2"
      decide)
    (by decide)

/-- C18 (amended) on the store reached by posting `c1` and then the reply
`c2` to `c1`. -/
theorem acyclic_invariant_witness :
    Reachable FreshAmongParents replyStore ∧
    UniqueIds replyStore.comments ∧ AcyclicParents replyStore.comments ∧
    ∀ targetId targetType,
      UniqueIds (Comment.findByTarget replyStore.comments targetId targetType) ∧
      AcyclicParents (Comment.findByTarget replyStore.comments targetId targetType) :=
  ⟨replyStore_reachable_fresh, acyclic_invariant replyStore replyStore_reachable_fresh⟩

/-! ## Termination of the tree builder and of the cascade -/

theorem roots_walk_nodup (comments : List Comment) :
    ((rootsOf comments).flatMap (fun x =>
      (Forest.walk comments.enum (treeParent comments) comments.length x).getD [])).Nodup := by
  have hrE : ∀ r ∈ rootsOf comments, r ∈ comments.enum := fun r hr => (mem_rootsOf.1 hr).1
  have anc : ∀ r ∈ rootsOf comments, ∀ y,
      y ∈ (Forest.walk comments.enum (treeParent comments) comments.length r).getD [] ↔
        ∃ d, Forest.up (treeParent comments) d y = some r := by
    intro r hr y
    obtain ⟨D, hD⟩ := (roots_walk_isSome comments r hr).2
    rw [hD, Option.getD_some]
    exact mem_walk_up hD
  rw [List.nodup_flatMap]
  constructor
  · intro r hr
    obtain ⟨D, hD⟩ := (roots_walk_isSome comments r hr).2
    obtain ⟨T, rfl, _, hrT, hT⟩ := Forest.walk_spec comments.enum (enum_nodup comments)
      (treeParent comments) treeParent_dom _ r D hD
    rw [hD, Option.getD_some]
    exact List.nodup_cons.2 ⟨hrT, hT⟩
  · have hn : (rootsOf comments).Nodup := (enum_nodup comments).filter _
    have key : ∀ r r', r ∈ rootsOf comments → ∀ y a b,
        Forest.up (treeParent comments) a y = some r →
        Forest.up (treeParent comments) b y = some r' → a < b → False := by
      intro r r' hr y a b ha hb hab
      obtain ⟨k, rfl⟩ : ∃ k, b = a + (k + 1) := ⟨b - a - 1, by omega⟩
      rw [Forest.up_add, ha, Option.some_bind, Forest.up_succ_left, treeParent_root hr] at hb
      cases hb
    refine List.Nodup.pairwise_of_forall_ne hn ?_
    intro r hr r' hr' hne
    rw [Function.onFun, List.disjoint_left]
    intro y hy hy'
    obtain ⟨a, ha⟩ := (anc r hr y).1 hy
    obtain ⟨b, hb⟩ := (anc r' hr' y).1 hy'
    rcases Nat.lt_trichotomy a b with hab | hab | hab
    · exact key r r' hr y a b ha hb hab
    · subst hab
      rw [ha] at hb
      exact hne (Option.some.inj hb)
    · exact key r' r hr' y b a hb ha hab

/-- For every input list, with or without cycles in its parent links, the
builder ends: a larger bound on the depth of `sortReplies` gives the same
arrays, so the bound is never reached, and the builder returns the sorted
arrays unless it throws the TypeError of an inherited name, which no cycle
causes. The plain comments that `sortReplies` visits are pairwise different
objects of the input, the comments of the returned tree are exactly theirs,
and the chain of parents from a visited comment up to its root passes through
no comment twice. -/
theorem buildCommentTree_terminates (comments : List Comment) :
    (∀ k, sortReplies (repliesOf comments) (comments.enum.length + k) (rootsOf comments)
      = sortReplies (repliesOf comments) comments.enum.length (rootsOf comments)) ∧
    ((buildCommentTree comments = Except.error JsError.typeError ∨
      buildCommentTree comments
        = Except.ok (sortReplies (repliesOf comments) comments.enum.length (rootsOf comments))) ∧
      (NoInheritedParent comments →
        buildCommentTree comments
          = Except.ok (sortReplies (repliesOf comments) comments.enum.length
              (rootsOf comments)))) ∧
    ∃ visited : List PlainComment,
      visited.Nodup ∧ (∀ x ∈ visited, x ∈ comments.enum) ∧
      (flattenNodes (sortReplies (repliesOf comments) comments.enum.length
        (rootsOf comments))).Perm (visited.map Prod.snd) ∧
      ∀ x ∈ visited, ∃ d r, r ∈ rootsOf comments ∧
        Forest.up (treeParent comments) d x = some r ∧
        ∀ i j, i < j → j ≤ d →
          Forest.up (treeParent comments) i x ≠ Forest.up (treeParent comments) j x := by
  refine ⟨buildCommentTree_fuel_adequate comments, ⟨?_, ?_⟩, ?_⟩
  · by_cases h : ∃ c ∈ comments.enum,
        parentEntry (indexById comments.enum) c.2 = JsValue.builtin
    · exact Or.inl (buildCommentTree_error comments h)
    · exact Or.inr (buildCommentTree_ok comments (fun c hc hb => h ⟨c, hc, hb⟩))
  · intro hK
    exact buildCommentTree_ok comments (no_builtin_of_noInherited hK)
  · have hmem : ∀ x ∈ (rootsOf comments).flatMap (fun x =>
        (Forest.walk comments.enum (treeParent comments) comments.length x).getD []),
        ∃ d r, r ∈ rootsOf comments ∧ Forest.up (treeParent comments) d x = some r := by
      intro x hx
      obtain ⟨r, hr, hxr⟩ := List.mem_flatMap.1 hx
      obtain ⟨D, hD⟩ := (roots_walk_isSome comments r hr).2
      rw [hD, Option.getD_some] at hxr
      obtain ⟨d, hd⟩ := (mem_walk_up hD).1 hxr
      exact ⟨d, r, hr, hd⟩
    refine ⟨_, roots_walk_nodup comments, ?_, ?_, ?_⟩
    · intro x hx
      obtain ⟨d, r, hr, hd⟩ := hmem x hx
      cases d with
      | zero =>
        simp only [Forest.up, Option.some.injEq] at hd
        rw [hd]; exact (mem_rootsOf.1 hr).1
      | succ d =>
        rw [Forest.up_succ_left] at hd
        obtain ⟨c, hc, _⟩ := Option.bind_eq_some.1 hd
        exact treeParent_dom x c hc
    · rw [List.enum_length]
      exact flatten_sortReplies comments comments.length (rootsOf comments)
        (roots_walk_isSome comments)
    · intro x hx
      obtain ⟨d, r, hr, hd⟩ := hmem x hx
      refine ⟨d, r, hr, hd, ?_⟩
      intro i j hij hjd heq
      obtain ⟨k, rfl⟩ : ∃ k, d = j + k := ⟨d - j, by omega⟩
      have h' := hd
      rw [Forest.up_add, ← heq, ← Forest.up_add] at h'
      have := Forest.up_le_of_root h' (treeParent_root hr) hd
      omega

/-- On a list with a cycle of two comments and a comment that is its own
parent the builder returns the tree of the remaining root and its reply. -/
theorem buildCommentTree_terminates_witness :
    ¬ AcyclicParents cyclicThread ∧ NoInheritedParent cyclicThread ∧
    buildCommentTree cyclicThread
      = Except.ok [CommentNode.mk (sampleComment "d" none 40)
          [CommentNode.mk (sampleComment "e" (some "d") 50) []]] ∧
    sortReplies (repliesOf cyclicThread) (cyclicThread.enum.length + 7) (rootsOf cyclicThread)
      = sortReplies (repliesOf cyclicThread) cyclicThread.enum.length (rootsOf cyclicThread) :=
  ⟨by decide, by decide, rfl, (buildCommentTree_terminates cyclicThread).1 7⟩

/-- C21 fails on the code: on a list with unique ids and no cycle in which one
`parent_id` is `toString`, the id of no comment, the builder returns no tree.
The guard reads the inherited member of `map`, its `replies` is undefined and
`push` throws a TypeError. A cycle is not the cause: on the list with a cycle
of two comments and a comment that is its own parent the builder returns the
tree of the remaining root. -/
theorem buildCommentTree_returns_no_tree :
    UniqueIds inheritedThread ∧ AcyclicParents inheritedThread ∧
    (∀ p ∈ inheritedThread, p.id ≠ "toString") ∧
    buildCommentTree inheritedThread = Except.error JsError.typeError ∧
    (∀ roots, buildCommentTree inheritedThread ≠ Except.ok roots) ∧
    PublicCharacters.buildCommentTree inheritedThread = Except.error JsError.typeError ∧
    ¬ AcyclicParents cyclicThread ∧
    buildCommentTree cyclicThread
      = Except.ok [CommentNode.mk (sampleComment "d" none 40)
          [CommentNode.mk (sampleComment "e" (some "d") 50) []]] := by
  refine ⟨by decide, by decide, by decide, rfl, ?_, rfl, by decide, rfl⟩
  intro roots h
  rw [show buildCommentTree inheritedThread = Except.error JsError.typeError from rfl] at h
  cases h

/-- C22: the builder of the character endpoints and the builder of the forum
endpoints give the same result, a tree or the TypeError, on every list. -/
theorem buildCommentTree_copies_agree (comments : List Comment) :
    PublicCharacters.buildCommentTree comments = buildCommentTree comments := rfl

/-- C24: in a store with unique ids and acyclic parent links, the walk of
`findChildren` below a stored comment returns, with the same list under every
larger bound on its depth; the list starts with the id of the comment, holds
no id twice, holds the id of a stored comment exactly when that comment is
the start or a reply below it at any depth, and is as long as the number of
stored comments the delete removes. -/
theorem findChildren_terminates_and_collects (comments : List Comment)
    (hU : UniqueIds comments) (hA : AcyclicParents comments) (c : Comment)
    (hc : c ∈ comments) :
    ∃ D, findChildren comments comments.length c.id [c.id] = some D ∧
      (∀ k, findChildren comments (comments.length + k) c.id [c.id] = some D) ∧
      D.head? = some c.id ∧ D.Nodup ∧
      (∀ x ∈ comments, x.id ∈ D ↔ x = c ∨ IsReplyBelow comments c.id x) ∧
      (∀ y ∈ D, y ∈ comments.map (fun x => x.id)) ∧
      (comments.filter (fun x => decide (x.id ∈ D))).length = D.length ∧
      (Comment.deleteMany comments D).length + D.length = comments.length := by
  obtain ⟨D, hD⟩ := findChildren_isSome hU hA hc
  obtain ⟨hnd, hmem, hsub⟩ := findChildren_spec hU hc hD
  have hdel := deleteMany_length hU hnd hsub
  have e := findChildren_eq_walk hU comments.length c.id []
  simp only [List.nil_append] at e
  rw [e] at hD
  obtain ⟨W, hW, hWD⟩ := Option.map_eq_some'.1 hD
  have hWD' : W = D := by simpa using hWD
  subst hWD'
  refine ⟨W, by rw [e, hW]; rfl, ?_, ?_, hnd, hmem, hsub, ?_, hdel⟩
  · intro k
    have ek := findChildren_eq_walk hU (comments.length + k) c.id []
    simp only [List.nil_append] at ek
    rw [ek, Forest.walk_mono _ _ _ _ _ hW k]
    rfl
  · cases hl : comments.length with
    | zero => rw [hl] at hW; simp [Forest.walk] at hW
    | succ n =>
      rw [hl, Forest.walk] at hW
      obtain ⟨T, _, hT⟩ := Option.map_eq_some'.1 hW
      rw [← hT]; rfl
  · have hsplit := List.length_eq_length_filter_add (l := comments)
      (fun x => decide (x.id ∈ W))
    have hneg : comments.filter (fun x => !decide (x.id ∈ W))
        = Comment.deleteMany comments W := by
      unfold Comment.deleteMany
      apply List.filter_congr
      intro x _
      by_cases hx : x.id ∈ W <;> simp [hx]
    rw [hneg] at hsplit
    omega

/-- C24 on `sampleStore`: below `C1` the walk collects the four ids. -/
theorem findChildren_terminates_and_collects_witness :
    findChildren sampleStore.comments sampleStore.comments.length "C1" ["C1"]
      = some ["C1", "C2", "C4", "C3"] ∧
    ∃ D, findChildren sampleStore.comments sampleStore.comments.length
        (sampleComment "C1" none 10).id [(sampleComment "C1" none 10).id] = some D ∧
      (∀ k, findChildren sampleStore.comments (sampleStore.comments.length + k)
        (sampleComment "C1" none 10).id [(sampleComment "C1" none 10).id] = some D) ∧
      D.head? = some (sampleComment "C1" none 10).id ∧ D.Nodup ∧
      (∀ x ∈ sampleStore.comments, x.id ∈ D ↔
        x = sampleComment "C1" none 10 ∨
          IsReplyBelow sampleStore.comments (sampleComment "C1" none 10).id x) ∧
      (∀ y ∈ D, y ∈ sampleStore.comments.map (fun x => x.id)) ∧
      (sampleStore.comments.filter (fun x => decide (x.id ∈ D))).length = D.length ∧
      (Comment.deleteMany sampleStore.comments D).length + D.length
        = sampleStore.comments.length :=
  ⟨by decide,
    findChildren_terminates_and_collects sampleStore.comments (by decide) (by decide)
      (sampleComment "C1" none 10) (by decide)⟩

/-- C25 fails on the code: the character route finds the comment by its id
alone. Asked to delete `c1` under the character `ch1`, it removes `c1`, a
comment on the article `a1`; asked to delete `K1` under the character `ch2`,
it removes `K1` and its replies, which belong to the character `ch1`. -/
theorem character_delete_ignores_target :
    driftComment.target_type = TargetType.article ∧
    driftComment ∈ driftStore2.comments ∧
    PublicCharacters.deleteComment driftStore2 (some ann) "ch1" "c1"
      = some ({ status := 200, body := Body.success }, driftStore3) ∧
    driftStore3.comments = [] ∧
    (∀ c ∈ characterStore.comments, c.target_id = "ch1") ∧
    PublicCharacters.deleteComment characterStore (some ann) "ch2" "K1"
      = some ({ status := 200, body := Body.success },
          { characterStore with comments := [] }) := by
  refine ⟨rfl, by decide, by decide, rfl, by decide, by decide⟩

/-! ## The count shown by the front end -/

theorem countTotalComments_eq_flatten :
    ∀ (n : Nat) (nodes : List CommentNode), sizeOf nodes ≤ n →
      countTotalComments nodes = (flattenNodes nodes).length := by
  intro n
  induction n with
  | zero =>
    intro nodes h
    cases nodes with
    | nil => simp [countTotalComments, flattenNodes]
    | cons a l => simp at h
  | succ n ih =>
    intro nodes h
    cases nodes with
    | nil => simp [countTotalComments, flattenNodes]
    | cons a l =>
      cases a with
      | mk c rs =>
        simp only [List.cons.sizeOf_spec, CommentNode.mk.sizeOf_spec] at h
        rw [countTotalComments, CommentNode.countReplies, flattenNodes, CommentNode.flatten,
          ih rs (by omega), ih l (by omega)]
        simp only [List.length_append, List.length_cons]
        omega

/-- The count in the shape of the source: the length of the list plus the
counts of the `replies` arrays. -/
theorem countTotalComments_eq_length_add_sum (list : List CommentNode) :
    countTotalComments list
      = list.length + (list.map (fun c => countTotalComments c.replies)).sum := by
  induction list with
  | nil => simp [countTotalComments]
  | cons c rest ih =>
    cases c with
    | mk comment replies =>
      rw [countTotalComments, CommentNode.countReplies, ih]
      simp only [List.length_cons, List.map_cons, List.sum_cons, CommentNode.replies]
      omega

/-- For a list with unique ids and acyclic parent links, the front end's
count of the tree that the builder of the character endpoints returns is the
length of the list; so, when the list is what the store holds for a character,
`loadComments` displays the number of its stored comments whenever the
endpoint answers, which it does when no read of `map` reaches an inherited
member. -/
theorem countTotalComments_buildCommentTree (comments : List Comment)
    (hU : UniqueIds comments) (hA : AcyclicParents comments) :
    (NoInheritedParent comments →
      ∃ roots, PublicCharacters.buildCommentTree comments = Except.ok roots) ∧
    (∀ roots, PublicCharacters.buildCommentTree comments = Except.ok roots →
      countTotalComments roots = comments.length) ∧
    ∀ (s : Store) (characterId : String),
      Comment.findByTarget s.comments characterId TargetType.character = comments →
      (NoInheritedParent comments → loadComments s characterId = some comments.length) ∧
      ∀ n, loadComments s characterId = some n → n = comments.length := by
  have hcount : ∀ roots, PublicCharacters.buildCommentTree comments = Except.ok roots →
      countTotalComments roots = comments.length := by
    intro roots h
    rw [publicCharacters_buildCommentTree_eq] at h
    rw [countTotalComments_eq_flatten _ roots (Nat.le_refl _)]
    exact (flatten_buildCommentTree hU hA h).length_eq
  have hret : NoInheritedParent comments →
      ∃ roots, PublicCharacters.buildCommentTree comments = Except.ok roots := by
    intro hK
    exact ⟨_, buildCommentTree_ok comments (no_builtin_of_noInherited hK)⟩
  refine ⟨hret, hcount, ?_⟩
  intro s characterId hs
  have hload : ∀ roots, PublicCharacters.buildCommentTree comments = Except.ok roots →
      loadComments s characterId = some (countTotalComments roots) := by
    intro roots h
    unfold loadComments PublicCharacters.getComments
    simp only [hs, h]
    rfl
  refine ⟨?_, ?_⟩
  · intro hK
    obtain ⟨roots, h⟩ := hret hK
    rw [hload roots h, hcount roots h]
  · intro n hn
    cases hb : PublicCharacters.buildCommentTree comments with
    | error e =>
      unfold loadComments PublicCharacters.getComments at hn
      simp only [hs, hb] at hn
      simp at hn
    | ok roots =>
      rw [hload roots hb] at hn
      rw [← Option.some.inj hn, hcount roots hb]

/-- On `characterStore` the three comments of `ch1` are counted as 3. -/
theorem countTotalComments_buildCommentTree_witness :
    Comment.findByTarget characterStore.comments "ch1" TargetType.character
      = characterStore.comments ∧
    countTotalComments characterStoreTree = 3 ∧
    loadComments characterStore "ch1" = some 3 ∧
    (∀ roots, PublicCharacters.buildCommentTree characterStore.comments = Except.ok roots →
      countTotalComments roots = characterStore.comments.length) :=
  ⟨by decide, by decide, by decide,
    (countTotalComments_buildCommentTree characterStore.comments (by decide) (by decide)).2.1⟩


/-- C27 fails on the code: `ann` posts under the character `ch1`, which has
three comments, a comment whose `parentId` is `constructor`; the handler stores
it. The four comments of `ch1` have unique ids and no cycle, but the builder
throws the TypeError of the inherited member, `GET /ch1/comments` answers 500
and `loadComments` writes no count: the page keeps the 3 written before, while
four comments are stored. -/
theorem loadComments_writes_no_count :
    loadComments characterStore "ch1" = some 3 ∧
    PublicCharacters.postComment characterStore (some ann) "ch1" (some "hello")
        (some "constructor") "n1" 100
      = ({ status := 200, body := Body.comment (characterComment "n1" (some "constructor") 100) },
          inheritedStore) ∧
    UniqueIds inheritedStore.comments ∧ AcyclicParents inheritedStore.comments ∧
    Comment.findByTarget inheritedStore.comments "ch1" TargetType.character
      = inheritedStore.comments ∧
    inheritedStore.comments.length = 4 ∧
    PublicCharacters.buildCommentTree inheritedStore.comments
      = Except.error JsError.typeError ∧
    PublicCharacters.getComments inheritedStore "ch1"
      = ({ status := 500, body := Body.error "Failed to get comments" }, inheritedStore) ∧
    loadComments inheritedStore "ch1" = none := by
  refine ⟨by decide, by decide, by decide, by decide, by decide, by decide, rfl, by decide,
    by decide⟩

/-! ## The like handler -/

theorem article_findOne_findOneAndUpdate (articles : List Article) (id : String)
    (update : Article → Article) (hid : ∀ a, (update a).id = a.id) :
    Article.findOne (Article.findOneAndUpdate articles id update).2 id
      = (Article.findOne articles id).map update := by
  induction articles with
  | nil => rfl
  | cons a rest ih =>
    by_cases h : a.id = id
    · have h' : (update a).id = id := by rw [hid, h]
      simp [Article.findOneAndUpdate, Article.findOne, h, h']
    · simpa [Article.findOneAndUpdate, Article.findOne, h] using ih

theorem handle_forumLike (env : Env) (req : Request) (s : Store) :
    handle Route.forumLike env req noFaults s
      = some (Forum.likeArticle s req.user req.articleId) := by
  unfold handle respond tryBlock Forum.likeBlock Forum.likeArticle
  cases req.user with
  | none => rfl
  | some profile =>
    simp only [TryBlock.query_bind, TryBlock.run_await_noFaults, failText]
    cases Article.findOne s.articles req.articleId with
    | none => rfl
    | some article =>
      simp only [TryBlock.exec_bind, TryBlock.run_await_noFaults]
      rcases hu : Article.findOneAndUpdate s.articles req.articleId
        (if decide (profile.handle ∈ article.liked_by) = true then
          fun a => { a with liked_by := a.liked_by.filter (fun h => h ≠ profile.handle),
                            likes := a.likes - 1 }
        else fun a => { a with liked_by := a.liked_by ++ [profile.handle],
                               likes := a.likes + 1 }) with ⟨o, articles⟩
      cases o with
      | none =>
        have h := article_findOneAndUpdate_none (congrArg Prod.fst hu)
        rw [hu] at h
        simp only at h
        subst h
        rfl
      | some updated => rfl

theorem length_filter_ne_of_nodup {l : List String} (hl : l.Nodup) {h : String} (hh : h ∈ l) :
    ((l.filter (fun x => x ≠ h)).length : Int) = (l.length : Int) - 1 := by
  induction l with
  | nil => cases hh
  | cons a l ih =>
    rw [List.nodup_cons] at hl
    by_cases ha : a = h
    · subst ha
      have hf : (a :: l).filter (fun x => decide (x ≠ a)) = l := by
        rw [List.filter_cons_of_neg (by simp)]
        apply List.filter_eq_self.2
        intro x hx
        have : x ≠ a := fun e => hl.1 (e ▸ hx)
        simpa using this
      rw [hf]
      simp
    · have hh' : h ∈ l := by
        rcases List.mem_cons.1 hh with e | e
        · exact absurd e.symm ha
        · exact e
      rw [List.filter_cons_of_pos (by simpa using ha)]
      simp only [List.length_cons, Nat.cast_add, Nat.cast_one]
      rw [ih hl.2 hh']
      omega

/-- One like request on an article that satisfies the invariant. -/
theorem likeArticle_step {s : Store} {profile : Profile} {articleId : String} {a : Article}
    (ha : Article.findOne s.articles articleId = some a) (hI : LikesConsistent a) :
    ∃ a' message,
      (Forum.likeArticle s (some profile) articleId).1
        = { status := 200,
            body := Body.liked a'.likes (!decide (profile.handle ∈ a.liked_by)) message } ∧
      Article.findOne (Forum.likeArticle s (some profile) articleId).2.articles articleId
        = some a' ∧
      LikesConsistent a' ∧
      (profile.handle ∈ a'.liked_by ↔ profile.handle ∉ a.liked_by) ∧
      (∀ h, h ≠ profile.handle → (h ∈ a'.liked_by ↔ h ∈ a.liked_by)) ∧
      a'.likes = a.likes + (if profile.handle ∈ a.liked_by then -1 else 1) := by
  by_cases hm : profile.handle ∈ a.liked_by
  · have hfst := article_findOneAndUpdate_fst s.articles articleId
      (fun a : Article =>
        { a with liked_by := a.liked_by.filter (fun h => h ≠ profile.handle),
                 likes := a.likes - 1 })
    have hfind := article_findOne_findOneAndUpdate s.articles articleId
      (fun a : Article =>
        { a with liked_by := a.liked_by.filter (fun h => h ≠ profile.handle),
                 likes := a.likes - 1 }) (fun _ => rfl)
    rw [ha] at hfst hfind
    rcases hu : Article.findOneAndUpdate s.articles articleId
      (fun a : Article =>
        { a with liked_by := a.liked_by.filter (fun h => h ≠ profile.handle),
                 likes := a.likes - 1 }) with ⟨o, articles⟩
    rw [hu] at hfst hfind
    simp only [Option.map_some'] at hfst hfind
    subst hfst
    refine ⟨{ a with liked_by := a.liked_by.filter (fun h => h ≠ profile.handle),
                     likes := a.likes - 1 }, "取消点赞", ?_, ?_, ?_, ?_, ?_, ?_⟩
    · simp only [Forum.likeArticle, ha, hm, decide_True, if_true, hu, Bool.not_true]
    · simp only [Forum.likeArticle, ha, hm, decide_True, if_true, hu]
      exact hfind
    · refine ⟨hI.1.filter _, ?_⟩
      show a.likes - 1 = ((a.liked_by.filter (fun h => h ≠ profile.handle)).length : Int)
      rw [length_filter_ne_of_nodup hI.1 hm, hI.2]
    · show profile.handle ∈ a.liked_by.filter (fun h => h ≠ profile.handle) ↔ _
      simp [hm]
    · intro h hne
      show h ∈ a.liked_by.filter (fun h => h ≠ profile.handle) ↔ _
      simp [hne]
    · show a.likes - 1 = a.likes + _
      rw [if_pos hm]
      omega
  · have hfst := article_findOneAndUpdate_fst s.articles articleId
      (fun a : Article =>
        { a with liked_by := a.liked_by ++ [profile.handle], likes := a.likes + 1 })
    have hfind := article_findOne_findOneAndUpdate s.articles articleId
      (fun a : Article =>
        { a with liked_by := a.liked_by ++ [profile.handle], likes := a.likes + 1 })
      (fun _ => rfl)
    rw [ha] at hfst hfind
    rcases hu : Article.findOneAndUpdate s.articles articleId
      (fun a : Article =>
        { a with liked_by := a.liked_by ++ [profile.handle], likes := a.likes + 1 })
      with ⟨o, articles⟩
    rw [hu] at hfst hfind
    simp only [Option.map_some'] at hfst hfind
    subst hfst
    refine ⟨{ a with liked_by := a.liked_by ++ [profile.handle], likes := a.likes + 1 },
      "点赞成功", ?_, ?_, ?_, ?_, ?_, ?_⟩
    · simp only [Forum.likeArticle, ha, hm, decide_False, Bool.false_eq_true, if_false, hu,
        Bool.not_false]
    · simp only [Forum.likeArticle, ha, hm, decide_False, Bool.false_eq_true, if_false, hu]
      exact hfind
    · refine ⟨?_, ?_⟩
      · show (a.liked_by ++ [profile.handle]).Nodup
        rw [List.nodup_append]
        refine ⟨hI.1, List.nodup_singleton _, ?_⟩
        intro x hx hx'
        have : x = profile.handle := by simpa using hx'
        exact hm (this ▸ hx)
      · show a.likes + 1 = ((a.liked_by ++ [profile.handle]).length : Int)
        rw [hI.2]
        simp
    · show profile.handle ∈ a.liked_by ++ [profile.handle] ↔ _
      simp [hm]
    · intro h hne
      show h ∈ a.liked_by ++ [profile.handle] ↔ _
      simp [hne]
    · show a.likes + 1 = a.likes + _
      rw [if_neg hm]

theorem likeRequests_invariant (articleId : String) :
    ∀ (users : List Profile) (s : Store) (a : Article),
      Article.findOne s.articles articleId = some a → LikesConsistent a →
      ∃ a', Article.findOne (likeRequests articleId s users).1.articles articleId = some a' ∧
        LikesConsistent a' ∧
        (∀ handle r, lastResponse (likeRequests articleId s users).2 handle = some r →
          ∃ likes liked message,
            r = { status := 200, body := Body.liked likes liked message } ∧
            (handle ∈ a'.liked_by ↔ liked = true)) ∧
        (∀ handle, lastResponse (likeRequests articleId s users).2 handle = none →
          (handle ∈ a'.liked_by ↔ handle ∈ a.liked_by)) := by
  intro users
  induction users with
  | nil =>
    intro s a ha hI
    refine ⟨a, ha, hI, ?_, ?_⟩
    · intro handle r h
      simp [likeRequests, lastResponse] at h
    · intro handle _
      exact Iff.rfl
  | cons p rest ih =>
    intro s a ha hI
    obtain ⟨a1, message, hr, hfind, hI1, hself, hother, _⟩ :=
      @likeArticle_step _ p _ _ ha hI
    obtain ⟨a', hfind', hI', hlast, hnone⟩ :=
      ih (Forum.likeArticle s (some p) articleId).2 a1 hfind hI1
    refine ⟨a', hfind', hI', ?_, ?_⟩
    · intro handle r h
      simp only [likeRequests, lastResponse] at h
      cases hl : lastResponse
          (likeRequests articleId (Forum.likeArticle s (some p) articleId).2 rest).2 handle with
      | some later =>
        rw [hl] at h
        simp only [Option.some.injEq] at h
        subst h
        exact hlast handle later hl
      | none =>
        rw [hl] at h
        simp only at h
        by_cases hp : p.handle = handle
        · rw [if_pos hp] at h
          have hr' : (Forum.likeArticle s (some p) articleId).1 = r := Option.some.inj h
          rw [hr] at hr'
          refine ⟨_, _, _, hr'.symm, ?_⟩
          rw [hnone handle hl, ← hp, hself]
          simp
        · rw [if_neg hp] at h
          cases h
    · intro handle h
      simp only [likeRequests, lastResponse] at h
      cases hl : lastResponse
          (likeRequests articleId (Forum.likeArticle s (some p) articleId).2 rest).2 handle with
      | some later => rw [hl] at h; cases h
      | none =>
        rw [hl] at h
        simp only at h
        by_cases hp : p.handle = handle
        · rw [if_pos hp] at h; cases h
        · rw [hnone handle hl]
          exact hother handle (fun e => hp e.symm)

/-- C28: from a store whose article satisfies `likes = number of entries of
liked_by` with `liked_by` free of duplicates, after any sequence of like
requests by identified users, each handled to its end, the article satisfies
it still; the handle of a user who made a request is in `liked_by` exactly
when the last response to that user had `liked = true`, and the other handles
are in it exactly when they were; and two consecutive requests by one user
restore the value of `likes` and the handles in `liked_by`. -/
theorem like_preserves_invariant (s : Store) (articleId : String) (a : Article)
    (ha : Article.findOne s.articles articleId = some a) (hI : LikesConsistent a)
    (users : List Profile) :
    (∃ a', Article.findOne (likeRequests articleId s users).1.articles articleId = some a' ∧
      LikesConsistent a' ∧
      (∀ handle r, lastResponse (likeRequests articleId s users).2 handle = some r →
        ∃ likes liked message,
          r = { status := 200, body := Body.liked likes liked message } ∧
          (handle ∈ a'.liked_by ↔ liked = true)) ∧
      (∀ handle, lastResponse (likeRequests articleId s users).2 handle = none →
        (handle ∈ a'.liked_by ↔ handle ∈ a.liked_by))) ∧
    ∀ profile : Profile,
      ∃ a2, Article.findOne (likeRequests articleId s [profile, profile]).1.articles articleId
          = some a2 ∧
        a2.likes = a.likes ∧ ∀ h, h ∈ a2.liked_by ↔ h ∈ a.liked_by := by
  refine ⟨likeRequests_invariant articleId users s a ha hI, ?_⟩
  intro profile
  obtain ⟨a1, _, _, hfind1, hI1, hself1, hother1, hlikes1⟩ :=
    @likeArticle_step _ profile _ _ ha hI
  obtain ⟨a2, _, _, hfind2, _, hself2, hother2, hlikes2⟩ :=
    @likeArticle_step _ profile _ _ hfind1 hI1
  refine ⟨a2, hfind2, ?_, ?_⟩
  · rw [hlikes2, hlikes1]
    by_cases hm : profile.handle ∈ a.liked_by
    · have hm1 : profile.handle ∉ a1.liked_by := fun h => (hself1.1 h) hm
      rw [if_pos hm, if_neg hm1]
      omega
    · have hm1 : profile.handle ∈ a1.liked_by := hself1.2 hm
      rw [if_neg hm, if_pos hm1]
      omega
  · intro h
    by_cases hp : h = profile.handle
    · subst hp
      rw [hself2, hself1]
      exact not_not
    · rw [hother2 h hp, hother1 h hp]

/-- C28 on the article of `likedStore`, liked by `ann`: `bob` likes it, `ann`
withdraws her like, `bob` withdraws his. -/
theorem like_preserves_invariant_witness :
    LikesConsistent { sampleArticle "a1" 0 with likes := 1, liked_by := ["ann"] } ∧
    (likeRequests "a1" likedStore [bob, ann, bob]).2
      = [("bob", { status := 200, body := Body.liked 2 true "点赞成功" }),
         ("ann", { status := 200, body := Body.liked 1 false "取消点赞" }),
         ("bob", { status := 200, body := Body.liked 0 false "取消点赞" })] ∧
    (likeRequests "a1" likedStore [bob, ann, bob]).1.articles = [sampleArticle "a1" 0] ∧
    ∃ a', Article.findOne (likeRequests "a1" likedStore [bob, ann, bob]).1.articles "a1"
        = some a' ∧
      LikesConsistent a' ∧
      (∀ handle r, lastResponse (likeRequests "a1" likedStore [bob, ann, bob]).2 handle
          = some r →
        ∃ likes liked message,
          r = { status := 200, body := Body.liked likes liked message } ∧
          (handle ∈ a'.liked_by ↔ liked = true)) ∧
      (∀ handle, lastResponse (likeRequests "a1" likedStore [bob, ann, bob]).2 handle = none →
        (handle ∈ a'.liked_by ↔
          handle ∈ ({ sampleArticle "a1" 0 with likes := 1, liked_by := ["ann"] } :
            Article).liked_by)) :=
  ⟨by decide, by decide, by decide,
    (like_preserves_invariant likedStore "a1"
      { sampleArticle "a1" 0 with likes := 1, liked_by := ["ann"] } (by decide) (by decide)
      [bob, ann, bob]).1⟩

/-! ## The tree does not depend on the order of the input -/

theorem lookup_indexById_iff {comments : List Comment} (hU : UniqueIds comments) {k : String}
    {p : PlainComment} :
    (indexById comments.enum).lookup k = some p ↔ p ∈ comments.enum ∧ p.2.id = k := by
  constructor
  · exact lookup_indexById_mem
  · rintro ⟨hp, rfl⟩
    exact lookup_indexById_self (enum_ids_nodup hU) hp

theorem parentRef_eq_iff {comments : List Comment} (hU : UniqueIds comments)
    {p : PlainComment} (hp : p ∈ comments.enum) (c : Comment) :
    parentRef (indexById comments.enum) c = some p.1 ↔
      c.parent_id = some p.2.id ∧ p.2.id ≠ "" := by
  constructor
  · intro h
    unfold parentRef at h
    cases he : parentEntry (indexById comments.enum) c with
    | falsy => rw [he] at h; cases h
    | builtin => rw [he] at h; cases h
    | object q =>
      rw [he] at h
      have hq1 : q.1 = p.1 := Option.some.inj h
      obtain ⟨k, hk, hke, hl⟩ := parentEntry_object he
      obtain ⟨hq, hqid⟩ := lookup_indexById_mem hl
      have hqp : q = p := enum_fst_inj hq hp hq1
      subst hqp
      rw [hqid]
      exact ⟨hk, hke⟩
  · rintro ⟨hk, hke⟩
    unfold parentRef
    rw [parentEntry_of_lookup hk hke ((lookup_indexById_iff hU).2 ⟨hp, rfl⟩)]

theorem repliesOf_eq_repliesTo {comments : List Comment} (hU : UniqueIds comments)
    {p : PlainComment} (hp : p ∈ comments.enum) :
    repliesOf comments p.1 = repliesTo comments p.2 := by
  unfold repliesOf repliesTo
  apply List.filter_congr
  intro x _
  by_cases h : x.2.parent_id = some p.2.id ∧ p.2.id ≠ ""
  · rw [decide_eq_true h, decide_eq_true ((parentRef_eq_iff hU hp x.2).2 h)]
  · rw [decide_eq_false h, decide_eq_false (fun h' => h ((parentRef_eq_iff hU hp x.2).1 h'))]

theorem enum_filter_map_snd (comments : List Comment) (P : Comment → Bool) :
    (comments.enum.filter (fun x => P x.2)).map Prod.snd = comments.filter P := by
  have h := List.filter_map (f := (Prod.snd : PlainComment → Comment)) (p := P)
    (l := comments.enum)
  rw [List.enum_map_snd] at h
  rw [h]
  rfl

theorem repliesTo_map_snd (comments : List Comment) (c : Comment) :
    (repliesTo comments c).map Prod.snd
      = comments.filter (fun x => decide (x.parent_id = some c.id ∧ c.id ≠ "")) := by
  unfold repliesTo
  exact enum_filter_map_snd comments
    (fun x => decide (x.parent_id = some c.id ∧ c.id ≠ ""))

theorem rootsOf_map_snd (comments : List Comment) :
    (rootsOf comments).map Prod.snd
      = comments.filter
          (fun c => decide (parentEntry (indexById comments.enum) c = JsValue.falsy)) := by
  unfold rootsOf
  exact enum_filter_map_snd comments
    (fun c => decide (parentEntry (indexById comments.enum) c = JsValue.falsy))

theorem lookup_indexById_none_iff_ids {comments : List Comment} {k : String} :
    (indexById comments.enum).lookup k = none ↔ ∀ x ∈ comments, x.id ≠ k := by
  rw [lookup_indexById_none]
  constructor
  · intro h x hx
    obtain ⟨j, hj⟩ := exists_enum_of_mem hx
    exact h (j, x) hj
  · intro h c hc
    exact h c.2 (enum_snd_mem hc)

theorem parentEntry_falsy_perm {l1 l2 : List Comment} (hp : l1.Perm l2) (c : Comment) :
    parentEntry (indexById l1.enum) c = JsValue.falsy ↔
      parentEntry (indexById l2.enum) c = JsValue.falsy := by
  rw [parentEntry_falsy_iff, parentEntry_falsy_iff]
  simp only [lookup_indexById_none_iff_ids]
  have hm : ∀ k, (∀ x ∈ l1, x.id ≠ k) ↔ (∀ x ∈ l2, x.id ≠ k) := by
    intro k
    constructor
    · intro h x hx; exact h x (hp.mem_iff.2 hx)
    · intro h x hx; exact h x (hp.mem_iff.1 hx)
  simp only [hm]

theorem parentEntry_builtin_perm {l1 l2 : List Comment} (hp : l1.Perm l2) (c : Comment) :
    parentEntry (indexById l1.enum) c = JsValue.builtin ↔
      parentEntry (indexById l2.enum) c = JsValue.builtin := by
  rw [parentEntry_builtin_iff, parentEntry_builtin_iff]
  simp only [lookup_indexById_none_iff_ids]
  have hm : ∀ k, (∀ x ∈ l1, x.id ≠ k) ↔ (∀ x ∈ l2, x.id ≠ k) := by
    intro k
    constructor
    · intro h x hx; exact h x (hp.mem_iff.2 hx)
    · intro h x hx; exact h x (hp.mem_iff.1 hx)
  simp only [hm]

theorem placedUnder_of_root {comments : List Comment} {c : Comment}
    (h : parentEntry (indexById comments.enum) c = JsValue.falsy) :
    placedUnder comments c = none := by
  unfold placedUnder
  rcases parentEntry_falsy_iff.1 h with h | h | ⟨k, hk, hl, _⟩
  · rw [h]
  · rw [h]; rfl
  · rw [hk]
    by_cases hke : k = ""
    · subst hke; rfl
    · simp only [if_neg hke]
      apply List.find?_eq_none.2
      intro x hx
      have := lookup_indexById_none_iff_ids.1 hl x hx
      simpa using this

theorem placedUnder_of_reply {comments : List Comment} (hU : UniqueIds comments)
    {p c : Comment} (hp : p ∈ comments) (h : c.parent_id = some p.id ∧ p.id ≠ "") :
    placedUnder comments c = some p := by
  unfold placedUnder
  rw [h.1]
  simp only [if_neg h.2]
  exact find_id_unique hU hp

theorem insertionSort_map_snd_eq {items1 items2 : List PlainComment}
    (hp : (items1.map Prod.snd).Perm (items2.map Prod.snd))
    (hd : ∀ a ∈ items1.map Prod.snd, ∀ b ∈ items1.map Prod.snd, a ≠ b →
      a.created_at ≠ b.created_at) :
    (items1.insertionSort createdBefore).map Prod.snd
      = (items2.insertionSort createdBefore).map Prod.snd := by
  have hs : ∀ items : List PlainComment,
      ((items.insertionSort createdBefore).map Prod.snd).Pairwise
        (fun a b : Comment => a.created_at ≤ b.created_at) := by
    intro items
    rw [List.pairwise_map]
    exact List.sorted_insertionSort createdBefore items
  have hp1 : ((items1.insertionSort createdBefore).map Prod.snd).Perm (items1.map Prod.snd) :=
    (List.perm_insertionSort createdBefore items1).map _
  have hp2 : ((items2.insertionSort createdBefore).map Prod.snd).Perm (items2.map Prod.snd) :=
    (List.perm_insertionSort createdBefore items2).map _
  refine List.Perm.eq_of_sorted ?_ (hs items1) (hs items2) (hp1.trans (hp.trans hp2.symm))
  intro a b ha hb hab hba
  by_contra hne
  have ha' : a ∈ items1.map Prod.snd := hp1.mem_iff.1 ha
  have hb' : b ∈ items1.map Prod.snd := hp.mem_iff.2 (hp2.mem_iff.1 hb)
  exact hd a ha' b hb' hne (Int.le_antisymm hab hba)

theorem sortReplies_perm {l1 l2 : List Comment} (hp : l1.Perm l2) (hU : UniqueIds l1)
    (hT : DistinctSiblingTimes l1) :
    ∀ (f : Nat) (items1 items2 : List PlainComment),
      (∀ x ∈ items1, x ∈ l1.enum) → (∀ x ∈ items2, x ∈ l2.enum) →
      (items1.map Prod.snd).Perm (items2.map Prod.snd) →
      (∀ a ∈ items1.map Prod.snd, ∀ b ∈ items1.map Prod.snd, a ≠ b →
        a.created_at ≠ b.created_at) →
      sortReplies (repliesOf l1) f items1 = sortReplies (repliesOf l2) f items2 := by
  have hU2 : UniqueIds l2 := (hp.map (fun c : Comment => c.id)).nodup_iff.1 hU
  intro f
  induction f with
  | zero => intro items1 items2 _ _ _ _; rfl
  | succ f ih =>
    intro items1 items2 h1 h2 hperm hd
    rw [sortReplies_succ, sortReplies_succ]
    have hs := insertionSort_map_snd_eq hperm hd
    have e1 : (items1.insertionSort createdBefore).map (fun item =>
          CommentNode.mk item.2 (sortReplies (repliesOf l1) f (repliesOf l1 item.1)))
        = ((items1.insertionSort createdBefore).map Prod.snd).map (fun c =>
          CommentNode.mk c (sortReplies (repliesOf l1) f (repliesTo l1 c))) := by
      rw [List.map_map]
      apply List.map_congr_left
      intro item hitem
      have hmem : item ∈ l1.enum :=
        h1 item ((List.perm_insertionSort createdBefore items1).mem_iff.1 hitem)
      simp only [Function.comp_apply, repliesOf_eq_repliesTo hU hmem]
    have e2 : (items2.insertionSort createdBefore).map (fun item =>
          CommentNode.mk item.2 (sortReplies (repliesOf l2) f (repliesOf l2 item.1)))
        = ((items2.insertionSort createdBefore).map Prod.snd).map (fun c =>
          CommentNode.mk c (sortReplies (repliesOf l2) f (repliesTo l2 c))) := by
      rw [List.map_map]
      apply List.map_congr_left
      intro item hitem
      have hmem : item ∈ l2.enum :=
        h2 item ((List.perm_insertionSort createdBefore items2).mem_iff.1 hitem)
      simp only [Function.comp_apply, repliesOf_eq_repliesTo hU2 hmem]
    rw [e1, e2, hs]
    apply List.map_congr_left
    intro c hc
    have hc2 : c ∈ l2 := by
      obtain ⟨item, hitem, rfl⟩ := List.mem_map.1 hc
      exact enum_snd_mem
        (h2 item ((List.perm_insertionSort createdBefore items2).mem_iff.1 hitem))
    have hc1 : c ∈ l1 := hp.mem_iff.2 hc2
    have hrec : sortReplies (repliesOf l1) f (repliesTo l1 c)
        = sortReplies (repliesOf l2) f (repliesTo l2 c) := by
      apply ih
      · intro x hx
        exact (List.mem_filter.1 hx).1
      · intro x hx
        exact (List.mem_filter.1 hx).1
      · rw [repliesTo_map_snd, repliesTo_map_snd]
        exact hp.filter _
      · intro a ha b hb hne
        rw [repliesTo_map_snd] at ha hb
        obtain ⟨ha1, ha2⟩ := List.mem_filter.1 ha
        obtain ⟨hb1, hb2⟩ := List.mem_filter.1 hb
        rw [decide_eq_true_eq] at ha2 hb2
        apply hT a ha1 b hb1 hne
        rw [placedUnder_of_reply hU hc1 ha2, placedUnder_of_reply hU hc1 hb2]
    rw [hrec]

/-- C26: for a list with unique ids in which any two comments that the builder
places in the same array (the roots, or the replies of one comment) differ in
`created_at`, the builder gives the same result, tree or TypeError, on every
permutation of the list. Acyclic parent links are not needed for this. -/
theorem buildCommentTree_perm (l1 l2 : List Comment) (hp : l1.Perm l2) (hU : UniqueIds l1)
    (hT : DistinctSiblingTimes l1) :
    buildCommentTree l1 = buildCommentTree l2 := by
  by_cases hB : ∃ c ∈ l1.enum, parentEntry (indexById l1.enum) c.2 = JsValue.builtin
  · obtain ⟨c, hc, hb⟩ := hB
    obtain ⟨j, hj⟩ := exists_enum_of_mem (hp.mem_iff.1 (enum_snd_mem hc))
    rw [buildCommentTree_error l1 ⟨c, hc, hb⟩,
      buildCommentTree_error l2 ⟨(j, c.2), hj, (parentEntry_builtin_perm hp c.2).1 hb⟩]
  · have hB1 : ∀ c ∈ l1.enum, parentEntry (indexById l1.enum) c.2 ≠ JsValue.builtin :=
      fun c hc hb => hB ⟨c, hc, hb⟩
    have hB2 : ∀ c ∈ l2.enum, parentEntry (indexById l2.enum) c.2 ≠ JsValue.builtin := by
      intro c hc hb
      obtain ⟨j, hj⟩ := exists_enum_of_mem (hp.mem_iff.2 (enum_snd_mem hc))
      exact hB1 (j, c.2) hj ((parentEntry_builtin_perm hp c.2).2 hb)
    rw [buildCommentTree_ok l1 hB1, buildCommentTree_ok l2 hB2, List.enum_length,
      List.enum_length, hp.length_eq]
    congr 1
    apply sortReplies_perm hp hU hT
    · intro x hx; exact (mem_rootsOf.1 hx).1
    · intro x hx; exact (mem_rootsOf.1 hx).1
    · rw [rootsOf_map_snd, rootsOf_map_snd]
      have hcongr : l2.filter
            (fun c => decide (parentEntry (indexById l2.enum) c = JsValue.falsy))
          = l2.filter (fun c => decide (parentEntry (indexById l1.enum) c = JsValue.falsy)) := by
        apply List.filter_congr
        intro c _
        by_cases h : parentEntry (indexById l1.enum) c = JsValue.falsy
        · rw [decide_eq_true h, decide_eq_true ((parentEntry_falsy_perm hp c).1 h)]
        · rw [decide_eq_false h,
            decide_eq_false (fun h' => h ((parentEntry_falsy_perm hp c).2 h'))]
      rw [hcongr]
      exact hp.filter _
    · intro a ha b hb hne
      rw [rootsOf_map_snd] at ha hb
      obtain ⟨ha1, ha2⟩ := List.mem_filter.1 ha
      obtain ⟨hb1, hb2⟩ := List.mem_filter.1 hb
      rw [decide_eq_true_eq] at ha2 hb2
      apply hT a ha1 b hb1 hne
      rw [placedUnder_of_root ha2, placedUnder_of_root hb2]

/-- C26 on `sampleThread` and its reverse; and on two roots created at the
same time, which are outside the claim, the order of the input shows. -/
theorem buildCommentTree_perm_witness :
    UniqueIds sampleThread ∧ DistinctSiblingTimes sampleThread ∧
    buildCommentTree sampleThread.reverse = Except.ok sampleTree ∧
    buildCommentTree sampleThread = buildCommentTree sampleThread.reverse ∧
    ¬ DistinctSiblingTimes tiedRoots ∧
    buildCommentTree tiedRoots ≠ buildCommentTree tiedRoots.reverse :=
  ⟨by decide, by decide, rfl,
    buildCommentTree_perm sampleThread sampleThread.reverse
      (List.reverse_perm sampleThread).symm (by decide) (by decide),
    by decide,
    fun h => absurd
      (Except.ok.inj (h : (Except.ok
          [CommentNode.mk (sampleComment "r1" none 10) [],
           CommentNode.mk (sampleComment "r2" (some "gone") 10) []] :
            Except JsError (List CommentNode))
        = Except.ok
          [CommentNode.mk (sampleComment "r2" (some "gone") 10) [],
           CommentNode.mk (sampleComment "r1" none 10) []]))
      (by decide)⟩

/-! ## Routing, the avatar path and the type of an upload -/

theorem matchRoute_search {segments : List String} {ps : List (String × String)}
    (h : matchRoute [PathPart.literal "search"] segments = some ps) :
    ∃ seg, segments = [seg] ∧ seg ≠ "" := by
  cases segments with
  | nil => simp [matchRoute] at h
  | cons seg rest =>
    cases rest with
    | nil =>
      refine ⟨seg, rfl, ?_⟩
      intro hs
      subst hs
      have hnone : matchRoute [PathPart.literal "search"] [""] = none := by decide
      rw [hnone] at h
      cases h
    | cons seg2 rest2 =>
      simp only [matchRoute] at h
      split at h
      · simp [matchRoute] at h
      · cases h

theorem dispatch_one_segment {seg : String} (hs : seg ≠ "") :
    dispatch characterRoutes Method.GET [seg]
      = some (CharacterEndpoint.getOne, [("characterId", seg)]) := by
  simp [dispatch, characterRoutes, matchRoute, hs]

theorem search_never_dispatched (method : Method) (segments : List String)
    (params : List (String × String)) :
    dispatch characterRoutes method segments ≠ some (CharacterEndpoint.search, params) := by
  intro h
  obtain ⟨r, hmem, hr⟩ := List.exists_of_findSome?_eq_some h
  by_cases hm : r.1 = method
  · rw [if_pos hm] at hr
    obtain ⟨ps, hps, hpair⟩ := Option.map_eq_some'.1 hr
    have hend : r.2.2 = CharacterEndpoint.search := (Prod.mk.inj hpair).1
    have hroute : r = (Method.GET, [PathPart.literal "search"], CharacterEndpoint.search) := by
      simp only [characterRoutes, List.mem_cons, List.mem_singleton, List.not_mem_nil,
        or_false] at hmem
      rcases hmem with e | e | e | e | e | e | e | e | e | e | e <;> subst e <;>
        first
        | rfl
        | exact absurd hend (by decide)
    subst hroute
    obtain ⟨seg, hseg, hne⟩ := matchRoute_search hps
    subst hseg
    subst hm
    rw [dispatch_one_segment hne] at h
    exact absurd h (by simp)
  · rw [if_neg hm] at hr
    cases hr

/-- C23 fails on the code: `GET /search` on the character router matches the
route `/:characterId`, registered before `/search`, with `characterId =
"search"`; the detail handler answers 404 (or with a character whose id is
`search`), not with the redirect. No request at all is dispatched to the
search handler. On the forum router `/search` is reached. -/
theorem character_search_is_shadowed :
    dispatch characterRoutes Method.GET ["search"]
      = some (CharacterEndpoint.getOne, [("characterId", "search")]) ∧
    requestParam "search" = some "search" ∧
    PublicCharacters.getCharacter characterStore "search"
      = ({ status := 404, body := Body.error "Character not found" }, characterStore) ∧
    PublicCharacters.search "q=hero"
      = { status := 302, body := Body.redirect "/api/public-characters/?q=hero" } ∧
    (∀ method segments params,
      dispatch characterRoutes method segments ≠ some (CharacterEndpoint.search, params)) ∧
    dispatch forumRoutes Method.GET ["search"] = some (ForumEndpoint.search, []) := by
  exact ⟨by decide, by decide, by decide, by decide, search_never_dispatched, by decide⟩

/-- C29 fails on the code: the avatar handler joins the decoded file name to
the directory without sanitising it. The request `GET
/avatar/..%2F..%2Fsecrets.yaml` reaches the handler with the file name
`../../secrets.yaml`; the path checked and read is `/srv/secrets.yaml`, outside
`/srv/data/public_characters`, and the file is sent. A name escaped twice is
decoded twice. -/
theorem avatar_path_escapes :
    dispatch characterRoutes Method.GET ["avatar", "..%2F..%2Fsecrets.yaml"]
      = some (CharacterEndpoint.avatar, [("filename", "..%2F..%2Fsecrets.yaml")]) ∧
    requestParam "..%2F..%2Fsecrets.yaml" = some "../../secrets.yaml" ∧
    PublicCharacters.avatarPath "/srv/data/public_characters" "../../secrets.yaml"
      = some "/srv/secrets.yaml" ∧
    ¬ NodePath.inside "/srv/data/public_characters" "/srv/secrets.yaml" ∧
    PublicCharacters.getAvatar sampleFs "/srv/data/public_characters" "../../secrets.yaml"
      = { status := 200, body := Body.file "image/png" "TOKEN" } ∧
    requestParam "%252E%252E%252Fsecrets.yaml" = some "%2E%2E%2Fsecrets.yaml" ∧
    PublicCharacters.avatarPath "/srv/data/public_characters" "%2E%2E%2Fsecrets.yaml"
      = some "/srv/data/secrets.yaml" ∧
    PublicCharacters.getAvatar sampleFs "/srv/data/public_characters" "hero.png"
      = { status := 200, body := Body.file "image/png" "PNG" } := by
  refine ⟨by decide, by decide, by decide, by decide, by decide, by decide, by decide,
    by decide⟩

theorem toLower_eq_dot {c : Char} (h : c.toLower = '.') : c = '.' := by
  unfold Char.toLower at h
  simp only at h
  split at h
  · rename_i hu
    obtain ⟨m, hm⟩ : ∃ m, m = c.toNat := ⟨_, rfl⟩
    rw [← hm] at h hu
    obtain ⟨h1, h2⟩ := hu
    interval_cases m <;> exact absurd h (by decide)
  · exact h

theorem extname_of_reverse (n X r : List Char) (hX : ∀ c ∈ X, c ≠ '/' ∧ c ≠ '.')
    (hX0 : X ≠ []) (hn : n.reverse = X ++ '.' :: r) :
    NodePath.extname (String.mk n)
      = if r.takeWhile (fun c => c ≠ '/') = [] then "" else String.mk ('.' :: X.reverse) := by
  have hslash : ∀ a ∈ X, (fun c : Char => decide (c ≠ '/')) a = true := by
    intro a ha; simpa using (hX a ha).1
  have hdot : ∀ a ∈ X, (fun c : Char => decide (c ≠ '.')) a = true := by
    intro a ha; simpa using (hX a ha).2
  have hrev : (X ++ '.' :: r).dropWhile (fun c => decide (c = '/')) = X ++ '.' :: r := by
    cases X with
    | nil => exact absurd rfl hX0
    | cons x X' =>
      have hx : x ≠ '/' := (hX x (List.mem_cons_self _ _)).1
      rw [List.cons_append, List.dropWhile_cons_of_neg (by simpa using hx)]
  have hpart : (X ++ '.' :: r).takeWhile (fun c => decide (c ≠ '/'))
      = X ++ '.' :: r.takeWhile (fun c => decide (c ≠ '/')) := by
    rw [List.takeWhile_append_of_pos hslash, List.takeWhile_cons_of_pos (by decide)]
  have hext : (X ++ '.' :: r.takeWhile (fun c => decide (c ≠ '/'))).takeWhile
      (fun c => decide (c ≠ '.')) = X := by
    rw [List.takeWhile_append_of_pos hdot, List.takeWhile_cons_of_neg (by decide),
      List.append_nil]
  have hbefore : ((X ++ '.' :: r.takeWhile (fun c => decide (c ≠ '/'))).dropWhile
      (fun c => decide (c ≠ '.'))).drop 1 = r.takeWhile (fun c => decide (c ≠ '/')) := by
    rw [List.dropWhile_append_of_pos hdot, List.dropWhile_cons_of_neg (by decide)]
    rfl
  have hmem : '.' ∈ X ++ '.' :: r.takeWhile (fun c => decide (c ≠ '/')) := by simp
  unfold NodePath.extname
  simp only [hn, hrev, hpart, hext, hbefore, hmem, not_true_eq_false, if_false]
  by_cases hb : r.takeWhile (fun c => decide (c ≠ '/')) = []
  · simp only [hb, if_true]
  · simp only [hb, if_false, hX0, false_and, List.reverse_append, List.reverse_cons,
      List.reverse_nil, List.nil_append, List.singleton_append]

theorem ne_slash_dot_of_toLower_mem {E : List Char} (hE : '/' ∉ E ∧ '.' ∉ E) {c : Char}
    (hc : c.toLower ∈ E) : c ≠ '/' ∧ c ≠ '.' := by
  constructor
  · intro h
    subst h
    exact hE.1 hc
  · intro h
    subst h
    exact hE.2 hc

/-- A name that ends, in lower case, with an extension, and in which
`path.extname` finds an extension at all, has that extension. -/
theorem extname_of_endsWith (name : String) (E : List Char) (hE : '/' ∉ E ∧ '.' ∉ E)
    (hE0 : E ≠ [])
    (h : Js.endsWith (Js.toLowerCase name) (String.mk ('.' :: E)) = true)
    (hx : NodePath.extname name ≠ "") :
    Js.toLowerCase (NodePath.extname name) = String.mk ('.' :: E) := by
  unfold Js.endsWith Js.toLowerCase at h
  simp only [List.isPrefixOf_iff_prefix, List.reverse_cons, ← List.map_reverse] at h
  obtain ⟨t, ht⟩ := h
  rw [List.append_assoc] at ht
  obtain ⟨X, r', hn, hXE, hr'⟩ := List.map_eq_append_iff.1 ht.symm
  obtain ⟨d, r, hr'eq, hd, _⟩ := List.map_eq_cons_iff.1 hr'
  have hd' : d = '.' := toLower_eq_dot hd
  subst hd'
  subst hr'eq
  have hXc : ∀ c ∈ X, c ≠ '/' ∧ c ≠ '.' := by
    intro c hc
    apply ne_slash_dot_of_toLower_mem hE
    have : c.toLower ∈ X.map Char.toLower := List.mem_map_of_mem _ hc
    rw [hXE] at this
    exact List.mem_reverse.1 this
  have hX0 : X ≠ [] := by
    intro hX
    rw [hX] at hXE
    exact hE0 (List.reverse_eq_nil_iff.1 hXE.symm)
  have hname : name = String.mk name.data := rfl
  have hext := extname_of_reverse name.data X r hXc hX0 hn
  rw [← hname] at hext
  by_cases hb : r.takeWhile (fun c => decide (c ≠ '/')) = []
  · rw [if_pos hb] at hext
    exact absurd hext hx
  · rw [if_neg hb] at hext
    rw [hext]
    unfold Js.toLowerCase
    simp only [List.map_cons, List.map_reverse, hXE, List.reverse_reverse]
    rfl

theorem uploadFileType_of_ext {file : UploadedFile}
    (h : Js.toLowerCase (NodePath.extname file.originalname) ∈ PublicCharacters.allowedExtensions) :
    ∃ t, PublicCharacters.uploadFileType file = some t ∧ t ∈ ["png", "json", "yaml"] := by
  unfold PublicCharacters.allowedExtensions at h
  unfold PublicCharacters.uploadFileType
  simp only
  split
  · exact ⟨"png", rfl, by decide⟩
  · split
    · exact ⟨"json", rfl, by decide⟩
    · split
      · exact ⟨"yaml", rfl, by decide⟩
      · rename_i h1 h2 h3
        simp only [List.mem_cons, List.mem_singleton, List.not_mem_nil, or_false] at h
        rcases h with h | h | h | h
        · exact absurd (Or.inr h) h1
        · exact absurd (Or.inr h) h2
        · exact absurd (Or.inr (Or.inl h)) h3
        · exact absurd (Or.inr (Or.inr h)) h3

theorem uploadFileType_of_mime {file : UploadedFile}
    (h : file.mimetype ∈ PublicCharacters.allowedMimeTypes) :
    ∃ t, PublicCharacters.uploadFileType file = some t ∧ t ∈ ["png", "json", "yaml"] := by
  have key : Js.toLowerCase file.mimetype = "image/png" ∨
      Js.includes (Js.toLowerCase file.mimetype) "json" = true ∨
      Js.includes (Js.toLowerCase file.mimetype) "yaml" = true := by
    unfold PublicCharacters.allowedMimeTypes at h
    simp only [List.mem_cons, List.mem_singleton, List.not_mem_nil, or_false] at h
    rcases h with h | h | h | h | h <;> rw [h] <;> decide
  unfold PublicCharacters.uploadFileType
  simp only
  split
  · exact ⟨"png", rfl, by decide⟩
  · split
    · exact ⟨"json", rfl, by decide⟩
    · split
      · exact ⟨"yaml", rfl, by decide⟩
      · rename_i h1 h2 h3
        rcases key with k | k | k
        · exact absurd (Or.inl k) h1
        · exact absurd (Or.inl k) h2
        · exact absurd (Or.inl k) h3

/-- C30, as stated, fails: an upload named `.json` with a MIME type outside
the list passes `validateFileType`, because its name ends with `.json`, but
`path.extname` finds no extension in a name that starts with its only dot; the
upload handler assigns no type and answers 400. -/
theorem dot_file_passes_validation :
    PublicCharacters.validateFileType (some dotFileUpload) = none ∧
    NodePath.extname dotFileUpload.originalname = "" ∧
    PublicCharacters.uploadFileType dotFileUpload = none ∧
    handle Route.charactersUpload
        { sampleEnv with fileType := PublicCharacters.uploadFileType }
        { user := some ann, name := some "Hero", file := some dotFileUpload } noFaults
        emptyStore
      = some ({ status := 400,
                body := Body.error "无法识别的文件类型: 仅支持 PNG, JSON, YAML" }, emptyStore) := by
  refine ⟨by decide, by decide, by decide, by decide⟩

/-- C30 (amended): an upload that `validateFileType` lets through is assigned
one of the types `png`, `json`, `yaml` by the upload handler whenever its MIME
type is in the allowed list or `path.extname` finds an extension in its
original name; the 400 branch is left to names whose last component is a bare
extension, with a MIME type outside the list. -/
theorem validated_upload_has_type (file : UploadedFile)
    (hv : PublicCharacters.validateFileType (some file) = none)
    (hx : file.mimetype ∈ PublicCharacters.allowedMimeTypes ∨
      NodePath.extname file.originalname ≠ "") :
    ∃ t, PublicCharacters.uploadFileType file = some t ∧ t ∈ ["png", "json", "yaml"] := by
  by_cases hm : file.mimetype ∈ PublicCharacters.allowedMimeTypes
  · exact uploadFileType_of_mime hm
  · have hne : NodePath.extname file.originalname ≠ "" := by
      rcases hx with h | h
      · exact absurd h hm
      · exact h
    have hany : PublicCharacters.allowedExtensions.any
        (fun ext => Js.endsWith (Js.toLowerCase file.originalname) ext) = true := by
      unfold PublicCharacters.validateFileType at hv
      simp only [hm, decide_False, Bool.false_or] at hv
      by_contra hc
      rw [Bool.not_eq_true] at hc
      rw [hc] at hv
      simp at hv
    rw [List.any_eq_true] at hany
    obtain ⟨e, he, hends⟩ := hany
    apply uploadFileType_of_ext
    have hcases : e = ".png" ∨ e = ".json" ∨ e = ".yaml" ∨ e = ".yml" := by
      unfold PublicCharacters.allowedExtensions at he
      simpa using he
    rcases hcases with h | h | h | h
    · subst h
      rw [extname_of_endsWith file.originalname ['p', 'n', 'g'] (by decide) (by decide)
        hends hne]
      decide
    · subst h
      rw [extname_of_endsWith file.originalname ['j', 's', 'o', 'n'] (by decide) (by decide)
        hends hne]
      decide
    · subst h
      rw [extname_of_endsWith file.originalname ['y', 'a', 'm', 'l'] (by decide) (by decide)
        hends hne]
      decide
    · subst h
      rw [extname_of_endsWith file.originalname ['y', 'm', 'l'] (by decide) (by decide)
        hends hne]
      decide

/-- C30 (amended) on an upload named `Hero.JSON` with a MIME type outside the
list. -/
theorem validated_upload_has_type_witness :
    PublicCharacters.validateFileType
      (some { dotFileUpload with originalname := "Hero.JSON" }) = none ∧
    PublicCharacters.uploadFileType { dotFileUpload with originalname := "Hero.JSON" }
      = some "json" ∧
    ∃ t, PublicCharacters.uploadFileType { dotFileUpload with originalname := "Hero.JSON" }
        = some t ∧ t ∈ ["png", "json", "yaml"] :=
  ⟨by decide, by decide,
    validated_upload_has_type { dotFileUpload with originalname := "Hero.JSON" } (by decide)
      (Or.inr (by decide))⟩
